import Mathlib

/-!
Verification development for the life-lang front end: a shallow embedding of
the lexer (`src/lexer.rs`, `src/lexer/get_tokens_utils.rs`), the parser
(`src/parser.rs`, `src/parser/dp.rs`), the AST arena and its visitors
(`src/ast.rs`, `src/ast/visitor.rs`) and the diagnostic renderer
(`src/lexer/diags.rs`), together with theorems settling the specification
claims about them.

Modelling conventions:
* The source text is represented by its grapheme-cluster decomposition, a
  `List Uc`.  The decomposition itself is produced by the external
  `unicode_segmentation` crate; for ASCII text (no CR) every character is its
  own cluster, which is what `ucsOfString` below produces.  A cluster whose
  UTF-8 length is one byte is `Uc.ascii c`; any longer cluster is `Uc.multi s`.
* Rust `usize` indices become `Nat`; the overflow-checked `+`/`-` on indices
  never fail on the executed paths, so plain `Nat` arithmetic models them.
* Functions whose Rust originals loop on an advancing index are written with
  an explicit fuel parameter so that they stay computable by the kernel; the
  canonical wrappers supply fuel that is proved (or, for concrete inputs,
  checked) to be sufficient.
* A Rust `panic!` is modelled as an `Except.error` carrying the panic message.
-/

namespace LifeLang

/-- One extended grapheme cluster of the normalized source text.
`ascii c` is a cluster that is a single one-byte character (Rust sees
`s.len() == 1`); `multi s` is any cluster whose UTF-8 encoding is longer than
one byte (`s.len() != 1`), stored as its character sequence. -/
inductive Uc where
  | ascii (c : Char)
  | multi (s : List Char)
deriving DecidableEq, Repr

/-- The character content of a cluster (what pushing the grapheme into a
string buffer appends). -/
def Uc.str : Uc → List Char
  | .ascii c => [c]
  | .multi s => s

/-- Rendering of one cluster as a Lean string, used inside error messages
(mirrors interpolating the grapheme `&str` with `format!`). -/
def Uc.toString (u : Uc) : String := String.mk u.str

/-- `StringLike::is_new_line` on a grapheme: the cluster is exactly `"\n"`. -/
def Uc.isNewLine (u : Uc) : Bool := u = Uc.ascii '\n'

/-- `uc_is_ascii_digit`: byte length 1 and an ASCII digit. -/
def ucIsAsciiDigit (u : Uc) : Bool :=
  match u with
  | .ascii c => c.isDigit
  | .multi _ => false

/-- `char::is_ascii_hexdigit` lifted to a one-byte cluster, as used by the
`\u` hex scan (`s.len() == 1 && is_ascii_hexdigit`). -/
def ucIsAsciiHexdigit (u : Uc) : Bool :=
  match u with
  | .ascii c => c.isDigit || ('a' ≤ c && c ≤ 'f') || ('A' ≤ c && c ≤ 'F')
  | .multi _ => false

/-- `char::is_ascii_alphanumeric` on a one-byte cluster. -/
def ucIsAsciiAlphanumeric (u : Uc) : Bool :=
  match u with
  | .ascii c => c.isDigit || ('a' ≤ c && c ≤ 'z') || ('A' ≤ c && c ≤ 'Z')
  | .multi _ => false

/-- `str::starts_with('_')` on a cluster. -/
def ucStartsWithUnderscore (u : Uc) : Bool :=
  match u.str.head? with
  | some c => c = '_'
  | none => false

/-- An inclusive grapheme-index span (`UcSpan` in `indices.rs`). -/
structure UcSpan where
  start : Nat
  endIncl : Nat
deriving DecidableEq, Repr

/-- `UcSpan::width`: `inclusive_end - start + 1`. -/
def UcSpan.width (s : UcSpan) : Nat := s.endIncl - s.start + 1

/-- The token kinds of `lexer.rs` (`TokenKind`).  String-ish payloads are
kept as character lists; `invalid` stores the message and the absolute index
of its `fakeTokenForInvalid` partner. -/
inductive TokenKind where
  | spaces (count : Nat)
  | newLine
  | semiColon
  | i64
  | stringLiteral (content : List Char)
  | comment
  | plus
  | minus
  | star
  | slash
  | percent
  | colon
  | lparen
  | rparen
  | lcurlyBrace
  | rcurlyBrace
  | eq
  | gt
  | lt
  | ge
  | le
  | eqEq
  | ne
  | not
  | identifier (name : List Char)
  | kwLet
  | kwVar
  | kwIf
  | kwElse
  | kwReturn
  | invalid (msg : String) (errorFakeTokenIdx : Nat)
  | fakeTokenForInvalid
deriving DecidableEq, Repr

/-- A token: kind plus grapheme span (`Token` in `lexer.rs`). -/
structure Token where
  kind : TokenKind
  span : UcSpan
deriving DecidableEq, Repr

/-- `TokenKindRepr::get_string_repr` for the kinds the parser interpolates
into messages (the fallback `Display` arm is irrelevant to those call sites). -/
def TokenKind.getStringRepr : TokenKind → String
  | .spaces count => String.mk (List.replicate count ' ')
  | .newLine => "\n"
  | .semiColon => ";"
  | .stringLiteral content => "\"" ++ String.mk content ++ "\""
  | .comment => "//"
  | .plus => "+"
  | .minus => "-"
  | .star => "*"
  | .slash => "/"
  | .percent => "%"
  | .colon => ":"
  | .eq => "="
  | .gt => ">"
  | .ge => ">="
  | .lt => "<"
  | .le => "<="
  | .eqEq => "=="
  | .ne => "!="
  | .lparen => "("
  | .rparen => ")"
  | .lcurlyBrace => "\x7b"
  | .rcurlyBrace => "\x7d"
  | .identifier name => String.mk name
  | .kwLet => "let"
  | .kwVar => "var"
  | .kwIf => "if"
  | .kwElse => "else"
  | .kwReturn => "return"
  | .i64 => "I64"
  | .not => "Not"
  | .invalid msg _ => msg
  | .fakeTokenForInvalid => "FakeTokenForInvalid"

/-- `CompilationUnit::normalize_new_lines` (`s.replace("\r\n", "\n")`) on a
character list. -/
def normalizeNewLines : List Char → List Char
  | [] => []
  | '\r' :: '\n' :: rest => '\n' :: normalizeNewLines rest
  | c :: rest => c :: normalizeNewLines rest

/-- The grapheme decomposition of an ASCII source string (each character is
its own extended grapheme cluster once CRLF is normalized away); this models
`CompilationUnit::from_string` composed with the external UAX-29 segmentation
for ASCII inputs. -/
def ucsOfString (s : String) : List Uc :=
  (normalizeNewLines s.data).map Uc.ascii

/-- `take_while(cu, start, f)`: the index of the last cluster of the maximal
run starting at `start` whose members satisfy `f` (i.e. one before the first
failing index), which is `start - 1` when the run is empty. -/
def takeWhileEnd (ucs : List Uc) (start : Nat) (f : Uc → Bool) : Nat :=
  start + ((ucs.drop start).takeWhile f).length - 1

/-- Scanning loop of `find_string_end`: `prev` is the cluster before the
current one, `pnl` the last newline index seen so far. -/
def findStringEndAux : Uc → List Uc → Nat → Option Nat → Option Nat
  | _, [], _, pnl => pnl
  | prev, s :: rest, idx, pnl =>
    if s = Uc.ascii '\n' then findStringEndAux s rest (idx + 1) (some idx)
    else if s = Uc.ascii '"' ∧ prev ≠ Uc.ascii '\\' then some idx
    else findStringEndAux s rest (idx + 1) pnl

/-- `find_string_end(cu, start)`: first `"` from `start` on whose immediately
preceding cluster is not `\`, else the last newline position, else none.
(`start ≥ 1` at every call site, so `start - 1` is the opening quote.) -/
def findStringEnd (ucs : List Uc) (start : Nat) : Option Nat :=
  match ucs.get? (start - 1) with
  | some prev => findStringEndAux prev (ucs.drop start) start none
  | none => none

/-- The error record `TakeStringError` of `get_tokens_utils.rs`. -/
structure TakeStringError where
  errorUcIdx : Nat
  msg : String
  nextUcIdx : Nat
deriving DecidableEq, Repr

/-- Hex-digit scan of `take_unicode`: starting after the `{`, stop at the
first `}` (returning its index, or the past-the-end index at EOF), failing on
the first cluster that is neither. -/
def takeUnicodeHexAux (afterRquote : Nat) : List Uc → Nat → Except TakeStringError Nat
  | [], idx => .ok idx
  | s :: rest, idx =>
    if s = Uc.ascii '}' then .ok idx
    else if ucIsAsciiHexdigit s then takeUnicodeHexAux afterRquote rest (idx + 1)
    else
      .error
        { errorUcIdx := idx
          msg := "only hex numbers are allowed in unicode sequence, `" ++ s.toString
            ++ "` is not allowed"
          nextUcIdx := afterRquote }

/-- Numeric value of a hex-digit character (inputs are checked hex digits). -/
def hexDigitVal (c : Char) : Nat :=
  if c.isDigit then c.toNat - '0'.toNat
  else if 'a' ≤ c && c ≤ 'f' then c.toNat - 'a'.toNat + 10
  else c.toNat - 'A'.toNat + 10

/-- Value of a hex-digit string (`u32::from_str_radix(s, 16)` modulo the
overflow check made separately). -/
def hexVal (s : List Char) : Nat :=
  s.foldl (fun acc c => acc * 16 + hexDigitVal c) 0

/-- `char::from_u32` succeeds exactly on Unicode scalar values. -/
def isUnicodeScalar (n : Nat) : Bool :=
  (n < 0xd800 || (0xe000 ≤ n && n < 0x110000))

/-- `take_unicode(cu, after_rquote_uc_idx, lbrace_uc_idx)`: parse a
`\u{HEX}` sequence whose `{` is expected at `lbrace`, returning the index of
the closing `}` together with the decoded character. -/
def takeUnicode (ucs : List Uc) (afterRquote lbrace : Nat) :
    Except TakeStringError (Nat × List Char) :=
  if ucs.get? lbrace ≠ some (Uc.ascii '{') then
    .error
      { errorUcIdx := lbrace
        msg := "unicode should be in the format of \\u\x7b...\x7d"
        nextUcIdx := afterRquote }
  else
    match takeUnicodeHexAux afterRquote (ucs.drop (lbrace + 1)) (lbrace + 1) with
    | .error e => .error e
    | .ok rbrace =>
      if rbrace = lbrace + 1 then
        .error
          { errorUcIdx := rbrace
            msg := "unicode should be in the format of \\u\x7b...\x7d, cannot be empty between `\x7b\x7d`"
            nextUcIdx := afterRquote }
      else
        let digits := ((ucs.drop (lbrace + 1)).take (rbrace - (lbrace + 1))).flatMap Uc.str
        let padded := if digits.length % 2 ≠ 0 then '0' :: digits else digits
        let n := hexVal padded
        if n > 0xffffffff ∨ isUnicodeScalar n = false then
          .error
            { errorUcIdx := lbrace + 1
              msg := "`" ++ String.mk padded ++ "` is not a valid unicode code point"
              nextUcIdx := afterRquote }
        else
          .ok (rbrace, [Char.ofNat n])

/-- The escape table of `take_string` (`escaped_chars`); keys are one-byte
clusters, so a `multi` cluster never matches. -/
def escapedUc (u : Uc) : Option Char :=
  match u with
  | .ascii '\\' => some '\\'
  | .ascii '"' => some '"'
  | .ascii 'n' => some '\n'
  | .ascii 'r' => some '\r'
  | .ascii 't' => some '\t'
  | .ascii '0' => some (Char.ofNat 0)
  | _ => none

/-- The `unterminated_err_fn` error of `take_string`. -/
def unterminatedErr (ucs : List Uc) (lquote : Nat) : TakeStringError :=
  { errorUcIdx := lquote
    msg := "unterminated string literal"
    nextUcIdx := ucs.length }

/-- Main loop of `take_string`: scan from `start` with the escape flag,
accumulating decoded content.  Fuel only bounds the iteration count; each
step advances `start` by at least one, so `ucs.length + 1` fuel is always
enough (running out is modelled as the EOF outcome it would converge to). -/
def takeStringLoop (ucs : List Uc) (afterRquote lquote : Nat) :
    Nat → Nat → Bool → List Char → Except TakeStringError (Nat × List Char)
  | 0, _, _, _ => .error (unterminatedErr ucs lquote)
  | fuel + 1, start, inEscape, content =>
    match ucs.get? start with
    | none => .error (unterminatedErr ucs lquote)
    | some s =>
      if inEscape then
        if s = Uc.ascii 'u' then
          match takeUnicode ucs afterRquote (start + 1) with
          | .error e => .error e
          | .ok (newStart, chunk) =>
            takeStringLoop ucs afterRquote lquote fuel (newStart + 1) false (content ++ chunk)
        else
          match escapedUc s with
          | some c =>
            takeStringLoop ucs afterRquote lquote fuel (start + 1) false (content ++ [c])
          | none =>
            .error
              { errorUcIdx := start
                msg := "invalid escape char `" ++ s.toString ++ "`"
                nextUcIdx := afterRquote }
      else if s = Uc.ascii '"' then .ok (start, content)
      else if s = Uc.ascii '\\' then
        takeStringLoop ucs afterRquote lquote fuel (start + 1) true content
      else takeStringLoop ucs afterRquote lquote fuel (start + 1) false (content ++ s.str)

/-- `take_string(cu, start)` (`start` is one past the opening quote). -/
def takeString (ucs : List Uc) (start : Nat) : Except TakeStringError (Nat × List Char) :=
  match findStringEnd ucs start with
  | none => .error (unterminatedErr ucs (start - 1))
  | some rquote => takeStringLoop ucs (rquote + 1) (start - 1) (ucs.length + 1) start false []

/-- `get_single_char_token_kind`. -/
def getSingleCharTokenKind (c : Char) : Option TokenKind :=
  match c with
  | '+' => some .plus
  | '-' => some .minus
  | '*' => some .star
  | '/' => some .slash
  | '%' => some .percent
  | '(' => some .lparen
  | ')' => some .rparen
  | ';' => some .semiColon
  | '{' => some .lcurlyBrace
  | '}' => some .rcurlyBrace
  | ':' => some .colon
  | _ => none

/-- `get_keyword`. -/
def getKeyword (s : List Char) : Option TokenKind :=
  if s = "let".data then some .kwLet
  else if s = "var".data then some .kwVar
  else if s = "if".data then some .kwIf
  else if s = "else".data then some .kwElse
  else if s = "return".data then some .kwReturn
  else none

/-- Result of one iteration of the `get_tokens` loop: the tokens pushed (in
order) and the next grapheme index.  `n` is the number of tokens already in
the stream (needed for the absolute back-index stored in `invalid`). -/
abbrev LexStepResult := List Token × Nat

/-- `try_multi_byte_char`: a cluster longer than one byte starts a maximal
run of such clusters, emitted as a fake/invalid pair. -/
def tryMultiByteChar (ucs : List Uc) (n i : Nat) (u : Uc) : Option LexStepResult :=
  match u with
  | .ascii _ => none
  | .multi s =>
    let newEnd := takeWhileEnd ucs (i + 1) (fun v => match v with | .ascii _ => false | .multi _ => true)
    some
      ([ { kind := .fakeTokenForInvalid, span := ⟨i, newEnd⟩ },
         { kind := .invalid
             ("multi-char unicode like `" ++ String.mk s
               ++ "` only supported in strings and comments") n
           span := ⟨i, newEnd⟩ } ],
       newEnd + 1)

/-- `try_new_line`. -/
def tryNewLine (i : Nat) (c : Char) : Option LexStepResult :=
  if c = '\n' then some ([ { kind := .newLine, span := ⟨i, i⟩ } ], i + 1) else none

/-- `must_be_single_zero`. -/
def mustBeSingleZero (ucs : List Uc) (n i : Nat) : LexStepResult :=
  let newEnd := takeWhileEnd ucs (i + 1) ucIsAsciiDigit
  if newEnd = i then ([ { kind := .i64, span := ⟨i, newEnd⟩ } ], newEnd + 1)
  else
    ([ { kind := .fakeTokenForInvalid, span := ⟨i, newEnd⟩ },
       { kind := .invalid "leading zero is not allowed" n, span := ⟨i, newEnd⟩ } ],
     newEnd + 1)

/-- `must_be_integer`. -/
def mustBeInteger (ucs : List Uc) (i : Nat) : LexStepResult :=
  let newEnd := takeWhileEnd ucs (i + 1) ucIsAsciiDigit
  ([ { kind := .i64, span := ⟨i, newEnd⟩ } ], newEnd + 1)

/-- `must_be_spaces` (the count is the span width). -/
def mustBeSpaces (ucs : List Uc) (i : Nat) : LexStepResult :=
  let newEnd := takeWhileEnd ucs (i + 1) (fun v => v = Uc.ascii ' ')
  ([ { kind := .spaces (UcSpan.width ⟨i, newEnd⟩), span := ⟨i, newEnd⟩ } ], newEnd + 1)

/-- `must_be_comment`. -/
def mustBeComment (ucs : List Uc) (i : Nat) : LexStepResult :=
  let newEnd := takeWhileEnd ucs (i + 1) (fun v => !v.isNewLine)
  ([ { kind := .comment, span := ⟨i, newEnd⟩ } ], newEnd + 1)

/-- `must_be_name`: identifier/keyword run starting with `c`. -/
def mustBeName (ucs : List Uc) (i : Nat) (c : Char) : LexStepResult :=
  let newEnd :=
    if c = '_' then takeWhileEnd ucs (i + 1) ucIsAsciiAlphanumeric
    else
      takeWhileEnd ucs (i + 1)
        (fun v => ucIsAsciiAlphanumeric v || ucStartsWithUnderscore v)
  let s := ((ucs.drop i).take (newEnd + 1 - i)).flatMap Uc.str
  match getKeyword s with
  | some kind => ([ { kind := kind, span := ⟨i, newEnd⟩ } ], newEnd + 1)
  | none => ([ { kind := .identifier s, span := ⟨i, newEnd⟩ } ], newEnd + 1)

/-- Shared shape of `must_be_gt_or_gteq` / `lt` / `eq` / `not`: a two-char
kind when the next cluster is `=`, else the one-char kind. -/
def mustBeTwoCharOr (ucs : List Uc) (i : Nat) (two one : TokenKind) : LexStepResult :=
  if ucs.get? (i + 1) = some (Uc.ascii '=') then
    ([ { kind := two, span := ⟨i, i + 1⟩ } ], i + 2)
  else ([ { kind := one, span := ⟨i, i⟩ } ], i + 1)

/-- `try_multi_byte_tokens`: dispatch on the first character. -/
def tryMultiByteTokens (ucs : List Uc) (n i : Nat) (c : Char) : Option LexStepResult :=
  if c = '0' then some (mustBeSingleZero ucs n i)
  else if '1' ≤ c ∧ c ≤ '9' then some (mustBeInteger ucs i)
  else if c = ' ' then some (mustBeSpaces ucs i)
  else if c = '#' then some (mustBeComment ucs i)
  else if ('a' ≤ c ∧ c ≤ 'z') ∨ ('A' ≤ c ∧ c ≤ 'Z') ∨ c = '_' then some (mustBeName ucs i c)
  else if c = '>' then some (mustBeTwoCharOr ucs i .ge .gt)
  else if c = '<' then some (mustBeTwoCharOr ucs i .le .lt)
  else if c = '=' then some (mustBeTwoCharOr ucs i .eqEq .eq)
  else if c = '!' then some (mustBeTwoCharOr ucs i .ne .not)
  else none

/-- `try_string`: on `"` run `take_string`; success yields one
`stringLiteral` token, failure a fake/invalid pair and the recovery index. -/
def tryString (ucs : List Uc) (n i : Nat) (c : Char) : Option LexStepResult :=
  if c ≠ '"' then none
  else
    match takeString ucs (i + 1) with
    | .ok (newEnd, content) =>
      some ([ { kind := .stringLiteral content, span := ⟨i, newEnd⟩ } ], newEnd + 1)
    | .error e =>
      some
        ([ { kind := .fakeTokenForInvalid, span := ⟨e.errorUcIdx, e.errorUcIdx⟩ },
           { kind := .invalid e.msg n, span := ⟨i, e.errorUcIdx⟩ } ],
         e.nextUcIdx)

/-- `try_single_byte_token`. -/
def trySingleByteToken (i : Nat) (c : Char) : Option LexStepResult :=
  match getSingleCharTokenKind c with
  | some kind => some ([ { kind := kind, span := ⟨i, i⟩ } ], i + 1)
  | none => none

/-- `must_be_invalid_stuff`. -/
def mustBeInvalidStuff (n i : Nat) (c : Char) : LexStepResult :=
  ([ { kind := .fakeTokenForInvalid, span := ⟨i, i⟩ },
     { kind := .invalid ("unsupported `" ++ String.mk [c] ++ "`") n, span := ⟨i, i⟩ } ],
   i + 1)

/-- One iteration of the `get_tokens` loop at grapheme `u = ucs[i]`, with `n`
tokens already emitted. -/
def lexStep (ucs : List Uc) (n i : Nat) (u : Uc) : LexStepResult :=
  match tryMultiByteChar ucs n i u with
  | some r => r
  | none =>
    let c := match u with | .ascii c => c | .multi s => s.headD ' '
    match tryNewLine i c with
    | some r => r
    | none =>
      match tryMultiByteTokens ucs n i c with
      | some r => r
      | none =>
        match tryString ucs n i c with
        | some r => r
        | none =>
          match trySingleByteToken i c with
          | some r => r
          | none => mustBeInvalidStuff n i c

/-- The `get_tokens` while-loop.  Fuel bounds the iteration count; `none`
means it ran out (`lexStep` strictly advances `i`, so `ucs.length + 1` is
always sufficient, which `getTokens_total` proves). -/
def getTokensAux (ucs : List Uc) : Nat → Nat → Nat → Option (List Token)
  | 0, _, _ => none
  | fuel + 1, n, i =>
    match ucs.get? i with
    | none => some []
    | some u =>
      let r := lexStep ucs n i u
      match getTokensAux ucs fuel (n + r.1.length) r.2 with
      | none => none
      | some rest => some (r.1 ++ rest)

/-- `CompilationUnit::get_tokens` (token stream only; the line index for the
diagnostic renderer is modelled separately). -/
def getTokens (ucs : List Uc) : List Token :=
  (getTokensAux ucs (ucs.length + 1) 0 0).getD []

/-- `Tokens::find_next_non_blank_token` skips exactly `Spaces` and `NewLine`
tokens (scanning loop over the dropped suffix). -/
def isBlankKind (k : TokenKind) : Bool :=
  match k with
  | .spaces _ => true
  | .newLine => true
  | _ => false

/-- Scanning loop for `findNextNonBlankToken`. -/
def findNextNonBlankAux : List Token → Nat → Option (Nat × Token)
  | [], _ => none
  | t :: ts, i => if isBlankKind t.kind then findNextNonBlankAux ts (i + 1) else some (i, t)

/-- `Tokens::find_next_non_blank_token(next_token_idx)`. -/
def findNextNonBlankToken (tokens : List Token) (i : Nat) : Option (Nat × Token) :=
  findNextNonBlankAux (tokens.drop i) i

/-! ## AST arena (`ast.rs`) -/

/-- `Anno`. -/
inductive Anno where
  | type (tokenIdx : Nat)
deriving DecidableEq, Repr

/-- `Expr`; children are arena indices (`AstNodeIdx`) or token indices. -/
inductive Expr where
  | i64 (tokenIdx : Nat)
  | identifier (tokenIdx : Nat)
  | ifExpr (ifKw : Nat) (conditionNodeIdx thenBlockNodeIdx : Nat)
      (elseKw : Option Nat) (elseBlockNodeIdx : Option Nat) (ifNodeIdx : Option Nat)
  | stringLiteral (tokenIdx : Nat) (content : List Char)
  | arithmeticOrLogical (operator lhs rhs : Nat)
  | negation (operator operand : Nat)
  | grouped (lparen expressionNodeIdx rparen : Nat)
  | block (lcurlybracket : Nat) (statementsNodeIndices : List Nat) (rcurlybracket : Nat)
  | returnExpr (returnKw : Nat) (expressionNodeIdx : Option Nat)
deriving DecidableEq, Repr

/-- `Stat`. -/
inductive Stat where
  | expression (nodeIdx : Nat)
  | definition (kw : Nat) (lhsExpressionNodeIdx : Nat) (colon : Option Nat)
      (typeNodeIdx : Option Nat) (eq : Nat) (rhsExpressionNodeIdx : Nat)
deriving DecidableEq, Repr

/-- `AstNode`. -/
inductive AstNode where
  | module (statementsNodeIndices : List Nat)
  | statement (s : Stat)
  | expression (e : Expr)
  | anno (a : Anno)
deriving DecidableEq, Repr

/-- `AstNodes::push`: append, returning the new node's index. -/
def pushNode (nodes : List AstNode) (node : AstNode) : List AstNode × Nat :=
  (nodes ++ [node], nodes.length)

/-! ## Parse errors (`parser.rs`) -/

/-- `SingleParseError`. -/
inductive SingleParseError where
  | context (msg : String)
  | unexpectedEof (msg : String) (ctxTokenIdx : Nat)
  | integerOverflow (token : Nat)
  | mismatchedParentheses (lparen errorTokenIdx : Nat)
  | unexpectedToken (msg : String) (ctxStartTokenIdx errorTokenIdx : Nat)
  | lexErrors (errors : List (Nat × String))
deriving DecidableEq, Repr

/-- `ParseError` (`MutilParseError` is the parallel collector, `withContext`
the stack `[e, ctx1, ctx2, ...]`). -/
inductive ParseError where
  | empty
  | multi (errors : List ParseError)
  | single (e : SingleParseError)
  | withContext (errors : List ParseError)
deriving Repr

/-- `ParseError::add_error_context`.  The Rust code panics on `Empty`
("BUG: cannot add context to empty error"); that arm is unreachable at every
call site and modelled by returning `empty`. -/
def ParseError.addErrorContext (e : ParseError) (msg : String) : ParseError :=
  match e with
  | .withContext errors => .withContext (errors ++ [.single (.context msg)])
  | .empty => .empty
  | e => .withContext [e, .single (.context msg)]

/-- `ParseError::add_new_error`. -/
def ParseError.addNewError (e : ParseError) (error : ParseError) : ParseError :=
  match e with
  | .multi errors => .multi (errors ++ [error])
  | .empty => error
  | e => .multi [e, error]

/-- `HappyPath`. -/
inductive HappyPath where
  | finished
  | node (node : AstNode) (nextTokenIdx : Nat)
deriving DecidableEq, Repr

/-- `ParseResult`. -/
abbrev ParseResult := Except ParseError HappyPath

/-! ## Parser (`parser/dp.rs`) -/

/-- `Associativity`. -/
inductive Associativity where
  | left
  | right
deriving DecidableEq, Repr

/-- `get_precedence`: level and associativity of a binary-operator token. -/
def getPrecedence (token : Token) : Option (Int × Associativity) :=
  match token.kind with
  | .eqEq => some (1, .left)
  | .ne => some (1, .left)
  | .lt => some (1, .left)
  | .le => some (1, .left)
  | .gt => some (1, .left)
  | .ge => some (1, .left)
  | .plus => some (5, .left)
  | .minus => some (5, .left)
  | .star => some (6, .left)
  | .slash => some (6, .left)
  | .percent => some (6, .left)
  | _ => none

/-- `is_end_of_expression`: `=`, `;`, `)`. -/
def isEndOfExpression (token : Token) : Bool :=
  token.kind = .eq || token.kind = .semiColon || token.kind = .rparen

/-- `can_shift_with_op`: the operator to shift with (if any) and the minimum
precedence for its right-hand side. -/
def canShiftWithOp (tokens : List Token) (i : Nat) (minPrecedence : Int) :
    Option (Nat × Token × Int) :=
  match findNextNonBlankToken tokens i with
  | none => none
  | some (opIdx, opToken) =>
    if isEndOfExpression opToken then none
    else
      match getPrecedence opToken with
      | none => none
      | some (precedence, associativity) =>
        if precedence < minPrecedence then none
        else
          some (opIdx, opToken,
            if associativity = Associativity.left then precedence + 1 else precedence)

/-- `find_next_block_end` (inner helper of `find_recovery_idx`): find the `}`
closing the braces opened from `i` on.  Fuel bounds the iteration count. -/
def findNextBlockEndAux (tokens : List Token) : Nat → Nat → Int → Option Nat
  | 0, _, _ => none
  | fuel + 1, i, blockLevel =>
    match findNextNonBlankToken tokens i with
    | none => none
    | some (j, t) =>
      match t.kind with
      | .lcurlyBrace => findNextBlockEndAux tokens fuel (j + 1) (blockLevel + 1)
      | .rcurlyBrace =>
        if blockLevel - 1 = 0 then some j
        else findNextBlockEndAux tokens fuel (j + 1) (blockLevel - 1)
      | _ => findNextBlockEndAux tokens fuel (j + 1) blockLevel

def findNextBlockEnd (tokens : List Token) (i : Nat) : Option Nat :=
  findNextBlockEndAux tokens (tokens.length + 1) i 0

/-- `find_next_stat_end`: like `findNextBlockEnd` but also stops at a `;`
when the running brace level is zero. -/
def findNextStatEndAux (tokens : List Token) : Nat → Nat → Int → Option Nat
  | 0, _, _ => none
  | fuel + 1, i, blockLevel =>
    match findNextNonBlankToken tokens i with
    | none => none
    | some (j, t) =>
      match t.kind with
      | .lcurlyBrace => findNextStatEndAux tokens fuel (j + 1) (blockLevel + 1)
      | .rcurlyBrace =>
        if blockLevel - 1 = 0 then some j
        else findNextStatEndAux tokens fuel (j + 1) (blockLevel - 1)
      | .semiColon => if blockLevel = 0 then some j else findNextStatEndAux tokens fuel (j + 1) blockLevel
      | _ => findNextStatEndAux tokens fuel (j + 1) blockLevel

def findNextStatEnd (tokens : List Token) (i : Nat) : Option Nat :=
  findNextStatEndAux tokens (tokens.length + 1) i 0

/-- `find_recovery_idx` (recursive through the `else` / after-`}` cases);
fuel bounds the recursion depth, `tokens.length` (the past-the-end index) is
returned on exhaustion, which canonical fuel never reaches. -/
def findRecoveryIdxAux (tokens : List Token) : Nat → Nat → Nat
  | 0, _ => tokens.length
  | fuel + 1, nextTokenIdx =>
    match findNextNonBlankToken tokens nextTokenIdx with
    | none => nextTokenIdx
    | some (tokenIdx, token) =>
      match token.kind with
      | .kwIf | .lcurlyBrace =>
        (match findNextBlockEnd tokens tokenIdx with
         | none => tokens.length
         | some rcurlyIdx =>
           match findNextNonBlankToken tokens (rcurlyIdx + 1) with
           | some (elseIdx, elseTok) =>
             if elseTok.kind = .kwElse then findRecoveryIdxAux tokens fuel elseIdx
             else findRecoveryIdxAux tokens fuel (rcurlyIdx + 1)
           | none => tokens.length)
      | _ =>
        match findNextStatEnd tokens tokenIdx with
        | some j => j + 1
        | none => tokens.length

def findRecoveryIdx (tokens : List Token) (i : Nat) : Nat :=
  findRecoveryIdxAux tokens (tokens.length + 1) i

/-- `must_be_i64_after_dash_sign`. -/
def mustBeI64AfterDashSign (tokens : List Token) (nodes : List AstNode)
    (nextTokenIdx dashTokenIdx : Nat) : List AstNode × ParseResult :=
  match findNextNonBlankToken tokens nextTokenIdx with
  | none =>
    (nodes, .error (.single (.unexpectedEof "expected a number after `-`" dashTokenIdx)))
  | some (numIdx, numToken) =>
    match numToken.kind with
    | .i64 =>
      let (nodes, operandIdx) := pushNode nodes (.expression (.i64 numIdx))
      (nodes, .ok (.node (.expression (.negation dashTokenIdx operandIdx)) (numIdx + 1)))
    | .minus =>
      (nodes, .error (.single (.unexpectedToken "`-` cannot be chained" dashTokenIdx numIdx)))
    | _ =>
      (nodes, .error (.single (.unexpectedToken "expected a number after `-`" dashTokenIdx numIdx)))

/-- `parse_type_from_colon`. -/
def parseTypeFromColon (tokens : List Token) (nodes : List AstNode) (colonTokenIdx : Nat) :
    List AstNode × ParseResult :=
  match findNextNonBlankToken tokens (colonTokenIdx + 1) with
  | none =>
    (nodes, .error (.single (.unexpectedEof "expected a type expression" (colonTokenIdx + 1))))
  | some (typeStartIdx, typeStartToken) =>
    match typeStartToken.kind with
    | .identifier _ => (nodes, .ok (.node (.anno (.type typeStartIdx)) (typeStartIdx + 1)))
    | _ =>
      (nodes,
        .error (.single (.unexpectedToken "expected a type expression" colonTokenIdx typeStartIdx)))

/-- The optional-type-annotation step of `parse_definition_statement`: when
the next non-blank token is a `:`, parse a type and push its node; returns
`(colon index?, type node index?, position before the expected =)`. -/
def parseDefinitionAnno (tokens : List Token) (nodes : List AstNode) (afterLhsIdx : Nat) :
    List AstNode × Except ParseError (Option Nat × Option Nat × Nat) :=
  match findNextNonBlankToken tokens afterLhsIdx with
  | some (colonIdx, colonToken) =>
    if colonToken.kind = .colon then
      match parseTypeFromColon tokens nodes colonIdx with
      | (nodes, .error e) =>
        (nodes, .error (e.addErrorContext "expected a type expression after `:`"))
      | (nodes, .ok .finished) =>
        (nodes,
          .error (.single (.unexpectedEof "expected a type expression after `:`" colonIdx)))
      | (nodes, .ok (.node typeExpr afterTypeIdx)) =>
        let (nodes, typeNodeIdx) := pushNode nodes typeExpr
        (nodes, .ok (some colonIdx, some typeNodeIdx, afterTypeIdx))
    else (nodes, .ok (none, none, afterLhsIdx))
  | none => (nodes, .ok (none, none, afterLhsIdx))

/-- `must_find`: locate the next non-blank token and require a kind. -/
def mustFind (tokens : List Token) (ctxStartTokenIdx nextTokenIdx : Nat) (errMsg : String)
    (matchTokenKind : TokenKind → Bool) : Except SingleParseError Nat :=
  match findNextNonBlankToken tokens nextTokenIdx with
  | none => .error (.unexpectedEof errMsg ctxStartTokenIdx)
  | some (tokenIdx, token) =>
    if matchTokenKind token.kind then .ok tokenIdx
    else .error (.unexpectedToken errMsg ctxStartTokenIdx tokenIdx)

/-- `find_start_of_non_empty_statement`: also skips `;` and comments. -/
def findStartOfNonEmptyStatementAux (tokens : List Token) : Nat → Nat → Option (Nat × Token)
  | 0, _ => none
  | fuel + 1, i =>
    match findNextNonBlankToken tokens i with
    | none => none
    | some (j, t) =>
      match t.kind with
      | .semiColon | .comment => findStartOfNonEmptyStatementAux tokens fuel (j + 1)
      | _ => some (j, t)

def findStartOfNonEmptyStatement (tokens : List Token) (i : Nat) : Option (Nat × Token) :=
  findStartOfNonEmptyStatementAux tokens (tokens.length + 1) i

mutual

/-- `parse_expression(ast, next_token_idx, min_precedence)`. -/
def parseExpression (tokens : List Token) :
    Nat → List AstNode → Nat → Int → List AstNode × ParseResult
  | 0, nodes, _, _ => (nodes, .error .empty)
  | fuel + 1, nodes, nextTokenIdx, minPrecedence =>
    match findNextNonBlankToken tokens nextTokenIdx with
    | none => (nodes, .ok .finished)
    | some (exprStartIdx, exprStartToken) =>
      if exprStartToken.kind = .kwIf then parseIfExpression tokens fuel nodes exprStartIdx
      else if exprStartToken.kind = .kwReturn then
        parseReturnExpression tokens fuel nodes exprStartIdx
      else
        match parsePrimary tokens fuel nodes exprStartIdx exprStartToken with
        | (nodes, .error e) => (nodes, .error e)
        | (nodes, .ok .finished) => (nodes, .error .empty)
        | (nodes, .ok (.node lhs afterLhsIdx)) =>
          parseExpressionLoop tokens fuel nodes lhs afterLhsIdx minPrecedence
termination_by structural fuel => fuel

/-- The shift loop inside `parse_expression` (`while let Some(...) =
can_shift_with_op(...)`); the loop keeps testing against the caller's
`min_precedence` while each right-hand side is parsed at the shifted
operator's precedence plus one. -/
def parseExpressionLoop (tokens : List Token) :
    Nat → List AstNode → AstNode → Nat → Int → List AstNode × ParseResult
  | 0, nodes, _, _, _ => (nodes, .error .empty)
  | fuel + 1, nodes, lhs, nextTokenIdx, minPrecedence =>
    match canShiftWithOp tokens nextTokenIdx minPrecedence with
    | none => (nodes, .ok (.node lhs nextTokenIdx))
    | some (opTokenIdx, opToken, rhsMinPrecedence) =>
      let noRhsMsg :=
        "operator `" ++ opToken.kind.getStringRepr ++ "` must be followed by an expression"
      match parseExpression tokens fuel nodes (opTokenIdx + 1) rhsMinPrecedence with
      | (nodes, .error e) => (nodes, .error (e.addErrorContext noRhsMsg))
      | (nodes, .ok .finished) =>
        (nodes, .error (.single (.unexpectedEof noRhsMsg opTokenIdx)))
      | (nodes, .ok (.node rhs afterRhsIdx)) =>
        let (nodes, lhsNodeIdx) := pushNode nodes lhs
        let (nodes, rhsNodeIdx) := pushNode nodes rhs
        parseExpressionLoop tokens fuel nodes
          (.expression (.arithmeticOrLogical opTokenIdx lhsNodeIdx rhsNodeIdx))
          afterRhsIdx minPrecedence
termination_by structural fuel => fuel

/-- `parse_primary`. -/
def parsePrimary (tokens : List Token) :
    Nat → List AstNode → Nat → Token → List AstNode × ParseResult
  | 0, nodes, _, _ => (nodes, .error .empty)
  | fuel + 1, nodes, startTokenIdx, startToken =>
    match startToken.kind with
    | .i64 => (nodes, .ok (.node (.expression (.i64 startTokenIdx)) (startTokenIdx + 1)))
    | .identifier _ =>
      (nodes, .ok (.node (.expression (.identifier startTokenIdx)) (startTokenIdx + 1)))
    | .minus => mustBeI64AfterDashSign tokens nodes (startTokenIdx + 1) startTokenIdx
    | .lparen => mustBeParenExpression tokens fuel nodes startTokenIdx
    | .stringLiteral content =>
      (nodes,
        .ok (.node (.expression (.stringLiteral startTokenIdx content)) (startTokenIdx + 1)))
    | _ =>
      (nodes,
        .error (.single (.unexpectedToken "expected an expression" startTokenIdx startTokenIdx)))
termination_by structural fuel => fuel

/-- `must_be_paren_expression`. -/
def mustBeParenExpression (tokens : List Token) :
    Nat → List AstNode → Nat → List AstNode × ParseResult
  | 0, nodes, _ => (nodes, .error .empty)
  | fuel + 1, nodes, lparenTokenIdx =>
    match parseExpression tokens fuel nodes (lparenTokenIdx + 1) 0 with
    | (nodes, .error e) =>
      (nodes, .error (e.addErrorContext "not a valid expression between `()`"))
    | (nodes, .ok .finished) =>
      (nodes, .error (.single (.unexpectedEof "nothing after `(`" lparenTokenIdx)))
    | (nodes, .ok (.node expr afterExprIdx)) =>
      match findNextNonBlankToken tokens afterExprIdx with
      | none => (nodes, .error (.single (.unexpectedEof "no matching `)`" lparenTokenIdx)))
      | some (rparenIdx, rparenToken) =>
        if rparenToken.kind = .rparen then
          let (nodes, exprNodeIdx) := pushNode nodes expr
          (nodes,
            .ok (.node (.expression (.grouped lparenTokenIdx exprNodeIdx rparenIdx))
              (rparenIdx + 1)))
        else
          (nodes, .error (.single (.mismatchedParentheses lparenTokenIdx rparenIdx)))
termination_by structural fuel => fuel

/-- `parse_return_expression`. -/
def parseReturnExpression (tokens : List Token) :
    Nat → List AstNode → Nat → List AstNode × ParseResult
  | 0, nodes, _ => (nodes, .error .empty)
  | fuel + 1, nodes, returnKwTokenIdx =>
    match parseExpression tokens fuel nodes (returnKwTokenIdx + 1) 0 with
    | (nodes, .error e) =>
      (nodes, .error (e.addErrorContext "expected an expression after `return`"))
    | (nodes, .ok .finished) =>
      (nodes,
        .error (.single (.unexpectedEof "expected an expression after `return`" returnKwTokenIdx)))
    | (nodes, .ok (.node expr afterExprIdx)) =>
      let (nodes, exprNodeIdx) := pushNode nodes expr
      (nodes,
        .ok (.node (.expression (.returnExpr returnKwTokenIdx (some exprNodeIdx))) afterExprIdx))
termination_by structural fuel => fuel

/-- `parse_block_expression`. -/
def parseBlockExpression (tokens : List Token) :
    Nat → List AstNode → Nat → List AstNode × ParseResult
  | 0, nodes, _ => (nodes, .error .empty)
  | fuel + 1, nodes, lcurlyTokenIdx =>
    parseBlockLoop tokens fuel nodes lcurlyTokenIdx [] .empty (lcurlyTokenIdx + 1)
termination_by structural fuel => fuel

/-- The statement loop inside `parse_block_expression`. -/
def parseBlockLoop (tokens : List Token) :
    Nat → List AstNode → Nat → List Nat → ParseError → Nat → List AstNode × ParseResult
  | 0, nodes, _, _, error, _ => (nodes, .error error)
  | fuel + 1, nodes, lcurlyTokenIdx, stmts, error, nextTokenIdx =>
    match findNextNonBlankToken tokens nextTokenIdx with
    | some (rcurlyIdx, t) =>
      if t.kind = .rcurlyBrace then
        (nodes,
          .ok (.node (.expression (.block lcurlyTokenIdx stmts rcurlyIdx)) (rcurlyIdx + 1)))
      else
        parseBlockStep tokens fuel nodes lcurlyTokenIdx stmts error nextTokenIdx
    | none => parseBlockStep tokens fuel nodes lcurlyTokenIdx stmts error nextTokenIdx
termination_by structural fuel => fuel

/-- One `parse_statement` round of the block loop (the part after the `}`
check). -/
def parseBlockStep (tokens : List Token) :
    Nat → List AstNode → Nat → List Nat → ParseError → Nat → List AstNode × ParseResult
  | 0, nodes, _, _, error, _ => (nodes, .error error)
  | fuel + 1, nodes, lcurlyTokenIdx, stmts, error, nextTokenIdx =>
    match parseStatement tokens fuel nodes nextTokenIdx with
    | (nodes, .ok (.node statement tokenIdx)) =>
      let (nodes, stmtIdx) := pushNode nodes statement
      parseBlockLoop tokens fuel nodes lcurlyTokenIdx (stmts ++ [stmtIdx]) error tokenIdx
    | (nodes, .ok .finished) =>
      (nodes,
        .error (error.addNewError (.single (.unexpectedEof "no matching `\x7d`" lcurlyTokenIdx))))
    | (nodes, .error e) =>
      parseBlockLoop tokens fuel nodes lcurlyTokenIdx stmts (error.addNewError e)
        (findRecoveryIdx tokens nextTokenIdx)
termination_by structural fuel => fuel

/-- `parse_if_expression`. -/
def parseIfExpression (tokens : List Token) :
    Nat → List AstNode → Nat → List AstNode × ParseResult
  | 0, nodes, _ => (nodes, .error .empty)
  | fuel + 1, nodes, ifKwTokenIdx =>
    match parseExpression tokens fuel nodes (ifKwTokenIdx + 1) 0 with
    | (nodes, .error e) =>
      (nodes, .error (e.addErrorContext "expected a logical expression after `if`"))
    | (nodes, .ok .finished) =>
      (nodes,
        .error (.single (.unexpectedEof "expected a logical expression after `if`" ifKwTokenIdx)))
    | (nodes, .ok (.node condExpr afterCondIdx)) =>
      match mustFind tokens ifKwTokenIdx afterCondIdx "expected a `\x7b` after `if`"
          (fun k => k = .lcurlyBrace) with
      | .error e => (nodes, .error (.single e))
      | .ok thenLcurlyIdx =>
        match parseBlockExpression tokens fuel nodes thenLcurlyIdx with
        | (nodes, .error e) => (nodes, .error (e.addErrorContext "not a valid block"))
        | (nodes, .ok .finished) =>
          (nodes, .error (.single (.unexpectedEof "not a valid block" ifKwTokenIdx)))
        | (nodes, .ok (.node curlyBlock afterBlockIdx)) =>
          match findNextNonBlankToken tokens afterBlockIdx with
          | some (elseKwIdx, elseTok) =>
            if elseTok.kind = .kwElse then
              parseIfElsePart tokens fuel nodes ifKwTokenIdx condExpr curlyBlock elseKwIdx
            else
              let (nodes, condIdx) := pushNode nodes condExpr
              let (nodes, blockIdx) := pushNode nodes curlyBlock
              (nodes,
                .ok (.node
                  (.expression (.ifExpr ifKwTokenIdx condIdx blockIdx none none none))
                  afterBlockIdx))
          | none =>
            let (nodes, condIdx) := pushNode nodes condExpr
            let (nodes, blockIdx) := pushNode nodes curlyBlock
            (nodes,
              .ok (.node (.expression (.ifExpr ifKwTokenIdx condIdx blockIdx none none none))
                afterBlockIdx))
termination_by structural fuel => fuel

/-- The `else` tail of `parse_if_expression` (what follows the `else`
keyword: either `if` or a `{ .. }` block). -/
def parseIfElsePart (tokens : List Token) :
    Nat → List AstNode → Nat → AstNode → AstNode → Nat → List AstNode × ParseResult
  | 0, nodes, _, _, _, _ => (nodes, .error .empty)
  | fuel + 1, nodes, ifKwTokenIdx, condExpr, curlyBlock, elseKwTokenIdx =>
    match findNextNonBlankToken tokens (elseKwTokenIdx + 1) with
    | some (elseIfKwIdx, elseIfTok) =>
      if elseIfTok.kind = .kwIf then
        match parseIfExpression tokens fuel nodes elseIfKwIdx with
        | (nodes, .error e) =>
          (nodes, .error (e.addErrorContext "not a valid `else if` expression"))
        | (nodes, .ok .finished) =>
          (nodes,
            .error (.single (.unexpectedEof "not a valid `else if` expression" elseKwTokenIdx)))
        | (nodes, .ok (.node elseIfExpr afterElseIfIdx)) =>
          let (nodes, condIdx) := pushNode nodes condExpr
          let (nodes, blockIdx) := pushNode nodes curlyBlock
          let (nodes, elseIfNodeIdx) := pushNode nodes elseIfExpr
          (nodes,
            .ok (.node
              (.expression
                (.ifExpr ifKwTokenIdx condIdx blockIdx (some elseKwTokenIdx) none
                  (some elseIfNodeIdx)))
              afterElseIfIdx))
      else if elseIfTok.kind = .lcurlyBrace then
        match parseBlockExpression tokens fuel nodes elseIfKwIdx with
        | (nodes, .error e) =>
          (nodes, .error (e.addErrorContext "not a valid `else \x7b` expression"))
        | (nodes, .ok .finished) =>
          (nodes,
            .error (.single (.unexpectedEof "not a valid `else \x7b` expression" elseKwTokenIdx)))
        | (nodes, .ok (.node elseBlock afterElseBlockIdx)) =>
          let (nodes, condIdx) := pushNode nodes condExpr
          let (nodes, blockIdx) := pushNode nodes curlyBlock
          let (nodes, elseBlockNodeIdx) := pushNode nodes elseBlock
          (nodes,
            .ok (.node
              (.expression
                (.ifExpr ifKwTokenIdx condIdx blockIdx (some elseKwTokenIdx)
                  (some elseBlockNodeIdx) none))
              afterElseBlockIdx))
      else
        (nodes,
          .error (.single (.unexpectedToken "expected `\x7b .. \x7d` or `if` after `else`"
            elseKwTokenIdx elseIfKwIdx)))
    | none =>
      (nodes,
        .error (.single (.unexpectedEof "expected `\x7b .. \x7d` or `if` after `else`"
          elseKwTokenIdx)))
termination_by structural fuel => fuel

/-- `parse_statement`. -/
def parseStatement (tokens : List Token) :
    Nat → List AstNode → Nat → List AstNode × ParseResult
  | 0, nodes, _ => (nodes, .error .empty)
  | fuel + 1, nodes, nextTokenIdx =>
    match findStartOfNonEmptyStatement tokens nextTokenIdx with
    | none => (nodes, .ok .finished)
    | some (tokenIdx, token) =>
      match token.kind with
      | .kwLet | .kwVar => parseDefinitionStatement tokens fuel nodes tokenIdx token
      | _ => tryParseExpressionStatement tokens fuel nodes tokenIdx
termination_by structural fuel => fuel

/-- `parse_definition_statement` (first token is `let` or `var`). -/
def parseDefinitionStatement (tokens : List Token) :
    Nat → List AstNode → Nat → Token → List AstNode × ParseResult
  | 0, nodes, _, _ => (nodes, .error .empty)
  | fuel + 1, nodes, kwTokenIdx, kwToken =>
    let noLhsMsg :=
      "expect an expression after `" ++ kwToken.kind.getStringRepr ++ "` for a definition"
    match parseExpression tokens fuel nodes (kwTokenIdx + 1) 0 with
    | (nodes, .error e) => (nodes, .error (e.addErrorContext noLhsMsg))
    | (nodes, .ok .finished) => (nodes, .error (.single (.unexpectedEof noLhsMsg kwTokenIdx)))
    | (nodes, .ok (.node lhsExpr afterLhsIdx)) =>
      parseDefinitionAfterLhs tokens fuel nodes kwTokenIdx kwToken lhsExpr afterLhsIdx
termination_by structural fuel => fuel

/-- Tail of `parse_definition_statement`: optional type annotation, `=`,
right-hand side, `;`. -/
def parseDefinitionAfterLhs (tokens : List Token) :
    Nat → List AstNode → Nat → Token → AstNode → Nat → List AstNode × ParseResult
  | 0, nodes, _, _, _, _ => (nodes, .error .empty)
  | fuel + 1, nodes, kwTokenIdx, kwToken, lhsExpr, afterLhsIdx =>
    match parseDefinitionAnno tokens nodes afterLhsIdx with
    | (nodes, .error e) => (nodes, .error e)
    | (nodes, .ok (colonTokenIdx, typeNodeIdx, nextBeforeEq)) =>
      let eqMsg :=
        "expected definition format `" ++ kwToken.kind.getStringRepr
          ++ " ... = ...`, but could not find `=`"
      match mustFind tokens kwTokenIdx nextBeforeEq eqMsg (fun k => k = .eq) with
      | .error e => (nodes, .error (.single e))
      | .ok eqTokenIdx =>
        let noRhsMsg := "expect an expression after `=` for a definition"
        match parseExpression tokens fuel nodes (eqTokenIdx + 1) 0 with
        | (nodes, .error e) => (nodes, .error (e.addErrorContext noRhsMsg))
        | (nodes, .ok .finished) =>
          (nodes, .error (.single (.unexpectedEof noRhsMsg kwTokenIdx)))
        | (nodes, .ok (.node rhsExpr afterRhsIdx)) =>
          match mustFind tokens kwTokenIdx afterRhsIdx "statement must end with `;`"
              (fun k => k = .semiColon) with
          | .error e => (nodes, .error (.single e))
          | .ok semicolonTokenIdx =>
            let (nodes, lhsNodeIdx) := pushNode nodes lhsExpr
            let (nodes, rhsNodeIdx) := pushNode nodes rhsExpr
            (nodes,
              .ok (.node
                (.statement
                  (.definition kwTokenIdx lhsNodeIdx colonTokenIdx typeNodeIdx eqTokenIdx
                    rhsNodeIdx))
                (semicolonTokenIdx + 1)))
termination_by structural fuel => fuel

/-- `try_parse_expression_statement` (precondition: not at EOF; the
`Finished` arm is a Rust panic, modelled as an `empty` error). -/
def tryParseExpressionStatement (tokens : List Token) :
    Nat → List AstNode → Nat → List AstNode × ParseResult
  | 0, nodes, _ => (nodes, .error .empty)
  | fuel + 1, nodes, nextTokenIdx =>
    match parseExpression tokens fuel nodes nextTokenIdx 0 with
    | (nodes, .error e) => (nodes, .error (e.addErrorContext "this must be an expression"))
    | (nodes, .ok .finished) => (nodes, .error .empty)
    | (nodes, .ok (.node node afterExprIdx)) =>
      match mustFind tokens nextTokenIdx afterExprIdx "statement must end with `;`"
          (fun k => k = .semiColon) with
      | .error e => (nodes, .error (.single e))
      | .ok semicolonTokenIdx =>
        let (nodes, exprNodeIdx) := pushNode nodes node
        (nodes,
          .ok (.node (.statement (.expression exprNodeIdx)) (semicolonTokenIdx + 1)))

termination_by structural fuel => fuel
end

/-- The statement loop of `parse_module`, returning the final arena, the
module's statement indices and the accumulated error. -/
def parseModuleLoop (tokens : List Token) :
    Nat → List AstNode → List Nat → ParseError → Nat → List AstNode × List Nat × ParseError
  | 0, nodes, stmts, error, _ => (nodes, stmts, error)
  | fuel + 1, nodes, stmts, error, nextTokenIdx =>
    match parseStatement tokens fuel nodes nextTokenIdx with
    | (nodes, .ok (.node statement tokenIdx)) =>
      let (nodes, stmtIdx) := pushNode nodes statement
      parseModuleLoop tokens fuel nodes (stmts ++ [stmtIdx]) error tokenIdx
    | (nodes, .ok .finished) => (nodes, stmts, error)
    | (nodes, .error e) =>
      parseModuleLoop tokens fuel nodes stmts (error.addNewError e)
        (findRecoveryIdx tokens nextTokenIdx)

/-- `parse_module`: run the loop, then push the module node (`set_module`). -/
def parseModule (tokens : List Token) (fuel : Nat) (nodes : List AstNode) (i : Nat) :
    List AstNode × ParseError :=
  let r := parseModuleLoop tokens fuel nodes [] .empty i
  ((r.1 ++ [AstNode.module r.2.1]), r.2.2)

/-- `get_lex_errors`. -/
def getLexErrors (tokens : List Token) : Option SingleParseError :=
  let invalidErrors := tokens.filterMap fun t =>
    match t.kind with
    | .invalid msg errorFakeTokenIdx => some (errorFakeTokenIdx, msg)
    | _ => none
  if invalidErrors.isEmpty then none else some (.lexErrors invalidErrors)

/-- The `Ast` value produced by `parse`: compilation unit, token stream, node
arena and optional error (`set_error` keeps only non-empty errors). -/
structure Ast where
  ucs : List Uc
  tokens : List Token
  nodes : List AstNode
  error : Option ParseError

/-- Canonical parser fuel: each fuel level consumes at least one token or
ends a phase, so this bound is ample for any stream. -/
def parserFuel (tokens : List Token) : Nat := 8 * tokens.length + 64

/-- `parse(cu)`: report lex errors (skipping the grammar) or run
`parse_module` from token 0. -/
def parse (ucs : List Uc) : Ast :=
  let tokens := getTokens ucs
  match getLexErrors tokens with
  | some lexErrors =>
    { ucs := ucs, tokens := tokens, nodes := [], error := some (.single lexErrors) }
  | none =>
    let r := parseModule tokens (parserFuel tokens) [] 0
    { ucs := ucs, tokens := tokens, nodes := r.1
      error := match r.2 with | .empty => none | e => some e }

/-- `AstNodes::last` (`None` models the "BUG: each AstNodes must have at
least one node" panic). -/
def lastNode (a : Ast) : Option AstNode := a.nodes.getLast?

/-- `Ast::accept(visitor)`: visit the last node of the arena; on an empty
arena the Rust code panics, modelled as the error carrying the panic
message. -/
def Ast.accept {R : Type} (a : Ast) (visit : AstNode → R) : Except String R :=
  match lastNode a with
  | none => .error "BUG: each AstNodes must have at least one node, which is the Module node"
  | some node => .ok (visit node)

/-! ## Visitors (`ast/visitor.rs`) -/

/-- The characters covered by a grapheme span (`UcSpan::get_byte_span`
followed by slicing the source: the bytes from the first cluster's start to
the last cluster's end, i.e. the clusters' concatenated content). -/
def sliceUcs (ucs : List Uc) (span : UcSpan) : List Char :=
  ((ucs.drop span.start).take (span.endIncl + 1 - span.start)).flatMap Uc.str

/-- `get_string_unchecked` on a `TokenIdx` (the out-of-range panic is
modelled by a marker string; every call in the verified scenarios is in
range). -/
def tokStr (a : Ast) (idx : Nat) : String :=
  match a.tokens.get? idx with
  | some t => String.mk (sliceUcs a.ucs t.span)
  | none => "BUG: failed to get token"

/-- `AstPrinter::get_leading_indent`. -/
def getLeadingIndent (indent : Nat) : String :=
  String.mk (List.replicate (indent * 4) ' ')

/-- `AstPrinter::print_with_indent`.  `get_string_unchecked` on a node index
constructs a fresh printer, so those sub-prints restart at indent 0; only
`Module` statements, statement bodies and `Block` statements keep or bump the
running indent.  Fuel bounds the tree depth (a marker is returned on
exhaustion, never reached at the canonical fuel). -/
def printWithIndent (a : Ast) : Nat → AstNode → Nat → String
  | 0, _, _ => "BUG: fuel"
  | fuel + 1, node, indent =>
    let nodeStr0 : Nat → String := fun idx =>
      match a.nodes.get? idx with
      | some n => printWithIndent a fuel n 0
      | none => "BUG: failed to get node"
    match node with
    | .module stmts =>
      String.join (stmts.map fun idx =>
        match a.nodes.get? idx with
        | some n => printWithIndent a fuel n indent
        | none => "BUG: failed to get node")
    | .statement (.definition kw lhsIdx colon typeIdx eq rhsIdx) =>
      getLeadingIndent indent ++ tokStr a kw ++ " " ++ nodeStr0 lhsIdx
        ++ (colon.map (fun idx => tokStr a idx ++ " ")).getD ""
        ++ (typeIdx.map nodeStr0).getD ""
        ++ " " ++ tokStr a eq ++ " " ++ nodeStr0 rhsIdx ++ ";\n"
    | .statement (.expression exprIdx) =>
      getLeadingIndent indent
        ++ (match a.nodes.get? exprIdx with
            | some n => printWithIndent a fuel n (indent + 1)
            | none => "BUG: failed to get node")
        ++ ";\n"
    | .expression (.ifExpr ifKw condIdx thenIdx elseKw elseBlockIdx ifNodeIdx) =>
      tokStr a ifKw ++ " " ++ nodeStr0 condIdx ++ " " ++ nodeStr0 thenIdx ++ " "
        ++ (match elseKw with
            | some ek =>
              tokStr a ek ++ " " ++ (elseBlockIdx.map nodeStr0).getD ""
                ++ (ifNodeIdx.map nodeStr0).getD ""
            | none => "")
    | .expression (.i64 tokenIdx) => tokStr a tokenIdx
    | .expression (.identifier tokenIdx) => tokStr a tokenIdx
    | .expression (.stringLiteral _ content) => String.mk content
    | .expression (.arithmeticOrLogical op lhsIdx rhsIdx) =>
      nodeStr0 lhsIdx ++ " " ++ tokStr a op ++ " " ++ nodeStr0 rhsIdx
    | .expression (.negation op operandIdx) =>
      (match (a.tokens.get? op).map Token.kind with
       | some .minus => "-" ++ nodeStr0 operandIdx
       | _ => "BUG: unsupported unary operator")
    | .expression (.grouped lparen innerIdx rparen) =>
      tokStr a lparen ++ " " ++ nodeStr0 innerIdx ++ " " ++ tokStr a rparen
    | .expression (.block lcurly stmts rcurly) =>
      tokStr a lcurly ++ "\n"
        ++ String.join (stmts.map fun idx =>
             match a.nodes.get? idx with
             | some n => printWithIndent a fuel n (indent + 1)
             | none => "BUG: failed to get node")
        ++ tokStr a rcurly
    | .expression (.returnExpr returnKw exprIdx) =>
      tokStr a returnKw ++ " " ++ (exprIdx.map nodeStr0).getD ""
    | .anno (.type tokenIdx) => tokStr a tokenIdx

/-- Printer fuel ample for any arena reachable from `parse`. -/
def printerFuel (a : Ast) : Nat := 4 * a.nodes.length + 16

/-- `AstPrinter` applied through `Ast::accept` (`visit` = indent 0). -/
def printAst (a : Ast) : Except String String :=
  a.accept fun node => printWithIndent a (printerFuel a) node 0

/-! ### Evaluator -/

def i64Min : Int := -(2 ^ 63)
def i64Max : Int := 2 ^ 63 - 1

/-- `i64::checked_add` etc.: `none` on overflow of the 64-bit signed range. -/
def checkedAdd (a b : Int) : Option Int :=
  let r := a + b
  if r < i64Min ∨ i64Max < r then none else some r

def checkedSub (a b : Int) : Option Int :=
  let r := a - b
  if r < i64Min ∨ i64Max < r then none else some r

def checkedMul (a b : Int) : Option Int :=
  let r := a * b
  if r < i64Min ∨ i64Max < r then none else some r

/-- `i64::checked_div`: truncating division, `none` on division by zero or
`MIN / -1`. -/
def checkedDiv (a b : Int) : Option Int :=
  if b = 0 then none else if a = i64Min ∧ b = -1 then none else some (a.tdiv b)

/-- `i64::checked_rem`: remainder with the dividend's sign. -/
def checkedRem (a b : Int) : Option Int :=
  if b = 0 then none else if a = i64Min ∧ b = -1 then none else some (a.tmod b)

/-- `str::parse::<i64>` on the strings the evaluator builds (optional sign
then decimal digits, range-checked). -/
def parseRustI64 (s : List Char) : Option Int :=
  let (sign, digits) : Int × List Char :=
    match s with
    | '-' :: rest => (-1, rest)
    | '+' :: rest => (1, rest)
    | _ => (1, s)
  if digits.isEmpty ∨ ¬ digits.all Char.isDigit then none
  else
    let v : Int := sign * (digits.foldl (fun acc c => acc * 10 + (c.toNat - '0'.toNat)) 0 : Nat)
    if v < i64Min ∨ i64Max < v then none else some v

/-- `AstEvaluator::visit`.  Rust panics (`BUG:` paths, `unimplemented!`,
unsupported node kinds) are modelled as errors whose message starts the same
way; fuel bounds the tree depth. -/
def evalNode (a : Ast) : Nat → AstNode → Except String (Option Int)
  | 0, _ => .error "BUG: fuel"
  | fuel + 1, node =>
    let evalIdx : Nat → Except String (Option Int) := fun idx =>
      match a.nodes.get? idx with
      | some n => evalNode a fuel n
      | none => .error "BUG: failed to get node"
    match node with
    | .module stmts =>
      match stmts.head? with
      | none => .ok none
      | some idx => evalIdx idx
    | .expression (.ifExpr _ condIdx thenIdx _ elseBlockIdx _) =>
      (match evalIdx condIdx with
       | .error e => .error e
       | .ok none => .error "BUG: expected condition to be Some, but got None"
       | .ok (some condVal) =>
         if condVal ≠ 0 then evalIdx thenIdx
         else
           match elseBlockIdx with
           | some elseIdx => evalIdx elseIdx
           | none => .ok none)
    | .expression (.block _ _ _) => .error "not implemented"
    | .statement (.expression exprIdx) => evalIdx exprIdx
    | .statement (.definition _ _ _ _ _ _) => .error "doesn't support eval a definition"
    | .expression (.i64 tokenIdx) =>
      (match (a.tokens.get? tokenIdx).map Token.kind with
       | some .i64 =>
         (match parseRustI64 (tokStr a tokenIdx).data with
          | some v => .ok (some v)
          | none => .error ("BUG: failed to parse i64 token `" ++ tokStr a tokenIdx ++ "`"))
       | _ => .error "BUG: expected i64 token")
    | .expression (.stringLiteral _ _) => .error "doesn't support eval a string literal"
    | .expression (.identifier _) => .error "BUG: doesn't support eval an identifier"
    | .expression (.arithmeticOrLogical op lhsIdx rhsIdx) =>
      let lhsStr := printWithIndent a (printerFuel a)
        ((a.nodes.get? lhsIdx).getD (.module [])) 0
      let rhsStr := printWithIndent a (printerFuel a)
        ((a.nodes.get? rhsIdx).getD (.module [])) 0
      (match evalIdx lhsIdx with
       | .error e => .error e
       | .ok none => .error "BUG: expected lhs to be Some, but got None"
       | .ok (some lhsVal) =>
         match evalIdx rhsIdx with
         | .error e => .error e
         | .ok none => .error "BUG: expected rhs to be Some, but got None"
         | .ok (some rhsVal) =>
           let apply : Option Int → String → Except String (Option Int) := fun r opStr =>
             match r with
             | some v => .ok (some v)
             | none =>
               .error ("`" ++ lhsStr ++ "` " ++ opStr ++ " `" ++ rhsStr ++ "` overflows")
           match (a.tokens.get? op).map Token.kind with
           | some .plus => apply (checkedAdd lhsVal rhsVal) "+"
           | some .minus => apply (checkedSub lhsVal rhsVal) "-"
           | some .star => apply (checkedMul lhsVal rhsVal) "*"
           | some .slash => apply (checkedDiv lhsVal rhsVal) "/"
           | some .percent => apply (checkedRem lhsVal rhsVal) "%"
           | _ => .error "BUG: unsupported binary operator")
    | .expression (.negation op operandIdx) =>
      (match (a.tokens.get? op).map Token.kind with
       | some .minus =>
         let s := "-" ++ printWithIndent a (printerFuel a)
           ((a.nodes.get? operandIdx).getD (.module [])) 0
         (match parseRustI64 s.data with
          | some v => .ok (some v)
          | none => .error ("BUG: failed to parse i64 token `" ++ s ++ "`"))
       | _ => .error "BUG: unsupported unary operator")
    | .expression (.grouped _ innerIdx _) => evalIdx innerIdx
    | .expression (.returnExpr _ exprIdx) =>
      (match exprIdx with
       | some idx => evalIdx idx
       | none => .error "BUG: unwrap on None")
    | .anno (.type _) => .error "BUG: doesn't support eval an annotation"

/-- `AstEvaluator` applied through `Ast::accept`; the inner `Except` is the
evaluator's own `Result<Option<i64>, String>`. -/
def evalAst (a : Ast) : Except String (Except String (Option Int)) :=
  a.accept fun node => evalNode a (4 * a.nodes.length + 16) node

/-! ## Predicates used by the claim statements -/

/-- Is this token kind an `Invalid`? -/
def isInvalidKind (k : TokenKind) : Bool :=
  match k with
  | .invalid _ _ => true
  | _ => false

/-- Does the token stream contain an `Invalid` token? -/
def hasInvalid (tokens : List Token) : Bool :=
  tokens.any fun t => isInvalidKind t.kind

/-- The `(fake index, message)` pairs collected by `get_lex_errors`, in
stream order. -/
def invalidPairs (tokens : List Token) : List (Nat × String) :=
  tokens.filterMap fun t =>
    match t.kind with
    | .invalid msg errorFakeTokenIdx => some (errorFakeTokenIdx, msg)
    | _ => none

/-- The token spans, taken in order, tile the grapheme range `[i, e)`:
each token starts where the previous one ended plus one and spans at least
one grapheme. -/
def tilesFrom : Nat → Nat → List Token → Bool
  | i, e, [] => i = e
  | i, e, t :: ts => t.span.start = i && i ≤ t.span.endIncl && tilesFrom (t.span.endIncl + 1) e ts

/-- Is this single error a `LexErrors`? -/
def SingleParseError.isLexErrors : SingleParseError → Bool
  | .lexErrors _ => true
  | _ => false

mutual

/-- No `LexErrors` leaf anywhere in the error tree. -/
def noLexInTree : ParseError → Bool
  | .empty => true
  | .single e => !e.isLexErrors
  | .multi es => noLexInTreeList es
  | .withContext es => noLexInTreeList es

def noLexInTreeList : List ParseError → Bool
  | [] => true
  | e :: es => noLexInTree e && noLexInTreeList es

end

/-- A parse result whose error (if any) has no `LexErrors` leaf. -/
def resNoLex (r : List AstNode × ParseResult) : Bool :=
  match r.2 with
  | .error e => noLexInTree e
  | .ok _ => true

/-- Brace-nesting contribution of one token: `+1` for `{`, `-1` for `}`. -/
def braceDelta (t : Token) : Int :=
  match t.kind with
  | .lcurlyBrace => 1
  | .rcurlyBrace => -1
  | _ => 0

/-- Net brace nesting over the token range `[i, j)`. -/
def braceSum (tokens : List Token) (i j : Nat) : Int :=
  (((tokens.take j).drop i).map braceDelta).sum

/-- Declarative description of where `find_next_stat_end` scanning from `i`
stops: a `;` at zero nesting, or a `}` that closes the nesting opened since
`i` (the running level can dip below zero and come back). -/
def statEndCond (tokens : List Token) (i j : Nat) : Bool :=
  match tokens.get? j with
  | some t =>
    (t.kind = .semiColon && braceSum tokens i j = 0) ||
      (t.kind = .rcurlyBrace && braceSum tokens i (j + 1) = 0)
  | none => false

/-- Declarative description of where `find_next_block_end` scanning from `i`
stops: a `}` bringing the net nesting since `i` to zero. -/
def blockEndCond (tokens : List Token) (i j : Nat) : Bool :=
  match tokens.get? j with
  | some t => t.kind = .rcurlyBrace && braceSum tokens i (j + 1) = 0
  | none => false

/-- Shape invariant of one `get_tokens` loop iteration at grapheme `i` with
`n` tokens already emitted: the position strictly advances, and either one
healthy token is pushed that spans exactly the consumed graphemes, or a
`FakeTokenForInvalid`/`Invalid` pair is pushed whose `Invalid` back-index is
`n` (the absolute index of the fake), with the fake's span ending where the
invalid's does and starting no earlier. -/
def LexStepOk (ucs : List Uc) (n i : Nat) (r : LexStepResult) : Prop :=
  i < r.2 ∧ r.2 ≤ ucs.length ∧
  ((∃ t, r.1 = [t] ∧ isInvalidKind t.kind = false ∧ t.span.start = i ∧
      i ≤ t.span.endIncl ∧ t.span.endIncl + 1 = r.2) ∨
   (∃ fk inv msg, r.1 = [fk, inv] ∧ fk.kind = .fakeTokenForInvalid ∧
      inv.kind = .invalid msg n ∧ fk.span.endIncl = inv.span.endIncl ∧
      inv.span.start ≤ fk.span.start))

/-- Spec-side scanner (written from the specification's words, for comparison
with the code's `find_string_end`): find the first unescaped `"`, where a
backslash escapes the character after it, so `\\` escapes a backslash and the
quote after it is unescaped. -/
def specScanQuote : Bool → List Uc → Nat → Option Nat
  | _, [], _ => none
  | true, _ :: rest, idx => specScanQuote false rest (idx + 1)
  | false, u :: rest, idx =>
    if u = Uc.ascii '"' then some idx
    else if u = Uc.ascii '\\' then specScanQuote true rest (idx + 1)
    else specScanQuote false rest (idx + 1)

/-- The first semantically unescaped `"` at or after `start` (spec words,
not code). -/
def specFirstUnescapedQuote (ucs : List Uc) (start : Nat) : Option Nat :=
  specScanQuote false (ucs.drop start) start

/-! ## Diagnostics renderer (`lexer/diags.rs`), byte-level model.

The renderer works on the raw UTF-8 string with byte indices; the source is
modelled as a `List Char` and byte positions via `Char.utf8Size`.  Rust
panics (explicit `panic!`, string-slice range/boundary panics, and debug
`usize` subtraction overflow) are modelled as `Except.error` with the panic
reason. -/

/-- `ByteSpan` of `indices.rs` (inclusive end). -/
structure ByteSpan where
  start : Nat
  endIncl : Nat
deriving DecidableEq, Repr

/-- UTF-8 byte length of a character list (`str::len`). -/
def charsByteLen (l : List Char) : Nat :=
  (l.map Char.utf8Size).sum

/-- `str::split_inclusive('\n')`. -/
def splitInclusiveNl : List Char → List (List Char)
  | [] => []
  | c :: rest =>
    if c = '\n' then [c] :: splitInclusiveNl rest
    else
      match splitInclusiveNl rest with
      | [] => [[c]]
      | l :: ls => (c :: l) :: ls

/-- The `DiagCtx` line table built at the end of `get_tokens`: every line of
the unit paired with its starting byte offset. -/
def mkLineStartsAux (b : Nat) : List (List Char) → List (Nat × List Char)
  | [] => []
  | l :: ls => (b, l) :: mkLineStartsAux (b + charsByteLen l) ls

/-- The `DiagCtx` built from a unit's content. -/
def mkDiagCtx (cu : List Char) : List (Nat × List Char) :=
  mkLineStartsAux 0 (splitInclusiveNl cu)

/-- `DiagCtx::get_line`: the first entry whose `[start, next start)` window
contains the byte index (the last entry's window is unbounded); yields the
1-based line number, the line's start byte offset (`bytes_offset`) and the
line.  `panic!("BUG: no line found")` is the error case. -/
def getLineAux : List (Nat × List Char) → Nat → Nat → Except String (Nat × Nat × List Char)
  | [], _, _ => .error "BUG: no line found"
  | (idx1, line) :: rest, k, b =>
    if idx1 ≤ b && (match rest.head? with | none => true | some p => decide (b < p.1)) then
      .ok (k + 1, idx1, line)
    else getLineAux rest (k + 1) b

/-- Rust `usize` subtraction (debug build: overflow panics). -/
def checkedSubB (a b : Nat) : Except String Nat :=
  if b ≤ a then .ok (a - b) else .error "attempt to subtract with overflow"

/-- Drop `n` bytes from a character list (`&s[n..]`); fails past the end or
inside a multi-byte character, as Rust string slicing panics. -/
def byteDrop : List Char → Nat → Except String (List Char)
  | l, 0 => .ok l
  | [], _ + 1 => .error "byte index out of bounds"
  | c :: rest, n + 1 =>
    if Char.utf8Size c ≤ n + 1 then byteDrop rest (n + 1 - Char.utf8Size c)
    else .error "byte index is not a char boundary"

/-- Take the first `n` bytes (`&s[..n]`). -/
def byteTake : List Char → Nat → Except String (List Char)
  | _, 0 => .ok []
  | [], _ + 1 => .error "byte index out of bounds"
  | c :: rest, n + 1 =>
    if Char.utf8Size c ≤ n + 1 then
      match byteTake rest (n + 1 - Char.utf8Size c) with
      | .ok t => .ok (c :: t)
      | .error m => .error m
    else .error "byte index is not a char boundary"

/-- `&s[a..b]` (start after end is a Rust slice panic). -/
def byteSlice (l : List Char) (a b : Nat) : Except String (List Char) :=
  if a ≤ b then
    match byteDrop l a with
    | .error m => .error m
    | .ok suf => byteTake suf (b - a)
  else .error "slice index starts after it ends"

/-- `str::is_char_boundary`: the byte offset is the UTF-8 length of a
character prefix of the string (0 and the total length included).  Rust
string slicing panics off such offsets. -/
def isCharBoundary : List Char → Nat → Bool
  | _, 0 => true
  | [], _ + 1 => false
  | c :: rest, n + 1 =>
    if Char.utf8Size c ≤ n + 1 then isCharBoundary rest (n + 1 - Char.utf8Size c)
    else false

/-- Display width of one character, modelling the external unicode-width
crate (exact for ASCII: control characters are zero-width, printable ones
single-width). -/
def charWidth (c : Char) : Nat :=
  if c.toNat < 32 then 0
  else if c.toNat < 127 then 1
  else if c.toNat < 160 then 0
  else 1

/-- `UnicodeWidthStr::width`. -/
def strWidth (l : List Char) : Nat :=
  (l.map charWidth).sum

/-- One caret frame (`SingleLineDiagnostic`); `colNr` models the grapheme
count of the leading slice plus one (exact for ASCII lines). -/
structure SingleLineDiagnostic where
  line : List Char
  lineNr : Nat
  colNr : Nat
  leadingWidth : Nat
  ctxWidth : Nat
  errorWidth : Nat
deriving DecidableEq, Repr

/-- Build one pushed frame from the three slices (widths and column as in
the `diags.push` call of `get_diags`). -/
def mkFrame (line : List Char) (lineNr : Nat) (leadingStr ctxStr errStr : List Char) :
    SingleLineDiagnostic :=
  { line := line
    lineNr := lineNr
    colNr := leadingStr.length + 1
    leadingWidth := strWidth leadingStr
    ctxWidth := strWidth ctxStr
    errorWidth := strWidth errStr }

/-- Epilogue of `get_diags`: `panic!("BUG: no diags")` on an empty result. -/
def diagsDone : List SingleLineDiagnostic → Except String (List SingleLineDiagnostic)
  | [] => .error "BUG: no diags"
  | ds => .ok ds

/-- The `get_diags` loop.  One iteration selects the start byte (consuming
the context start when it coincides with the error start), breaks at
end-of-unit or when both inputs are gone, finds the line, slices the
leading/context/error parts (every Rust slice and `usize` subtraction is
checked) and pushes one frame, updating the remaining context/error state.
Fuel only bounds the iteration count ("getDiags" supplies enough). -/
def getDiagsLoop (cu : List Char) (lst : List (Nat × List Char)) :
    Nat → Option Nat → Option ByteSpan → List SingleLineDiagnostic →
    Except String (List SingleLineDiagnostic)
  | 0, _, _, _ => .error "BUG: renderer loop fuel exhausted"
  | fuel + 1, ctxStart, errSpan, diags =>
    let sel : Option (Option Nat × Nat) :=
      match ctxStart, errSpan with
      | some c, some e => if c = e.start then some (none, e.start) else some (some c, c)
      | some c, none => some (some c, c)
      | none, some e => some (none, e.start)
      | none, none => none
    match sel with
    | none => diagsDone diags
    | some (ctxStart1, startByte) =>
      if startByte = charsByteLen cu then diagsDone diags
      else
        match getLineAux lst 0 startByte with
        | .error m => .error m
        | .ok (lineNr, lineStart, line) =>
          let lineByteLen := charsByteLen line
          match ctxStart1 with
          | some realCtxStart =>
            match checkedSubB realCtxStart lineStart with
            | .error m => .error m
            | .ok leadLen =>
              match byteSlice line 0 leadLen with
              | .error m => .error m
              | .ok leadingStr =>
                match errSpan with
                | some realErr =>
                  match checkedSubB realErr.start lineStart with
                  | .error m => .error m
                  | .ok errStartIdx =>
                    match checkedSubB realErr.endIncl lineStart with
                    | .error m => .error m
                    | .ok errEndIdx =>
                      if lineByteLen > errStartIdx then
                        match byteSlice line (charsByteLen leadingStr) errStartIdx with
                        | .error m => .error m
                        | .ok ctxStr =>
                          if lineByteLen > errEndIdx then
                            match byteSlice line errStartIdx (errEndIdx + 1) with
                            | .error m => .error m
                            | .ok errStr =>
                              getDiagsLoop cu lst fuel none none
                                (diags ++ [mkFrame line lineNr leadingStr ctxStr errStr])
                          else
                            match byteSlice line errStartIdx lineByteLen with
                            | .error m => .error m
                            | .ok errStr =>
                              getDiagsLoop cu lst fuel none
                                (some ⟨realErr.start + charsByteLen errStr,
                                  realErr.endIncl⟩)
                                (diags ++ [mkFrame line lineNr leadingStr ctxStr errStr])
                      else
                        match byteSlice line (charsByteLen leadingStr) lineByteLen with
                        | .error m => .error m
                        | .ok ctxStr =>
                          getDiagsLoop cu lst fuel
                            (some (realCtxStart + charsByteLen ctxStr)) errSpan
                            (diags ++ [mkFrame line lineNr leadingStr ctxStr ([] : List Char)])
                | none =>
                  match byteSlice line (charsByteLen leadingStr) lineByteLen with
                  | .error m => .error m
                  | .ok ctxStr =>
                    getDiagsLoop cu lst fuel
                      (some (realCtxStart + charsByteLen ctxStr)) none
                      (diags ++ [mkFrame line lineNr leadingStr ctxStr ([] : List Char)])
          | none =>
            match errSpan with
            | none => .error "BUG: no ctx_start_byte_idx or error_byte_span"
            | some realErr =>
              match checkedSubB realErr.start lineStart with
              | .error m => .error m
              | .ok errStartIdx =>
                match checkedSubB realErr.endIncl lineStart with
                | .error m => .error m
                | .ok errEndIdx =>
                  match byteSlice line 0 errStartIdx with
                  | .error m => .error m
                  | .ok leadingStr =>
                    if lineByteLen > errEndIdx then
                      match byteSlice line errStartIdx (errEndIdx + 1) with
                      | .error m => .error m
                      | .ok errStr =>
                        getDiagsLoop cu lst fuel none none
                          (diags ++ [mkFrame line lineNr leadingStr ([] : List Char) errStr])
                    else
                      match byteSlice line errStartIdx lineByteLen with
                      | .error m => .error m
                      | .ok errStr =>
                        getDiagsLoop cu lst fuel none
                          (some ⟨realErr.start + charsByteLen errStr,
                            realErr.endIncl⟩)
                          (diags ++ [mkFrame line lineNr leadingStr ([] : List Char) errStr])

/-- `DiagCtx::get_diags` on the line table of `cu`.  Every looping iteration
strictly advances the selected start byte, so `charsByteLen cu + 4` fuel is
always enough. -/
def getDiags (cu : List Char) (ctxStart : Option Nat) (errSpan : Option ByteSpan) :
    Except String (List SingleLineDiagnostic) :=
  getDiagsLoop cu (mkDiagCtx cu) (charsByteLen cu + 4) ctxStart errSpan []

/-! ## Concrete values for the scenario claims (C3, C4, C5)

Token streams and arenas written out literally, so that concrete runs of the
pipeline can be checked step by step against them. -/

/-- The arithmetic scenario input of C4. -/
def c4Src : String := "7%2 + 3 * (12 / ( 15 / - 3+1 - - 1) ) - 2 - 1 + 1;"

/-- The token stream of `c4Src`. -/
def c4Tokens : List Token :=
  [ ⟨.i64, ⟨0, 0⟩⟩, ⟨.percent, ⟨1, 1⟩⟩, ⟨.i64, ⟨2, 2⟩⟩, ⟨.spaces 1, ⟨3, 3⟩⟩,
    ⟨.plus, ⟨4, 4⟩⟩, ⟨.spaces 1, ⟨5, 5⟩⟩, ⟨.i64, ⟨6, 6⟩⟩, ⟨.spaces 1, ⟨7, 7⟩⟩,
    ⟨.star, ⟨8, 8⟩⟩, ⟨.spaces 1, ⟨9, 9⟩⟩, ⟨.lparen, ⟨10, 10⟩⟩, ⟨.i64, ⟨11, 12⟩⟩,
    ⟨.spaces 1, ⟨13, 13⟩⟩, ⟨.slash, ⟨14, 14⟩⟩, ⟨.spaces 1, ⟨15, 15⟩⟩,
    ⟨.lparen, ⟨16, 16⟩⟩, ⟨.spaces 1, ⟨17, 17⟩⟩, ⟨.i64, ⟨18, 19⟩⟩,
    ⟨.spaces 1, ⟨20, 20⟩⟩, ⟨.slash, ⟨21, 21⟩⟩, ⟨.spaces 1, ⟨22, 22⟩⟩,
    ⟨.minus, ⟨23, 23⟩⟩, ⟨.spaces 1, ⟨24, 24⟩⟩, ⟨.i64, ⟨25, 25⟩⟩,
    ⟨.plus, ⟨26, 26⟩⟩, ⟨.i64, ⟨27, 27⟩⟩, ⟨.spaces 1, ⟨28, 28⟩⟩,
    ⟨.minus, ⟨29, 29⟩⟩, ⟨.spaces 1, ⟨30, 30⟩⟩, ⟨.minus, ⟨31, 31⟩⟩,
    ⟨.spaces 1, ⟨32, 32⟩⟩, ⟨.i64, ⟨33, 33⟩⟩, ⟨.rparen, ⟨34, 34⟩⟩,
    ⟨.spaces 1, ⟨35, 35⟩⟩, ⟨.rparen, ⟨36, 36⟩⟩, ⟨.spaces 1, ⟨37, 37⟩⟩,
    ⟨.minus, ⟨38, 38⟩⟩, ⟨.spaces 1, ⟨39, 39⟩⟩, ⟨.i64, ⟨40, 40⟩⟩,
    ⟨.spaces 1, ⟨41, 41⟩⟩, ⟨.minus, ⟨42, 42⟩⟩, ⟨.spaces 1, ⟨43, 43⟩⟩,
    ⟨.i64, ⟨44, 44⟩⟩, ⟨.spaces 1, ⟨45, 45⟩⟩, ⟨.plus, ⟨46, 46⟩⟩,
    ⟨.spaces 1, ⟨47, 47⟩⟩, ⟨.i64, ⟨48, 48⟩⟩, ⟨.semiColon, ⟨49, 49⟩⟩ ]

/-- The node arena `parse` builds for `c4Src`. -/
def c4Nodes : List AstNode :=
  [ .expression (.i64 0), .expression (.i64 2), .expression (.i64 23),
    .expression (.i64 17), .expression (.negation 21 2),
    .expression (.arithmeticOrLogical 19 3 4), .expression (.i64 25),
    .expression (.i64 31), .expression (.arithmeticOrLogical 24 5 6),
    .expression (.negation 29 7), .expression (.arithmeticOrLogical 27 8 9),
    .expression (.i64 11), .expression (.grouped 15 10 32),
    .expression (.arithmeticOrLogical 13 11 12), .expression (.i64 6),
    .expression (.grouped 10 13 34), .expression (.arithmeticOrLogical 1 0 1),
    .expression (.arithmeticOrLogical 8 14 15),
    .expression (.arithmeticOrLogical 4 16 17), .expression (.i64 38),
    .expression (.arithmeticOrLogical 36 18 19), .expression (.i64 42),
    .expression (.arithmeticOrLogical 40 20 21), .expression (.i64 46),
    .expression (.arithmeticOrLogical 44 22 23), .statement (.expression 24),
    .module [25] ]

/-- The `Ast` value `parse c4Src` produces. -/
def c4Ast : Ast :=
  { ucs := ucsOfString c4Src, tokens := c4Tokens, nodes := c4Nodes, error := none }

/-- C5 probe, first round: `parse "\"1+1\";"`. -/
def c5Ast1 : Ast :=
  { ucs := ucsOfString "\"1+1\";"
    tokens := [ ⟨.stringLiteral ['1', '+', '1'], ⟨0, 4⟩⟩, ⟨.semiColon, ⟨5, 5⟩⟩ ]
    nodes := [ .expression (.stringLiteral 0 ['1', '+', '1']), .statement (.expression 0),
      .module [1] ]
    error := none }

/-- C5 probe, second round: `parse "1+1;\n"` (the printer output of the
first round re-parsed). -/
def c5Ast2 : Ast :=
  { ucs := ucsOfString "1+1;\n"
    tokens := [ ⟨.i64, ⟨0, 0⟩⟩, ⟨.plus, ⟨1, 1⟩⟩, ⟨.i64, ⟨2, 2⟩⟩, ⟨.semiColon, ⟨3, 3⟩⟩,
      ⟨.newLine, ⟨4, 4⟩⟩ ]
    nodes := [ .expression (.i64 0), .expression (.i64 2),
      .expression (.arithmeticOrLogical 1 0 1), .statement (.expression 2), .module [3] ]
    error := none }

/-! # Theorems

Helper lemmas first, then one main theorem per claim (with its witness or
counterexample where required). -/

/-- Characterization of the scanning loop behind
`find_next_non_blank_token`, success case (relative indices). -/
theorem findNextNonBlankAux_some {l : List Token} {i j : Nat} {t : Token}
    (h : findNextNonBlankAux l i = some (j, t)) :
    i ≤ j ∧ l.get? (j - i) = some t ∧ isBlankKind t.kind = false ∧
      ∀ k, k < j - i → ∃ u, l.get? k = some u ∧ isBlankKind u.kind = true := by
  induction l generalizing i with
  | nil => simp [findNextNonBlankAux] at h
  | cons hd tl ih =>
    by_cases hb : isBlankKind hd.kind
    · rw [findNextNonBlankAux, if_pos hb] at h
      obtain ⟨h1, h2, h3, h4⟩ := ih h
      refine ⟨by omega, ?_, h3, ?_⟩
      · have he : j - i = (j - (i + 1)) + 1 := by omega
        rw [he]
        simpa using h2
      · intro k hk
        match k with
        | 0 => exact ⟨hd, rfl, hb⟩
        | k + 1 =>
          have hk' : k < j - (i + 1) := by omega
          obtain ⟨u, hu1, hu2⟩ := h4 k hk'
          exact ⟨u, by simpa using hu1, hu2⟩
    · rw [findNextNonBlankAux, if_neg hb] at h
      obtain ⟨h1, h2⟩ := by simpa using h
      subst h1
      subst h2
      refine ⟨le_rfl, by simp, by simpa using hb, ?_⟩
      intro k hk
      omega

/-- Characterization of the scanning loop, failure case. -/
theorem findNextNonBlankAux_none {l : List Token} {i : Nat}
    (h : findNextNonBlankAux l i = none) :
    ∀ k u, l.get? k = some u → isBlankKind u.kind = true := by
  induction l generalizing i with
  | nil => intro k u hk; simp at hk
  | cons hd tl ih =>
    by_cases hb : isBlankKind hd.kind
    · rw [findNextNonBlankAux, if_pos hb] at h
      intro k u hk
      match k with
      | 0 =>
        simp at hk
        subst hk
        exact hb
      | k + 1 => exact ih h k u (by simpa using hk)
    · rw [findNextNonBlankAux, if_neg hb] at h
      simp at h

/-- Absolute-index version of `findNextNonBlankAux_some`. -/
theorem findNextNonBlankToken_some {tokens : List Token} {i j : Nat} {t : Token}
    (h : findNextNonBlankToken tokens i = some (j, t)) :
    i ≤ j ∧ tokens.get? j = some t ∧ isBlankKind t.kind = false ∧
      ∀ k, i ≤ k → k < j → ∃ u, tokens.get? k = some u ∧ isBlankKind u.kind = true := by
  obtain ⟨h1, h2, h3, h4⟩ := findNextNonBlankAux_some h
  have hget : ∀ m, (tokens.drop i).get? m = tokens.get? (i + m) := by
    intro m
    exact List.get?_drop tokens i m
  refine ⟨h1, ?_, h3, ?_⟩
  · have := hget (j - i)
    rw [this] at h2
    have he : i + (j - i) = j := by omega
    rwa [he] at h2
  · intro k hk1 hk2
    have hk' : k - i < j - i := by omega
    obtain ⟨u, hu1, hu2⟩ := h4 (k - i) hk'
    rw [hget (k - i)] at hu1
    have he : i + (k - i) = k := by omega
    rw [he] at hu1
    exact ⟨u, hu1, hu2⟩

/-- Absolute-index version of `findNextNonBlankAux_none`. -/
theorem findNextNonBlankToken_none {tokens : List Token} {i : Nat}
    (h : findNextNonBlankToken tokens i = none) :
    ∀ k u, i ≤ k → tokens.get? k = some u → isBlankKind u.kind = true := by
  intro k u hk hget
  have := findNextNonBlankAux_none h (k - i) u
  rw [List.get?_drop] at this
  have he : i + (k - i) = k := by omega
  rw [he] at this
  exact this hget

/-- C9, counterexample.  On the stream lexed from `"#a\n;"`,
`find_next_non_blank_token` starting at index 0 returns the `Comment` token
itself, contradicting the claim that the returned token is never a comment. -/
theorem C9_counterexample_comment_is_returned :
    (findNextNonBlankToken (getTokens (ucsOfString "#a\n;")) 0).map
        (fun p => p.2.kind) = some TokenKind.comment := by
  rfl

/-- C9 (amended): `find_next_non_blank_token` skips exactly the `Spaces` and
`NewLine` tokens (comments are not skipped): a returned token is never
`Spaces`/`NewLine`, every token strictly between the start index and the
returned index is `Spaces` or `NewLine`, and when nothing is returned every
token from the start index on is `Spaces` or `NewLine`. -/
theorem C9_find_next_non_blank_skips_exactly_spaces_and_newlines
    (tokens : List Token) (i j : Nat) (t : Token) :
    (∀ k : TokenKind, isBlankKind k = true ↔ ((∃ n, k = .spaces n) ∨ k = .newLine)) ∧
    (findNextNonBlankToken tokens i = some (j, t) →
      i ≤ j ∧ tokens.get? j = some t ∧ isBlankKind t.kind = false ∧
        ∀ k, i ≤ k → k < j → ∃ u, tokens.get? k = some u ∧ isBlankKind u.kind = true) ∧
    (findNextNonBlankToken tokens i = none →
      ∀ k u, i ≤ k → tokens.get? k = some u → isBlankKind u.kind = true) := by
  refine ⟨?_, fun h => findNextNonBlankToken_some h, fun h => findNextNonBlankToken_none h⟩
  intro k
  cases k <;> simp [isBlankKind]

/-- C9 witness: the theorem applied to the concrete stream of `" ;"` with
its `some`-case hypothesis discharged at the `SemiColon` token. -/
theorem C9_witness :
    0 ≤ 1 ∧ (getTokens (ucsOfString " ;")).get? 1 =
      some { kind := TokenKind.semiColon, span := ⟨1, 1⟩ } ∧
      isBlankKind TokenKind.semiColon = false := by
  have h := (C9_find_next_non_blank_skips_exactly_spaces_and_newlines
    (getTokens (ucsOfString " ;")) 0 1
    { kind := TokenKind.semiColon, span := ⟨1, 1⟩ }).2.1 (by rfl)
  exact ⟨h.1, h.2.1, h.2.2.1⟩

/-- `get_lex_errors` written through `invalidPairs`. -/
theorem getLexErrors_eq (tokens : List Token) :
    getLexErrors tokens =
      if invalidPairs tokens = [] then none
      else some (.lexErrors (invalidPairs tokens)) := by
  have hfold :
      (tokens.filterMap fun t =>
        match t.kind with
        | .invalid msg errorFakeTokenIdx => some (errorFakeTokenIdx, msg)
        | _ => none) = invalidPairs tokens := rfl
  unfold getLexErrors
  simp only [List.isEmpty_iff, hfold]

/-- If some token is `Invalid`, `get_lex_errors` reports the collected
pairs. -/
theorem getLexErrors_of_hasInvalid {tokens : List Token}
    (h : hasInvalid tokens = true) :
    getLexErrors tokens = some (.lexErrors (invalidPairs tokens)) := by
  have hne : invalidPairs tokens ≠ [] := by
    obtain ⟨t, hmem, hinv⟩ := List.any_eq_true.mp h
    intro hnil
    have hnone := List.filterMap_eq_nil_iff.mp hnil t hmem
    cases hk : t.kind <;> rw [hk] at hnone hinv <;>
      simp [isInvalidKind] at hinv <;> simp at hnone
  rw [getLexErrors_eq, if_neg hne]

/-- If no token is `Invalid`, `get_lex_errors` is `None`. -/
theorem getLexErrors_of_not_hasInvalid {tokens : List Token}
    (h : hasInvalid tokens = false) :
    getLexErrors tokens = none := by
  have hnil : invalidPairs tokens = [] := by
    rw [show invalidPairs tokens =
      (tokens.filterMap fun t =>
        match t.kind with
        | .invalid msg errorFakeTokenIdx => some (errorFakeTokenIdx, msg)
        | _ => none) from rfl]
    rw [List.filterMap_eq_nil_iff]
    intro t hmem
    have hninv : isInvalidKind t.kind = false := by
      by_contra hc
      have : hasInvalid tokens = true :=
        List.any_eq_true.mpr ⟨t, hmem, by simpa using hc⟩
      rw [this] at h
      exact Bool.noConfusion h
    cases hk : t.kind <;> rw [hk] at hninv <;> simp [isInvalidKind] at hninv <;> simp
  rw [getLexErrors_eq, if_pos hnil]

/-- C10: when the input has a lexical error, `parse` leaves the node arena
empty (no `Module` node is pushed, since `parse_module` is skipped), and
`Ast::accept`, which reads the last node of the arena, hits the
"`AstNodes` must have at least one node" panic instead of returning a
result. -/
theorem C10_lex_error_gives_empty_arena_and_accept_panics
    (ucs : List Uc) (h : hasInvalid (getTokens ucs) = true) :
    (parse ucs).nodes = [] ∧
      ∀ (R : Type) (visit : AstNode → R),
        (parse ucs).accept visit =
          .error "BUG: each AstNodes must have at least one node, which is the Module node" := by
  have hlex := getLexErrors_of_hasInvalid h
  constructor
  · simp only [parse, hlex]
  · intro R visit
    simp only [parse, hlex, Ast.accept, lastNode]
    rfl

/-! Lemmas towards C2: the grammar parser never constructs a `LexErrors`
leaf. -/

theorem noLexInTreeList_append {as bs : List ParseError} :
    noLexInTreeList (as ++ bs) = (noLexInTreeList as && noLexInTreeList bs) := by
  induction as with
  | nil => simp [noLexInTreeList]
  | cons a as ih => simp [noLexInTreeList, ih, Bool.and_assoc]

theorem noLex_addErrorContext {e : ParseError} {msg : String}
    (h : noLexInTree e = true) : noLexInTree (e.addErrorContext msg) = true := by
  cases e with
  | empty => simpa [ParseError.addErrorContext] using h
  | single s =>
    simp [ParseError.addErrorContext, noLexInTree, noLexInTreeList,
      SingleParseError.isLexErrors] at h ⊢
    simpa using h
  | multi es =>
    simp only [ParseError.addErrorContext, noLexInTree, noLexInTreeList] at h ⊢
    simp [h, SingleParseError.isLexErrors]
  | withContext es =>
    simp only [ParseError.addErrorContext, noLexInTree] at h ⊢
    simp [noLexInTreeList_append, h, noLexInTreeList, SingleParseError.isLexErrors,
      noLexInTree]

theorem noLex_addNewError {e e' : ParseError}
    (h : noLexInTree e = true) (h' : noLexInTree e' = true) :
    noLexInTree (e.addNewError e') = true := by
  cases e with
  | empty => simpa [ParseError.addNewError] using h'
  | single s =>
    simp only [ParseError.addNewError, noLexInTree, noLexInTreeList] at h ⊢
    simp [h, h', noLexInTreeList]
  | multi es =>
    simp only [ParseError.addNewError, noLexInTree] at h ⊢
    simp [noLexInTreeList_append, h, h', noLexInTreeList]
  | withContext es =>
    simp only [ParseError.addNewError, noLexInTree, noLexInTreeList] at h ⊢
    simp [h, h', noLexInTreeList]

theorem resNoLex_error {nodes : List AstNode} {e : ParseError}
    (h : noLexInTree e = true) : resNoLex (nodes, .error e) = true := by
  simpa [resNoLex] using h

theorem resNoLex_ok {nodes : List AstNode} {h : HappyPath} :
    resNoLex (nodes, .ok h) = true := rfl

theorem noLex_of_resNoLex_eq {f : List AstNode × ParseResult} {nodes : List AstNode}
    {e : ParseError} (h : f = (nodes, .error e)) (hf : resNoLex f = true) :
    noLexInTree e = true := by
  rw [h] at hf
  simpa [resNoLex] using hf

theorem mustFind_error_noLex {tokens : List Token} {c n : Nat} {msg : String}
    {f : TokenKind → Bool} {e : SingleParseError}
    (h : mustFind tokens c n msg f = .error e) :
    noLexInTree (.single e) = true := by
  unfold mustFind at h
  split at h
  · simp at h
    subst h
    rfl
  · split at h
    · simp at h
    · simp at h
      subst h
      rfl

theorem mustBeI64AfterDashSign_noLex (tokens : List Token) (nodes : List AstNode)
    (n d : Nat) : resNoLex (mustBeI64AfterDashSign tokens nodes n d) = true := by
  unfold mustBeI64AfterDashSign
  split
  · rfl
  · split <;> rfl

theorem parseTypeFromColon_noLex (tokens : List Token) (nodes : List AstNode)
    (c : Nat) : resNoLex (parseTypeFromColon tokens nodes c) = true := by
  unfold parseTypeFromColon
  split
  · rfl
  · split <;> rfl

/-- No function of the recursive-descent core ever produces an error tree
containing a `LexErrors` leaf. -/
theorem parser_noLex (fuel : Nat) (tokens : List Token) :
    (∀ nodes i minp, resNoLex (parseExpression tokens fuel nodes i minp) = true) ∧
    (∀ nodes lhs i minp, resNoLex (parseExpressionLoop tokens fuel nodes lhs i minp) = true) ∧
    (∀ nodes i t, resNoLex (parsePrimary tokens fuel nodes i t) = true) ∧
    (∀ nodes i, resNoLex (mustBeParenExpression tokens fuel nodes i) = true) ∧
    (∀ nodes i, resNoLex (parseReturnExpression tokens fuel nodes i) = true) ∧
    (∀ nodes i, resNoLex (parseBlockExpression tokens fuel nodes i) = true) ∧
    (∀ nodes l s e i, noLexInTree e = true →
      resNoLex (parseBlockLoop tokens fuel nodes l s e i) = true) ∧
    (∀ nodes l s e i, noLexInTree e = true →
      resNoLex (parseBlockStep tokens fuel nodes l s e i) = true) ∧
    (∀ nodes i, resNoLex (parseIfExpression tokens fuel nodes i) = true) ∧
    (∀ nodes i c b e, resNoLex (parseIfElsePart tokens fuel nodes i c b e) = true) ∧
    (∀ nodes i, resNoLex (parseStatement tokens fuel nodes i) = true) ∧
    (∀ nodes i t, resNoLex (parseDefinitionStatement tokens fuel nodes i t) = true) ∧
    (∀ nodes i t l a, resNoLex (parseDefinitionAfterLhs tokens fuel nodes i t l a) = true) ∧
    (∀ nodes i, resNoLex (tryParseExpressionStatement tokens fuel nodes i) = true) := by
  induction fuel with
  | zero =>
    refine ⟨?_, ?_, ?_, ?_, ?_, ?_, ?_, ?_, ?_, ?_, ?_, ?_, ?_, ?_⟩ <;>
      intros <;> first
        | rfl
        | (apply resNoLex_error; assumption)
  | succ fuel ih =>
    obtain ⟨ihExpr, ihLoop, ihPrim, ihParen, ihRet, ihBlock, ihBlockLoop, ihBlockStep,
      ihIf, ihElse, ihStat, ihDef, ihDefLhs, ihExprStat⟩ := ih
    have hExpr : ∀ nodes i minp, resNoLex (parseExpression tokens (fuel + 1) nodes i minp) = true := by
      intro nodes i minp
      simp only [parseExpression]
      split
      · rfl
      · split
        · apply ihIf
        · split
          · apply ihRet
          · split
            · exact resNoLex_error (noLex_of_resNoLex_eq (by assumption) (ihPrim ..))
            · rfl
            · apply ihLoop
    have hLoop : ∀ nodes lhs i minp,
        resNoLex (parseExpressionLoop tokens (fuel + 1) nodes lhs i minp) = true := by
      intro nodes lhs i minp
      simp only [parseExpressionLoop]
      split
      · rfl
      · split
        · exact resNoLex_error
            (noLex_addErrorContext (noLex_of_resNoLex_eq (by assumption) (ihExpr ..)))
        · exact resNoLex_error rfl
        · apply ihLoop
    have hPrim : ∀ nodes i t, resNoLex (parsePrimary tokens (fuel + 1) nodes i t) = true := by
      intro nodes i t
      simp only [parsePrimary]
      split
      · rfl
      · rfl
      · apply mustBeI64AfterDashSign_noLex
      · apply ihParen
      · rfl
      · rfl
    have hParen : ∀ nodes i,
        resNoLex (mustBeParenExpression tokens (fuel + 1) nodes i) = true := by
      intro nodes i
      simp only [mustBeParenExpression]
      split
      · exact resNoLex_error
          (noLex_addErrorContext (noLex_of_resNoLex_eq (by assumption) (ihExpr ..)))
      · exact resNoLex_error rfl
      · split
        · exact resNoLex_error rfl
        · split
          · rfl
          · exact resNoLex_error rfl
    have hRet : ∀ nodes i,
        resNoLex (parseReturnExpression tokens (fuel + 1) nodes i) = true := by
      intro nodes i
      simp only [parseReturnExpression]
      split
      · exact resNoLex_error
          (noLex_addErrorContext (noLex_of_resNoLex_eq (by assumption) (ihExpr ..)))
      · exact resNoLex_error rfl
      · rfl
    have hBlockLoop : ∀ nodes l s e i, noLexInTree e = true →
        resNoLex (parseBlockLoop tokens (fuel + 1) nodes l s e i) = true := by
      intro nodes l s e i he
      simp only [parseBlockLoop]
      split
      · split
        · rfl
        · exact ihBlockStep _ _ _ _ _ he
      · exact ihBlockStep _ _ _ _ _ he
    have hBlockStep : ∀ nodes l s e i, noLexInTree e = true →
        resNoLex (parseBlockStep tokens (fuel + 1) nodes l s e i) = true := by
      intro nodes l s e i he
      simp only [parseBlockStep]
      split
      · exact ihBlockLoop _ _ _ _ _ he
      · exact resNoLex_error (noLex_addNewError he rfl)
      · exact ihBlockLoop _ _ _ _ _
          (noLex_addNewError he (noLex_of_resNoLex_eq (by assumption) (ihStat ..)))
    have hBlock : ∀ nodes i,
        resNoLex (parseBlockExpression tokens (fuel + 1) nodes i) = true := by
      intro nodes i
      simp only [parseBlockExpression]
      exact ihBlockLoop _ _ _ ParseError.empty _ rfl
    have hElse : ∀ nodes i c b e,
        resNoLex (parseIfElsePart tokens (fuel + 1) nodes i c b e) = true := by
      intro nodes i c b e
      simp only [parseIfElsePart]
      split
      · split
        · split
          · exact resNoLex_error
              (noLex_addErrorContext (noLex_of_resNoLex_eq (by assumption) (ihIf ..)))
          · exact resNoLex_error rfl
          · rfl
        · split
          · split
            · exact resNoLex_error
                (noLex_addErrorContext (noLex_of_resNoLex_eq (by assumption) (ihBlock ..)))
            · exact resNoLex_error rfl
            · rfl
          · exact resNoLex_error rfl
      · exact resNoLex_error rfl
    have hIf : ∀ nodes i, resNoLex (parseIfExpression tokens (fuel + 1) nodes i) = true := by
      intro nodes i
      simp only [parseIfExpression]
      split
      · exact resNoLex_error
          (noLex_addErrorContext (noLex_of_resNoLex_eq (by assumption) (ihExpr ..)))
      · exact resNoLex_error rfl
      · split
        · exact resNoLex_error (mustFind_error_noLex (by assumption))
        · split
          · exact resNoLex_error
              (noLex_addErrorContext (noLex_of_resNoLex_eq (by assumption) (ihBlock ..)))
          · exact resNoLex_error rfl
          · split
            · split
              · apply ihElse
              · rfl
            · rfl
    have hStat : ∀ nodes i, resNoLex (parseStatement tokens (fuel + 1) nodes i) = true := by
      intro nodes i
      simp only [parseStatement]
      split
      · rfl
      · split
        all_goals first | apply ihDef | apply ihExprStat
    have hAnno : ∀ nodes a nodes' e,
        parseDefinitionAnno tokens nodes a = (nodes', Except.error e) →
        noLexInTree e = true := by
      intro nodes a nodes' e heq
      unfold parseDefinitionAnno at heq
      split at heq
      · split at heq
        · split at heq
          · simp at heq
            obtain ⟨-, he⟩ := heq
            subst he
            exact noLex_addErrorContext
              (noLex_of_resNoLex_eq (by assumption) (parseTypeFromColon_noLex ..))
          · simp at heq
            obtain ⟨-, he⟩ := heq
            subst he
            rfl
          · simp at heq
        · simp at heq
      · simp at heq
    have hDefLhs : ∀ nodes i t l a,
        resNoLex (parseDefinitionAfterLhs tokens (fuel + 1) nodes i t l a) = true := by
      intro nodes i t l a
      simp only [parseDefinitionAfterLhs]
      split
      · exact resNoLex_error (hAnno _ _ _ _ (by assumption))
      · split
        · exact resNoLex_error (mustFind_error_noLex (by assumption))
        · split
          · exact resNoLex_error
              (noLex_addErrorContext (noLex_of_resNoLex_eq (by assumption) (ihExpr ..)))
          · exact resNoLex_error rfl
          · split
            · exact resNoLex_error (mustFind_error_noLex (by assumption))
            · rfl
    have hDef : ∀ nodes i t,
        resNoLex (parseDefinitionStatement tokens (fuel + 1) nodes i t) = true := by
      intro nodes i t
      simp only [parseDefinitionStatement]
      split
      · exact resNoLex_error
          (noLex_addErrorContext (noLex_of_resNoLex_eq (by assumption) (ihExpr ..)))
      · exact resNoLex_error rfl
      · apply ihDefLhs
    have hExprStat : ∀ nodes i,
        resNoLex (tryParseExpressionStatement tokens (fuel + 1) nodes i) = true := by
      intro nodes i
      simp only [tryParseExpressionStatement]
      split
      · exact resNoLex_error
          (noLex_addErrorContext (noLex_of_resNoLex_eq (by assumption) (ihExpr ..)))
      · exact resNoLex_error rfl
      · split
        · exact resNoLex_error (mustFind_error_noLex (by assumption))
        · rfl
    exact ⟨hExpr, hLoop, hPrim, hParen, hRet, hBlock, hBlockLoop, hBlockStep, hIf, hElse,
      hStat, hDef, hDefLhs, hExprStat⟩

/-- The statement loop of `parse_module` preserves `noLexInTree` of the
accumulated error. -/
theorem parseModuleLoop_noLex (tokens : List Token) :
    ∀ fuel nodes stmts e i, noLexInTree e = true →
      noLexInTree (parseModuleLoop tokens fuel nodes stmts e i).2.2 = true := by
  intro fuel
  induction fuel with
  | zero => intro nodes stmts e i he; simpa [parseModuleLoop] using he
  | succ fuel ih =>
    intro nodes stmts e i he
    simp only [parseModuleLoop]
    split
    · exact ih _ _ _ _ he
    · exact he
    · refine ih _ _ _ _ (noLex_addNewError he ?_)
      have hstat := (parser_noLex fuel tokens).2.2.2.2.2.2.2.2.2.2.1
      exact noLex_of_resNoLex_eq (by assumption) (hstat ..)

/-- C2: when the token stream contains an `Invalid` token, `parse` attaches
exactly one `LexErrors` error collecting, in stream order, each `Invalid`
token's message paired with its fake-token index, and grammar parsing is
skipped (the arena stays empty, untouched by `parse_module`); when no
`Invalid` token exists, `parse` is exactly `parse_module` from token 0 and
any reported error tree contains no `LexErrors` leaf. -/
theorem C2_lex_errors_skip_grammar_parsing (ucs : List Uc) :
    (hasInvalid (getTokens ucs) = true →
      (parse ucs).error = some (.single (.lexErrors (invalidPairs (getTokens ucs)))) ∧
      (parse ucs).nodes = []) ∧
    (hasInvalid (getTokens ucs) = false →
      (parse ucs).nodes = (parseModule (getTokens ucs) (parserFuel (getTokens ucs)) [] 0).1 ∧
      ∀ e, (parse ucs).error = some e → noLexInTree e = true) := by
  constructor
  · intro h
    have hlex := getLexErrors_of_hasInvalid h
    constructor <;> simp only [parse, hlex]
  · intro h
    have hlex := getLexErrors_of_not_hasInvalid h
    have hnl : noLexInTree
        (parseModule (getTokens ucs) (parserFuel (getTokens ucs)) [] 0).2 = true := by
      unfold parseModule
      exact parseModuleLoop_noLex _ _ _ _ _ _ rfl
    constructor
    · simp only [parse, hlex]
    · intro e he
      simp only [parse, hlex] at he
      revert he
      split
      · intro he
        exact absurd he (by simp)
      · intro he
        have heq := by simpa using he
        rw [← heq]
        exact hnl

/-- C2 witness: applied to `"^"` (lexical error present: single `LexErrors`,
empty arena) and to `";"` (no lexical error: the arena is the one built by
`parse_module`). -/
theorem C2_witness :
    ((parse (ucsOfString "^")).error =
        some (.single (.lexErrors (invalidPairs (getTokens (ucsOfString "^"))))) ∧
      (parse (ucsOfString "^")).nodes = []) ∧
    (parse (ucsOfString ";")).nodes =
      (parseModule (getTokens (ucsOfString ";"))
        (parserFuel (getTokens (ucsOfString ";"))) [] 0).1 :=
  ⟨(C2_lex_errors_skip_grammar_parsing (ucsOfString "^")).1 (by rfl),
   ((C2_lex_errors_skip_grammar_parsing (ucsOfString ";")).2 (by rfl)).1⟩

/-- Every operator in the precedence table is left-associative. -/
theorem getPrecedence_left {t : Token} {p : Int} {a : Associativity}
    (h : getPrecedence t = some (p, a)) : a = Associativity.left := by
  rcases t with ⟨k, s⟩
  cases k <;> simp [getPrecedence] at h <;> exact h.2.symm

/-- C3: precedence climbing.  `*`, `/`, `%` sit at level 6, `+`, `-` at
level 5 and the six comparisons at level 1, all left-associative; an
operator is shifted only when its precedence is at least the current
minimum, and then its right-hand side is parsed with minimum precedence
`prec + 1`; the tokens `=`, `;`, `)` stop the climb without being shifted.
The two concrete arenas show that equal-precedence chains group to the left
(`1-2-3` is `(1-2)-3`) and that higher levels bind tighter (`1+2*3` is
`1+(2*3)`). -/
theorem C3_precedence_climbing_table_shift_and_enders
    (tokens : List Token) (i j : Nat) (minp p' : Int) (t : Token) :
    (∀ u : Token, (u.kind = .star ∨ u.kind = .slash ∨ u.kind = .percent) →
      getPrecedence u = some (6, .left)) ∧
    (∀ u : Token, (u.kind = .plus ∨ u.kind = .minus) → getPrecedence u = some (5, .left)) ∧
    (∀ u : Token, (u.kind = .eqEq ∨ u.kind = .ne ∨ u.kind = .lt ∨ u.kind = .le ∨
        u.kind = .gt ∨ u.kind = .ge) → getPrecedence u = some (1, .left)) ∧
    (findNextNonBlankToken tokens i = some (j, t) →
      (t.kind = .eq ∨ t.kind = .semiColon ∨ t.kind = .rparen) →
      canShiftWithOp tokens i minp = none) ∧
    (canShiftWithOp tokens i minp = some (j, t, p') →
      findNextNonBlankToken tokens i = some (j, t) ∧ isEndOfExpression t = false ∧
      ∃ p : Int, getPrecedence t = some (p, .left) ∧ minp ≤ p ∧ p' = p + 1) ∧
    (parse (ucsOfString "1-2-3;")).nodes =
      [ .expression (.i64 0), .expression (.i64 2),
        .expression (.arithmeticOrLogical 1 0 1), .expression (.i64 4),
        .expression (.arithmeticOrLogical 3 2 3), .statement (.expression 4),
        .module [5] ] ∧
    (parse (ucsOfString "1+2*3;")).nodes =
      [ .expression (.i64 2), .expression (.i64 4), .expression (.i64 0),
        .expression (.arithmeticOrLogical 3 0 1),
        .expression (.arithmeticOrLogical 1 2 3), .statement (.expression 4),
        .module [5] ] := by
  refine ⟨?_, ?_, ?_, ?_, ?_, rfl, rfl⟩
  · intro u hu
    rcases u with ⟨k, s⟩
    rcases hu with h | h | h <;> (simp only at h; subst h; rfl)
  · intro u hu
    rcases u with ⟨k, s⟩
    rcases hu with h | h <;> (simp only at h; subst h; rfl)
  · intro u hu
    rcases u with ⟨k, s⟩
    rcases hu with h | h | h | h | h | h <;> (simp only at h; subst h; rfl)
  · intro hfind hkind
    unfold canShiftWithOp
    rw [hfind]
    have hend : isEndOfExpression t = true := by
      rcases hkind with h | h | h <;> simp [isEndOfExpression, h]
    simp [hend]
  · intro hshift
    unfold canShiftWithOp at hshift
    rcases hfind : findNextNonBlankToken tokens i with - | ⟨j0, t0⟩
    · rw [hfind] at hshift
      exact absurd hshift (by simp)
    · rw [hfind] at hshift
      dsimp only at hshift
      by_cases hend : isEndOfExpression t0
      · rw [if_pos hend] at hshift
        exact absurd hshift (by simp)
      · rw [if_neg hend] at hshift
        rcases hprec : getPrecedence t0 with - | ⟨p, a⟩
        · rw [hprec] at hshift
          exact absurd hshift (by simp)
        · rw [hprec] at hshift
          dsimp only at hshift
          by_cases hlt : p < minp
          · rw [if_pos hlt] at hshift
            exact absurd hshift (by simp)
          · rw [if_neg hlt] at hshift
            have ha := getPrecedence_left hprec
            subst ha
            simp only [if_pos rfl, Option.some.injEq, Prod.mk.injEq] at hshift
            obtain ⟨hj, ht, hp'⟩ := hshift
            subst hj
            subst ht
            exact ⟨rfl, by simpa using hend, p, hprec, by omega, hp'.symm⟩

/-- C3 witness: the shift characterization applied to the one-token stream
`[+]` (shift at precedence 5, right side climbing at 6) and the ender rule
applied to the one-token stream `[;]`. -/
theorem C3_witness :
    (findNextNonBlankToken [Token.mk .plus ⟨0, 0⟩] 0 = some (0, Token.mk .plus ⟨0, 0⟩) ∧
      isEndOfExpression (Token.mk .plus ⟨0, 0⟩) = false) ∧
    canShiftWithOp [Token.mk .semiColon ⟨0, 0⟩] 0 0 = none := by
  have h1 := (C3_precedence_climbing_table_shift_and_enders
    [Token.mk .plus ⟨0, 0⟩] 0 0 0 6 (Token.mk .plus ⟨0, 0⟩)).2.2.2.2.1 (by rfl)
  have h2 := (C3_precedence_climbing_table_shift_and_enders
    [Token.mk .semiColon ⟨0, 0⟩] 0 0 0 6 (Token.mk .semiColon ⟨0, 0⟩)).2.2.2.1 (by rfl)
    (Or.inr (Or.inl rfl))
  exact ⟨⟨h1.1, h1.2.1⟩, h2⟩

/-- C4: parsing the arithmetic scenario input yields exactly the arena
`c4Nodes` with no error, and the evaluator returns `-13` on it. -/
theorem C4_arithmetic_scenario_evaluates_to_minus_13 :
    parse (ucsOfString c4Src) = c4Ast ∧ (parse (ucsOfString c4Src)).error = none ∧
      evalAst c4Ast = .ok (.ok (some (-13))) := by
  have h1 : getTokens (ucsOfString c4Src) = c4Tokens := rfl
  have h2 : getLexErrors c4Tokens = none := rfl
  have h3 : parseModule c4Tokens (parserFuel c4Tokens) [] 0 = (c4Nodes, .empty) := rfl
  have hp : parse (ucsOfString c4Src) = c4Ast := by
    simp only [parse, h1, h2, h3]
    rfl
  exact ⟨hp, by rw [hp]; rfl, rfl⟩

/-- C5 (code-level failure of the round-trip invariant): with
`src = "\"1+1\";"`, the first `print ∘ parse` gives `"1+1;\n"` (the printer
emits the string literal's decoded content without quotes), which re-parses
as arithmetic and prints as `"1 + 1;\n"`, so
`print(parse(print(parse(src)))) ≠ print(parse(src))` although `src` parses
without error. -/
theorem C5_print_parse_round_trip_fails_on_string_literal :
    parse (ucsOfString "\"1+1\";") = c5Ast1 ∧ printAst c5Ast1 = .ok "1+1;\n" ∧
      parse (ucsOfString "1+1;\n") = c5Ast2 ∧ printAst c5Ast2 = .ok "1 + 1;\n" ∧
      ("1 + 1;\n" : String) ≠ "1+1;\n" := by
  refine ⟨rfl, rfl, rfl, rfl, ?_⟩
  intro h
  exact absurd (congrArg String.length h) (by decide)

/-- C10 witness: the theorem applied to the concrete input `"^"`, whose
stream contains an `Invalid` token. -/
theorem C10_witness :
    (parse (ucsOfString "^")).nodes = [] ∧
      (parse (ucsOfString "^")).accept (fun _ => (0 : Nat)) =
        .error "BUG: each AstNodes must have at least one node, which is the Module node" := by
  have h := C10_lex_error_gives_empty_arena_and_accept_panics (ucsOfString "^") (by rfl)
  exact ⟨h.1, h.2 Nat (fun _ => 0)⟩

/-! Lemmas towards C7: brace sums and the declarative characterization of
the recovery scans. -/

theorem braceSum_self (tokens : List Token) (i : Nat) : braceSum tokens i i = 0 := by
  have h : (tokens.take i).drop i = [] :=
    List.drop_eq_nil_of_le (by rw [List.length_take]; exact Nat.min_le_left _ _)
  simp [braceSum, h]

theorem braceSum_succ {tokens : List Token} {j : Nat} (i : Nat) {t : Token}
    (hij : i ≤ j) (hget : tokens.get? j = some t) :
    braceSum tokens i (j + 1) = braceSum tokens i j + braceDelta t := by
  have hlt : j < tokens.length := by
    by_contra hc
    rw [List.get?_eq_none.mpr (by omega)] at hget
    exact Option.noConfusion hget
  have htake : tokens.take (j + 1) = tokens.take j ++ [t] := by
    rw [List.take_succ]
    congr
    rw [← List.get?_eq_getElem?, hget]
    rfl
  have hlen : i ≤ (tokens.take j).length := by
    rw [List.length_take]
    omega
  rw [braceSum, htake, List.drop_append_of_le_length hlen]
  simp [braceSum]

theorem braceSum_of_zero_deltas {tokens : List Token} {i0 i j : Nat}
    (hij : i ≤ j) (hi0 : i0 ≤ i)
    (h : ∀ k, i ≤ k → k < j → ∃ u, tokens.get? k = some u ∧ braceDelta u = 0) :
    braceSum tokens i0 j = braceSum tokens i0 i := by
  induction j with
  | zero =>
    have : i = 0 := by omega
    subst this
    rfl
  | succ j ih =>
    by_cases hc : i = j + 1
    · subst hc
      rfl
    · have hij' : i ≤ j := by omega
      obtain ⟨u, hu, hd⟩ := h j hij' (by omega)
      rw [braceSum_succ i0 (by omega) hu, hd,
        ih hij' (fun k hk1 hk2 => h k hk1 (by omega))]
      ring

/-- A token that is neither `;` nor `{` nor `}` satisfies no end condition
and has delta zero. -/
theorem statEndCond_false_of_kind {tokens : List Token} {k : Nat} {u : Token}
    (hget : tokens.get? k = some u)
    (h1 : u.kind ≠ .semiColon) (h2 : u.kind ≠ .rcurlyBrace) (i0 : Nat) :
    statEndCond tokens i0 k = false := by
  unfold statEndCond
  rw [hget]
  simp [h1, h2]

theorem blockEndCond_false_of_kind {tokens : List Token} {k : Nat} {u : Token}
    (hget : tokens.get? k = some u) (h2 : u.kind ≠ .rcurlyBrace) (i0 : Nat) :
    blockEndCond tokens i0 k = false := by
  unfold blockEndCond
  rw [hget]
  simp [h2]

theorem statEndCond_false_of_none {tokens : List Token} {k : Nat}
    (hget : tokens.get? k = none) (i0 : Nat) : statEndCond tokens i0 k = false := by
  unfold statEndCond
  rw [hget]

theorem blockEndCond_false_of_none {tokens : List Token} {k : Nat}
    (hget : tokens.get? k = none) (i0 : Nat) : blockEndCond tokens i0 k = false := by
  unfold blockEndCond
  rw [hget]

theorem isBlankKind_delta {u : Token} (h : isBlankKind u.kind = true) :
    braceDelta u = 0 := by
  rcases u with ⟨k, s⟩
  cases k <;> simp_all [isBlankKind, braceDelta]

theorem isBlankKind_not_semi {u : Token} (h : isBlankKind u.kind = true) :
    u.kind ≠ .semiColon ∧ u.kind ≠ .rcurlyBrace ∧ u.kind ≠ .lcurlyBrace := by
  rcases u with ⟨k, s⟩
  cases k <;> simp_all [isBlankKind]

/-- Skipping blanks changes neither the brace sum nor the end conditions. -/
theorem scanAdvance {tokens : List Token} {i0 i jj : Nat} {tt : Token}
    (hf : findNextNonBlankToken tokens i = some (jj, tt)) (hi0 : i0 ≤ i) :
    i ≤ jj ∧ tokens.get? jj = some tt ∧
      braceSum tokens i0 jj = braceSum tokens i0 i ∧
      ∀ k, i ≤ k → k < jj →
        statEndCond tokens i0 k = false ∧ blockEndCond tokens i0 k = false := by
  obtain ⟨h1, h2, h3, h4⟩ := findNextNonBlankToken_some hf
  refine ⟨h1, h2, ?_, ?_⟩
  · refine braceSum_of_zero_deltas h1 hi0 (fun k hk1 hk2 => ?_)
    obtain ⟨u, hu1, hu2⟩ := h4 k hk1 hk2
    exact ⟨u, hu1, isBlankKind_delta hu2⟩
  · intro k hk1 hk2
    obtain ⟨u, hu1, hu2⟩ := h4 k hk1 hk2
    obtain ⟨hn1, hn2, -⟩ := isBlankKind_not_semi hu2
    exact ⟨statEndCond_false_of_kind hu1 hn1 hn2 i0, blockEndCond_false_of_kind hu1 hn2 i0⟩

/-- The `find_next_stat_end` loop stops exactly at the first index
satisfying `statEndCond` (given sufficient fuel). -/
theorem findNextStatEndAux_spec (tokens : List Token) :
    ∀ fuel i0 i level,
      i0 ≤ i →
      level = braceSum tokens i0 i →
      (∀ k, i0 ≤ k → k < i → statEndCond tokens i0 k = false) →
      tokens.length + 1 ≤ fuel + i →
      (∀ m, findNextStatEndAux tokens fuel i level = some m →
        i ≤ m ∧ statEndCond tokens i0 m = true ∧
          ∀ k, i0 ≤ k → k < m → statEndCond tokens i0 k = false) ∧
      (findNextStatEndAux tokens fuel i level = none →
        ∀ k, i0 ≤ k → statEndCond tokens i0 k = false) := by
  intro fuel
  induction fuel with
  | zero =>
    intro i0 i level hi0 hlvl hinv hfuel
    constructor
    · intro m hm
      exact absurd hm (by simp [findNextStatEndAux])
    · intro _ k hk
      by_cases hki : k < i
      · exact hinv k hk hki
      · exact statEndCond_false_of_none (List.get?_eq_none.mpr (by omega)) i0
  | succ fuel ih =>
    intro i0 i level hi0 hlvl hinv hfuel
    rcases hf : findNextNonBlankToken tokens i with - | ⟨jj, tt⟩
    · have hnone := findNextNonBlankToken_none hf
      have haux : findNextStatEndAux tokens (fuel + 1) i level = none := by
        simp only [findNextStatEndAux]
        rw [hf]
      constructor
      · intro m hm
        rw [haux] at hm
        exact Option.noConfusion hm
      · intro _ k hk
        by_cases hki : k < i
        · exact hinv k hk hki
        · rcases hg : tokens.get? k with - | u
          · exact statEndCond_false_of_none hg i0
          · obtain ⟨hn1, hn2, -⟩ := isBlankKind_not_semi (hnone k u (by omega) hg)
            exact statEndCond_false_of_kind hg hn1 hn2 i0
    · obtain ⟨hjj, hget, hbs, hblank⟩ := scanAdvance hf hi0
      have hlvl2 : level = braceSum tokens i0 jj := by rw [hbs, ← hlvl]
      have hinv2 : ∀ k, i0 ≤ k → k < jj → statEndCond tokens i0 k = false := by
        intro k hk1 hk2
        by_cases hki : k < i
        · exact hinv k hk1 hki
        · exact (hblank k (by omega) hk2).1
      have hlt : jj < tokens.length := by
        by_contra hc
        rw [List.get?_eq_none.mpr (by omega)] at hget
        exact Option.noConfusion hget
      have hsucc : braceSum tokens i0 (jj + 1) = level + braceDelta tt := by
        rw [braceSum_succ i0 (by omega) hget, ← hlvl2]
      have hfuel2 : tokens.length + 1 ≤ fuel + (jj + 1) := by omega
      have hunfold : findNextStatEndAux tokens (fuel + 1) i level =
          match tt.kind with
          | .lcurlyBrace => findNextStatEndAux tokens fuel (jj + 1) (level + 1)
          | .rcurlyBrace =>
            if level - 1 = 0 then some jj
            else findNextStatEndAux tokens fuel (jj + 1) (level - 1)
          | .semiColon =>
            if level = 0 then some jj else findNextStatEndAux tokens fuel (jj + 1) level
          | _ => findNextStatEndAux tokens fuel (jj + 1) level := by
        simp only [findNextStatEndAux]
        rw [hf]
      rcases tt with ⟨ttk, tts⟩
      cases ttk
      case lcurlyBrace =>
        rw [hunfold]
        have hinv3 : ∀ k, i0 ≤ k → k < jj + 1 → statEndCond tokens i0 k = false := by
          intro k hk1 hk2
          by_cases hkj : k < jj
          · exact hinv2 k hk1 hkj
          · have : k = jj := by omega
            subst this
            exact statEndCond_false_of_kind hget (by simp) (by simp) i0
        have hlvl3 : level + 1 = braceSum tokens i0 (jj + 1) := by
          rw [hsucc]
          simp [braceDelta]
        obtain ⟨hsome, hnone⟩ := ih i0 (jj + 1) (level + 1) (by omega) hlvl3 hinv3 hfuel2
        refine ⟨fun m hm => ?_, hnone⟩
        obtain ⟨hm1, hm2, hm3⟩ := hsome m hm
        exact ⟨by omega, hm2, hm3⟩
      case rcurlyBrace =>
        rw [hunfold]
        by_cases hz : level - 1 = 0
        · rw [if_pos hz]
          constructor
          · intro m hm
            have hmj : jj = m := by simpa using hm
            subst hmj
            refine ⟨hjj, ?_, hinv2⟩
            unfold statEndCond
            rw [hget]
            have : braceSum tokens i0 (jj + 1) = 0 := by
              rw [hsucc]
              simp only [braceDelta]
              omega
            simp [this]
          · intro hm
            exact absurd hm (by simp)
        · rw [if_neg hz]
          have hinv3 : ∀ k, i0 ≤ k → k < jj + 1 → statEndCond tokens i0 k = false := by
            intro k hk1 hk2
            by_cases hkj : k < jj
            · exact hinv2 k hk1 hkj
            · have : k = jj := by omega
              subst this
              unfold statEndCond
              rw [hget]
              have : braceSum tokens i0 (k + 1) ≠ 0 := by
                rw [hsucc]
                simp only [braceDelta]
                omega
              simp [this]
          have hlvl3 : level - 1 = braceSum tokens i0 (jj + 1) := by
            rw [hsucc]
            simp only [braceDelta]
            ring
          obtain ⟨hsome, hnone⟩ := ih i0 (jj + 1) (level - 1) (by omega) hlvl3 hinv3 hfuel2
          refine ⟨fun m hm => ?_, hnone⟩
          obtain ⟨hm1, hm2, hm3⟩ := hsome m hm
          exact ⟨by omega, hm2, hm3⟩
      case semiColon =>
        rw [hunfold]
        by_cases hz : level = 0
        · rw [if_pos hz]
          constructor
          · intro m hm
            have hmj : jj = m := by simpa using hm
            subst hmj
            refine ⟨hjj, ?_, hinv2⟩
            unfold statEndCond
            rw [hget]
            have : braceSum tokens i0 jj = 0 := by
              rw [← hlvl2]
              exact hz
            simp [this]
          · intro hm
            exact absurd hm (by simp)
        · rw [if_neg hz]
          have hinv3 : ∀ k, i0 ≤ k → k < jj + 1 → statEndCond tokens i0 k = false := by
            intro k hk1 hk2
            by_cases hkj : k < jj
            · exact hinv2 k hk1 hkj
            · have : k = jj := by omega
              subst this
              unfold statEndCond
              rw [hget]
              have : braceSum tokens i0 k ≠ 0 := by rw [← hlvl2]; exact hz
              simp [this]
          have hlvl3 : level = braceSum tokens i0 (jj + 1) := by
            rw [hsucc]
            simp [braceDelta]
          obtain ⟨hsome, hnone⟩ := ih i0 (jj + 1) level (by omega) hlvl3 hinv3 hfuel2
          refine ⟨fun m hm => ?_, hnone⟩
          obtain ⟨hm1, hm2, hm3⟩ := hsome m hm
          exact ⟨by omega, hm2, hm3⟩
      all_goals {
        rw [hunfold]
        have hinv3 : ∀ k, i0 ≤ k → k < jj + 1 → statEndCond tokens i0 k = false := by
          intro k hk1 hk2
          by_cases hkj : k < jj
          · exact hinv2 k hk1 hkj
          · have : k = jj := by omega
            subst this
            exact statEndCond_false_of_kind hget (by simp) (by simp) i0
        have hlvl3 : level = braceSum tokens i0 (jj + 1) := by
          rw [hsucc]
          simp [braceDelta]
        obtain ⟨hsome, hnone⟩ := ih i0 (jj + 1) level (by omega) hlvl3 hinv3 hfuel2
        refine ⟨fun m hm => ?_, hnone⟩
        obtain ⟨hm1, hm2, hm3⟩ := hsome m hm
        exact ⟨by omega, hm2, hm3⟩
      }

/-- The `find_next_block_end` loop stops exactly at the first index
satisfying `blockEndCond` (given sufficient fuel). -/
theorem findNextBlockEndAux_spec (tokens : List Token) :
    ∀ fuel i0 i level,
      i0 ≤ i →
      level = braceSum tokens i0 i →
      (∀ k, i0 ≤ k → k < i → blockEndCond tokens i0 k = false) →
      tokens.length + 1 ≤ fuel + i →
      (∀ m, findNextBlockEndAux tokens fuel i level = some m →
        i ≤ m ∧ blockEndCond tokens i0 m = true ∧
          ∀ k, i0 ≤ k → k < m → blockEndCond tokens i0 k = false) ∧
      (findNextBlockEndAux tokens fuel i level = none →
        ∀ k, i0 ≤ k → blockEndCond tokens i0 k = false) := by
  intro fuel
  induction fuel with
  | zero =>
    intro i0 i level hi0 hlvl hinv hfuel
    constructor
    · intro m hm
      exact absurd hm (by simp [findNextBlockEndAux])
    · intro _ k hk
      by_cases hki : k < i
      · exact hinv k hk hki
      · exact blockEndCond_false_of_none (List.get?_eq_none.mpr (by omega)) i0
  | succ fuel ih =>
    intro i0 i level hi0 hlvl hinv hfuel
    rcases hf : findNextNonBlankToken tokens i with - | ⟨jj, tt⟩
    · have hnone := findNextNonBlankToken_none hf
      have haux : findNextBlockEndAux tokens (fuel + 1) i level = none := by
        simp only [findNextBlockEndAux]
        rw [hf]
      constructor
      · intro m hm
        rw [haux] at hm
        exact Option.noConfusion hm
      · intro _ k hk
        by_cases hki : k < i
        · exact hinv k hk hki
        · rcases hg : tokens.get? k with - | u
          · exact blockEndCond_false_of_none hg i0
          · obtain ⟨-, hn2, -⟩ := isBlankKind_not_semi (hnone k u (by omega) hg)
            exact blockEndCond_false_of_kind hg hn2 i0
    · obtain ⟨hjj, hget, hbs, hblank⟩ := scanAdvance hf hi0
      have hlvl2 : level = braceSum tokens i0 jj := by rw [hbs, ← hlvl]
      have hinv2 : ∀ k, i0 ≤ k → k < jj → blockEndCond tokens i0 k = false := by
        intro k hk1 hk2
        by_cases hki : k < i
        · exact hinv k hk1 hki
        · exact (hblank k (by omega) hk2).2
      have hsucc : braceSum tokens i0 (jj + 1) = level + braceDelta tt := by
        rw [braceSum_succ i0 (by omega) hget, ← hlvl2]
      have hfuel2 : tokens.length + 1 ≤ fuel + (jj + 1) := by omega
      have hunfold : findNextBlockEndAux tokens (fuel + 1) i level =
          match tt.kind with
          | .lcurlyBrace => findNextBlockEndAux tokens fuel (jj + 1) (level + 1)
          | .rcurlyBrace =>
            if level - 1 = 0 then some jj
            else findNextBlockEndAux tokens fuel (jj + 1) (level - 1)
          | _ => findNextBlockEndAux tokens fuel (jj + 1) level := by
        simp only [findNextBlockEndAux]
        rw [hf]
      rcases tt with ⟨ttk, tts⟩
      cases ttk
      case lcurlyBrace =>
        rw [hunfold]
        have hinv3 : ∀ k, i0 ≤ k → k < jj + 1 → blockEndCond tokens i0 k = false := by
          intro k hk1 hk2
          by_cases hkj : k < jj
          · exact hinv2 k hk1 hkj
          · have : k = jj := by omega
            subst this
            exact blockEndCond_false_of_kind hget (by simp) i0
        have hlvl3 : level + 1 = braceSum tokens i0 (jj + 1) := by
          rw [hsucc]
          simp [braceDelta]
        obtain ⟨hsome, hnone⟩ := ih i0 (jj + 1) (level + 1) (by omega) hlvl3 hinv3 hfuel2
        refine ⟨fun m hm => ?_, hnone⟩
        obtain ⟨hm1, hm2, hm3⟩ := hsome m hm
        exact ⟨by omega, hm2, hm3⟩
      case rcurlyBrace =>
        rw [hunfold]
        by_cases hz : level - 1 = 0
        · rw [if_pos hz]
          constructor
          · intro m hm
            have hmj : jj = m := by simpa using hm
            subst hmj
            refine ⟨hjj, ?_, hinv2⟩
            unfold blockEndCond
            rw [hget]
            have : braceSum tokens i0 (jj + 1) = 0 := by
              rw [hsucc]
              simp only [braceDelta]
              omega
            simp [this]
          · intro hm
            exact absurd hm (by simp)
        · rw [if_neg hz]
          have hinv3 : ∀ k, i0 ≤ k → k < jj + 1 → blockEndCond tokens i0 k = false := by
            intro k hk1 hk2
            by_cases hkj : k < jj
            · exact hinv2 k hk1 hkj
            · have : k = jj := by omega
              subst this
              unfold blockEndCond
              rw [hget]
              have : braceSum tokens i0 (k + 1) ≠ 0 := by
                rw [hsucc]
                simp only [braceDelta]
                omega
              simp [this]
          have hlvl3 : level - 1 = braceSum tokens i0 (jj + 1) := by
            rw [hsucc]
            simp only [braceDelta]
            ring
          obtain ⟨hsome, hnone⟩ := ih i0 (jj + 1) (level - 1) (by omega) hlvl3 hinv3 hfuel2
          refine ⟨fun m hm => ?_, hnone⟩
          obtain ⟨hm1, hm2, hm3⟩ := hsome m hm
          exact ⟨by omega, hm2, hm3⟩
      all_goals {
        rw [hunfold]
        have hinv3 : ∀ k, i0 ≤ k → k < jj + 1 → blockEndCond tokens i0 k = false := by
          intro k hk1 hk2
          by_cases hkj : k < jj
          · exact hinv2 k hk1 hkj
          · have : k = jj := by omega
            subst this
            exact blockEndCond_false_of_kind hget (by simp) i0
        have hlvl3 : level = braceSum tokens i0 (jj + 1) := by
          rw [hsucc]
          simp [braceDelta]
        obtain ⟨hsome, hnone⟩ := ih i0 (jj + 1) level (by omega) hlvl3 hinv3 hfuel2
        refine ⟨fun m hm => ?_, hnone⟩
        obtain ⟨hm1, hm2, hm3⟩ := hsome m hm
        exact ⟨by omega, hm2, hm3⟩
      }

/-- Canonical-fuel corollary for `find_next_stat_end`. -/
theorem findNextStatEnd_spec (tokens : List Token) (i : Nat) :
    (∀ m, findNextStatEnd tokens i = some m →
      i ≤ m ∧ statEndCond tokens i m = true ∧
        ∀ k, i ≤ k → k < m → statEndCond tokens i k = false) ∧
    (findNextStatEnd tokens i = none → ∀ k, i ≤ k → statEndCond tokens i k = false) :=
  findNextStatEndAux_spec tokens (tokens.length + 1) i i 0 le_rfl
    (braceSum_self tokens i).symm (fun k hk1 hk2 => absurd hk1 (by omega)) (by omega)

/-- Canonical-fuel corollary for `find_next_block_end`. -/
theorem findNextBlockEnd_spec (tokens : List Token) (i : Nat) :
    (∀ m, findNextBlockEnd tokens i = some m →
      i ≤ m ∧ blockEndCond tokens i m = true ∧
        ∀ k, i ≤ k → k < m → blockEndCond tokens i k = false) ∧
    (findNextBlockEnd tokens i = none → ∀ k, i ≤ k → blockEndCond tokens i k = false) :=
  findNextBlockEndAux_spec tokens (tokens.length + 1) i i 0 le_rfl
    (braceSum_self tokens i).symm (fun k hk1 hk2 => absurd hk1 (by omega)) (by omega)

theorem blockEndCond_lt {tokens : List Token} {i m : Nat}
    (h : blockEndCond tokens i m = true) : m < tokens.length := by
  by_contra hc
  rw [blockEndCond_false_of_none (List.get?_eq_none.mpr (by omega)) i] at h
  exact Bool.noConfusion h

/-- `find_recovery_idx`'s result does not depend on the fuel once it covers
the remaining token range. -/
theorem findRecoveryIdxAux_fuel_irrel (tokens : List Token) :
    ∀ fuel fuel' i, tokens.length + 1 ≤ fuel + i → tokens.length + 1 ≤ fuel' + i →
      1 ≤ fuel → 1 ≤ fuel' →
      findRecoveryIdxAux tokens fuel i = findRecoveryIdxAux tokens fuel' i := by
  intro fuel
  induction fuel with
  | zero => intro fuel' i h1 h2 h3 h4; omega
  | succ fuel ih =>
    intro fuel' i h1 h2 h3 h4
    obtain ⟨f', rfl⟩ : ∃ f', fuel' = f' + 1 := ⟨fuel' - 1, by omega⟩
    simp only [findRecoveryIdxAux]
    rcases hf : findNextNonBlankToken tokens i with - | ⟨j, t⟩
    · rfl
    · obtain ⟨hij, hget, -, -⟩ := findNextNonBlankToken_some hf
      have hjlt : j < tokens.length := by
        by_contra hc
        rw [List.get?_eq_none.mpr (by omega)] at hget
        exact Option.noConfusion hget
      rcases t with ⟨tk, ts⟩
      dsimp only
      cases tk <;> try rfl
      all_goals {
        rcases hb : findNextBlockEnd tokens j with - | r
        · rfl
        · obtain ⟨hjr, hcond, -⟩ := (findNextBlockEnd_spec tokens j).1 r hb
          have hrlt : r < tokens.length := blockEndCond_lt hcond
          dsimp only
          rcases he : findNextNonBlankToken tokens (r + 1) with - | ⟨e, et⟩
          · rfl
          · obtain ⟨hre, hgete, -, -⟩ := findNextNonBlankToken_some he
            have helt : e < tokens.length := by
              by_contra hc
              rw [List.get?_eq_none.mpr (by omega)] at hgete
              exact Option.noConfusion hgete
            dsimp only
            by_cases hke : et.kind = TokenKind.kwElse
            · rw [if_pos hke, if_pos hke]
              exact ih f' e (by omega) (by omega) (by omega) (by omega)
            · rw [if_neg hke, if_neg hke]
              exact ih f' (r + 1) (by omega) (by omega) (by omega) (by omega)
      }

/-- One-step unfolding of the canonical `find_recovery_idx`, with recursive
occurrences re-expressed canonically. -/
theorem findRecoveryIdx_unfold (tokens : List Token) (i : Nat) :
    findRecoveryIdx tokens i =
      match findNextNonBlankToken tokens i with
      | none => i
      | some (tokenIdx, token) =>
        match token.kind with
        | .kwIf | .lcurlyBrace =>
          (match findNextBlockEnd tokens tokenIdx with
           | none => tokens.length
           | some rcurlyIdx =>
             match findNextNonBlankToken tokens (rcurlyIdx + 1) with
             | some (elseIdx, elseTok) =>
               if elseTok.kind = .kwElse then findRecoveryIdx tokens elseIdx
               else findRecoveryIdx tokens (rcurlyIdx + 1)
             | none => tokens.length)
        | _ =>
          match findNextStatEnd tokens tokenIdx with
          | some j => j + 1
          | none => tokens.length := by
  show findRecoveryIdxAux tokens (tokens.length + 1) i = _
  simp only [findRecoveryIdxAux]
  rcases hf : findNextNonBlankToken tokens i with - | ⟨j, t⟩
  · rfl
  · obtain ⟨hij, hget, -, -⟩ := findNextNonBlankToken_some hf
    have hjlt : j < tokens.length := by
      by_contra hc
      rw [List.get?_eq_none.mpr (by omega)] at hget
      exact Option.noConfusion hget
    rcases t with ⟨tk, ts⟩
    dsimp only
    cases tk <;> try rfl
    all_goals {
      rcases hb : findNextBlockEnd tokens j with - | r
      · rfl
      · obtain ⟨hjr, hcond, -⟩ := (findNextBlockEnd_spec tokens j).1 r hb
        have hrlt : r < tokens.length := blockEndCond_lt hcond
        dsimp only
        rcases he : findNextNonBlankToken tokens (r + 1) with - | ⟨e, et⟩
        · rfl
        · obtain ⟨hre, hgete, -, -⟩ := findNextNonBlankToken_some he
          have helt : e < tokens.length := by
            by_contra hc
            rw [List.get?_eq_none.mpr (by omega)] at hgete
            exact Option.noConfusion hgete
          dsimp only
          by_cases hke : et.kind = TokenKind.kwElse
          · rw [if_pos hke, if_pos hke]
            exact findRecoveryIdxAux_fuel_irrel tokens tokens.length (tokens.length + 1) e
              (by omega) (by omega) (by omega) (by omega)
          · rw [if_neg hke, if_neg hke]
            exact findRecoveryIdxAux_fuel_irrel tokens tokens.length (tokens.length + 1)
              (r + 1) (by omega) (by omega) (by omega) (by omega)
    }

/-- C7, counterexample.  For `"a{};"` the first significant token is an
identifier, the next top-level `;` sits at token index 3, and the claim
says recovery resumes after it (index 4) — but the code resumes at index 3
(it stops after the `}` that closes the balanced brace group, not after the
`;`).  For `"{}x;"` the claim says recovery resumes immediately after the
matching `}` (index 2) — but the code restarts recovery there and returns 4. -/
theorem C7_counterexample_recovery_idx :
    (((getTokens (ucsOfString "a\x7b\x7d;")).get? 3).map Token.kind =
        some TokenKind.semiColon ∧
      findRecoveryIdx (getTokens (ucsOfString "a\x7b\x7d;")) 0 = 3 ∧
      findRecoveryIdx (getTokens (ucsOfString "a\x7b\x7d;")) 0 ≠ 3 + 1) ∧
    (findNextBlockEnd (getTokens (ucsOfString "\x7b\x7dx;")) 0 = some 1 ∧
      findRecoveryIdx (getTokens (ucsOfString "\x7b\x7dx;")) 0 = 4 ∧
      findRecoveryIdx (getTokens (ucsOfString "\x7b\x7dx;")) 0 ≠ 1 + 1) := by
  refine ⟨⟨rfl, rfl, ?_⟩, rfl, rfl, ?_⟩ <;> decide

/-- C7 (amended): the recovery index after a statement-level error.  When
the first non-blank token is `if` or `{`: find the `}` bringing the brace
nesting back to zero (`blockEndCond`, the first such index); if it is
followed by `else`, recovery restarts at the `else`; otherwise recovery
RESTARTS at the position immediately after the `}` (rather than resuming
there); with no closing `}` or nothing after it, the past-the-end index is
returned.  In every other case the scan advances to the first index that is
either a `;` at zero net nesting or a `}` closing a brace group opened
during the scan (`statEndCond`) and resumes after it; if no such index
exists it resumes at the past-the-end index.  (With no non-blank token at
all the failure position itself is returned.) -/
theorem C7_recovery_index_behaviour (tokens : List Token) (i j : Nat) (t : Token) :
    (findNextNonBlankToken tokens i = none → findRecoveryIdx tokens i = i) ∧
    (findNextNonBlankToken tokens i = some (j, t) →
      ((t.kind ≠ .kwIf ∧ t.kind ≠ .lcurlyBrace →
        (∀ m, findNextStatEnd tokens j = some m →
          findRecoveryIdx tokens i = m + 1 ∧ statEndCond tokens j m = true ∧
            ∀ k, j ≤ k → k < m → statEndCond tokens j k = false) ∧
        (findNextStatEnd tokens j = none →
          findRecoveryIdx tokens i = tokens.length ∧
            ∀ k, j ≤ k → statEndCond tokens j k = false)) ∧
      (t.kind = .kwIf ∨ t.kind = .lcurlyBrace →
        (findNextBlockEnd tokens j = none → findRecoveryIdx tokens i = tokens.length) ∧
        (∀ r, findNextBlockEnd tokens j = some r →
          blockEndCond tokens j r = true ∧
          (∀ k, j ≤ k → k < r → blockEndCond tokens j k = false) ∧
          (match findNextNonBlankToken tokens (r + 1) with
           | some (e, et) =>
             findRecoveryIdx tokens i =
               if et.kind = .kwElse then findRecoveryIdx tokens e
               else findRecoveryIdx tokens (r + 1)
           | none => findRecoveryIdx tokens i = tokens.length))))) := by
  constructor
  · intro hf
    rw [findRecoveryIdx_unfold, hf]
  · intro hf
    constructor
    · intro ⟨hk1, hk2⟩
      have hstep : findRecoveryIdx tokens i =
          match findNextStatEnd tokens j with
          | some m => m + 1
          | none => tokens.length := by
        rw [findRecoveryIdx_unfold, hf]
        rcases t with ⟨tk, ts⟩
        cases tk <;> first
          | rfl
          | (exact absurd rfl hk1)
          | (exact absurd rfl hk2)
      constructor
      · intro m hm
        obtain ⟨-, hc, hfirst⟩ := (findNextStatEnd_spec tokens j).1 m hm
        rw [hstep, hm]
        exact ⟨rfl, hc, hfirst⟩
      · intro hm
        rw [hstep, hm]
        exact ⟨rfl, (findNextStatEnd_spec tokens j).2 hm⟩
    · intro hk
      have hstep : findRecoveryIdx tokens i =
          match findNextBlockEnd tokens j with
          | none => tokens.length
          | some rcurlyIdx =>
            match findNextNonBlankToken tokens (rcurlyIdx + 1) with
            | some (elseIdx, elseTok) =>
              if elseTok.kind = .kwElse then findRecoveryIdx tokens elseIdx
              else findRecoveryIdx tokens (rcurlyIdx + 1)
            | none => tokens.length := by
        rw [findRecoveryIdx_unfold, hf]
        rcases t with ⟨tk, ts⟩
        rcases hk with hk | hk <;> (simp only at hk; subst hk; rfl)
      constructor
      · intro hb
        rw [hstep, hb]
      · intro r hb
        obtain ⟨-, hc, hfirst⟩ := (findNextBlockEnd_spec tokens j).1 r hb
        refine ⟨hc, hfirst, ?_⟩
        rw [hstep, hb]
        dsimp only
        rcases he : findNextNonBlankToken tokens (r + 1) with - | ⟨e, et⟩
        · rfl
        · rfl

/-- C7 witness: the amended theorem applied to the concrete stream of
`"{}x;"` (brace branch: recovery restarts after the `}` and lands past the
`;`) and of `"a{};"` (statement branch: recovery stops right after the
closing `}` of the balanced group, at the `;`). -/
theorem C7_witness :
    blockEndCond (getTokens (ucsOfString "\x7b\x7dx;")) 0 1 = true ∧
      findRecoveryIdx (getTokens (ucsOfString "\x7b\x7dx;")) 0 =
        findRecoveryIdx (getTokens (ucsOfString "\x7b\x7dx;")) 2 ∧
      findRecoveryIdx (getTokens (ucsOfString "a\x7b\x7d;")) 0 = 2 + 1 := by
  have h1 := ((C7_recovery_index_behaviour (getTokens (ucsOfString "\x7b\x7dx;")) 0 0
    { kind := .lcurlyBrace, span := ⟨0, 0⟩ }).2 (by rfl)).2 (Or.inr rfl)
  have h2 := (h1.2 1 (by rfl)).2.2
  have h3 := (((C7_recovery_index_behaviour (getTokens (ucsOfString "a\x7b\x7d;")) 0 0
    { kind := .identifier ['a'], span := ⟨0, 0⟩ }).2 (by rfl)).1
    (by constructor <;> simp)).1 2 (by rfl)
  refine ⟨(h1.2 1 (by rfl)).1, ?_, h3.1⟩
  have h2' : findRecoveryIdx (getTokens (ucsOfString "\x7b\x7dx;")) 0 =
      if TokenKind.identifier ['x'] = TokenKind.kwElse then
        findRecoveryIdx (getTokens (ucsOfString "\x7b\x7dx;")) 2
      else findRecoveryIdx (getTokens (ucsOfString "\x7b\x7dx;")) 2 := h2
  simpa using h2'

/-! Lemmas towards C1 and C8: bounds and progress of the string scanner and
of one lexer step. -/

theorem takeWhileEnd_ge (ucs : List Uc) (i : Nat) (f : Uc → Bool) :
    i ≤ takeWhileEnd ucs (i + 1) f := by
  unfold takeWhileEnd
  omega

theorem takeWhileEnd_le {ucs : List Uc} {i : Nat} (f : Uc → Bool)
    (h : i < ucs.length) : takeWhileEnd ucs (i + 1) f ≤ ucs.length - 1 := by
  unfold takeWhileEnd
  have hsub := (List.takeWhile_sublist (l := ucs.drop (i + 1)) (p := f)).length_le
  rw [List.length_drop] at hsub
  omega

theorem findStringEndAux_ge {base : Nat} :
    ∀ (l : List Uc) (prev : Uc) (idx : Nat) (pnl : Option Nat) (r : Nat),
      base ≤ idx → (∀ p, pnl = some p → base ≤ p) →
      findStringEndAux prev l idx pnl = some r → base ≤ r := by
  intro l
  induction l with
  | nil =>
    intro prev idx pnl r hbi hpnl h
    exact hpnl r h
  | cons s rest ih =>
    intro prev idx pnl r hbi hpnl h
    unfold findStringEndAux at h
    split at h
    · exact ih s (idx + 1) (some idx) r (by omega) (fun p hp => by
        rw [Option.some.injEq] at hp
        omega) h
    · split at h
      · rw [Option.some.injEq] at h
        omega
      · exact ih s (idx + 1) pnl r (by omega) hpnl h

theorem findStringEnd_ge {ucs : List Uc} {start r : Nat}
    (h : findStringEnd ucs start = some r) : start ≤ r := by
  unfold findStringEnd at h
  split at h
  · exact findStringEndAux_ge (ucs.drop start) _ start none r le_rfl (by simp) h
  · exact Option.noConfusion h

theorem takeUnicodeHexAux_ge {afterR : Nat} :
    ∀ (l : List Uc) (idx r : Nat), takeUnicodeHexAux afterR l idx = .ok r → idx ≤ r := by
  intro l
  induction l with
  | nil =>
    intro idx r h
    simp [takeUnicodeHexAux] at h
    omega
  | cons s rest ih =>
    intro idx r h
    unfold takeUnicodeHexAux at h
    split at h
    · simp at h
      omega
    · split at h
      · have := ih (idx + 1) r h
        omega
      · exact absurd h (by simp)

theorem takeUnicode_ok_ge {ucs : List Uc} {afterR lbrace r : Nat} {c : List Char}
    (h : takeUnicode ucs afterR lbrace = .ok (r, c)) : lbrace + 1 ≤ r := by
  unfold takeUnicode at h
  split at h
  · exact absurd h (by simp)
  · split at h
    · exact absurd h (by simp)
    · split at h
      · exact absurd h (by simp)
      · dsimp only at h
        split at h <;>
          (split at h
           · exact absurd h (by simp)
           · simp at h
             obtain ⟨h1, -⟩ := h
             subst h1
             exact takeUnicodeHexAux_ge _ _ _ (by assumption))

theorem takeUnicodeHexAux_error {afterR : Nat} :
    ∀ (l : List Uc) (idx : Nat) (e : TakeStringError),
      takeUnicodeHexAux afterR l idx = .error e →
      e.nextUcIdx = afterR ∧ idx ≤ e.errorUcIdx := by
  intro l
  induction l with
  | nil =>
    intro idx e h
    exact absurd h (by simp [takeUnicodeHexAux])
  | cons s rest ih =>
    intro idx e h
    unfold takeUnicodeHexAux at h
    split at h
    · exact absurd h (by simp)
    · split at h
      · obtain ⟨h1, h2⟩ := ih (idx + 1) e h
        exact ⟨h1, by omega⟩
      · simp at h
        subst h
        exact ⟨rfl, le_rfl⟩

theorem takeUnicode_error {ucs : List Uc} {afterR lbrace : Nat} {e : TakeStringError}
    (h : takeUnicode ucs afterR lbrace = .error e) :
    e.nextUcIdx = afterR ∧ lbrace ≤ e.errorUcIdx := by
  unfold takeUnicode at h
  split at h
  · simp at h
    subst h
    exact ⟨rfl, le_rfl⟩
  · split at h
    case _ heq =>
      simp at h
      subst h
      obtain ⟨h1, h2⟩ := takeUnicodeHexAux_error _ _ _ heq
      exact ⟨h1, by omega⟩
    case _ rbrace heq =>
      have hrb : lbrace + 1 ≤ rbrace := takeUnicodeHexAux_ge _ _ _ heq
      split at h
      · simp at h
        subst h
        refine ⟨rfl, ?_⟩
        show lbrace ≤ rbrace
        omega
      · dsimp only at h
        split at h <;>
          (split at h
           · simp at h
             subst h
             refine ⟨rfl, ?_⟩
             show lbrace ≤ lbrace + 1
             omega
           · exact absurd h (by simp))

theorem findStringEndAux_lt :
    ∀ (l : List Uc) (prev : Uc) (idx : Nat) (pnl : Option Nat) (r : Nat),
      (∀ p, pnl = some p → p < idx) →
      findStringEndAux prev l idx pnl = some r → r < idx + l.length := by
  intro l
  induction l with
  | nil =>
    intro prev idx pnl r hpnl h
    have := hpnl r h
    simp only [List.length_nil]
    omega
  | cons s rest ih =>
    intro prev idx pnl r hpnl h
    unfold findStringEndAux at h
    split at h
    · have := ih s (idx + 1) (some idx) r
        (fun p hp => by rw [Option.some.injEq] at hp; omega) h
      simp only [List.length_cons]
      omega
    · split at h
      · rw [Option.some.injEq] at h
        simp only [List.length_cons]
        omega
      · have := ih s (idx + 1) pnl r (fun p hp => by have := hpnl p hp; omega) h
        simp only [List.length_cons]
        omega

theorem findStringEnd_lt {ucs : List Uc} {start r : Nat}
    (h : findStringEnd ucs start = some r) : r < ucs.length := by
  unfold findStringEnd at h
  split at h
  case _ prev hprev =>
    have hs : start - 1 < ucs.length := by
      by_contra hc
      push_neg at hc
      rw [List.get?_eq_none.mpr hc] at hprev
      exact Option.noConfusion hprev
    have := findStringEndAux_lt (ucs.drop start) prev start none r (by simp) h
    rw [List.length_drop] at this
    omega
  · exact Option.noConfusion h

theorem takeStringLoop_spec (ucs : List Uc) (afterR lquote : Nat) :
    ∀ (fuel start : Nat) (inEscape : Bool) (content : List Char), lquote ≤ start →
      (∀ r c, takeStringLoop ucs afterR lquote fuel start inEscape content = .ok (r, c) →
        start ≤ r ∧ ucs.get? r = some (Uc.ascii '"')) ∧
      (∀ e, takeStringLoop ucs afterR lquote fuel start inEscape content = .error e →
        (e.nextUcIdx = afterR ∨ e.nextUcIdx = ucs.length) ∧ lquote ≤ e.errorUcIdx) := by
  intro fuel
  induction fuel with
  | zero =>
    intro start inEscape content hls
    refine ⟨fun r c h => absurd h (by simp [takeStringLoop]), fun e h => ?_⟩
    unfold takeStringLoop at h
    rw [Except.error.injEq] at h
    subst h
    exact ⟨Or.inr rfl, le_rfl⟩
  | succ fuel ih =>
    intro start inEscape content hls
    constructor
    · intro r c h
      unfold takeStringLoop at h
      split at h
      · exact Except.noConfusion h
      rename_i s hget
      split at h
      · split at h
        · split at h
          · exact Except.noConfusion h
          rename_i newStart chunk hUni
          have hge := takeUnicode_ok_ge hUni
          obtain ⟨h1, h2⟩ := (ih (newStart + 1) false (content ++ chunk) (by omega)).1 r c h
          exact ⟨by omega, h2⟩
        · split at h
          · rename_i ch hch
            obtain ⟨h1, h2⟩ := (ih (start + 1) false (content ++ [ch]) (by omega)).1 r c h
            exact ⟨by omega, h2⟩
          · exact Except.noConfusion h
      · split at h
        · rename_i hquote
          rw [Except.ok.injEq, Prod.mk.injEq] at h
          obtain ⟨h1, h2⟩ := h
          subst h1
          rw [hget, hquote]
          exact ⟨le_rfl, rfl⟩
        · split at h
          · obtain ⟨h1, h2⟩ := (ih (start + 1) true content (by omega)).1 r c h
            exact ⟨by omega, h2⟩
          · obtain ⟨h1, h2⟩ := (ih (start + 1) false (content ++ s.str) (by omega)).1 r c h
            exact ⟨by omega, h2⟩
    · intro e h
      unfold takeStringLoop at h
      split at h
      · rw [Except.error.injEq] at h
        subst h
        exact ⟨Or.inr rfl, le_rfl⟩
      rename_i s hget
      split at h
      · split at h
        · split at h
          · rename_i e' hUni
            rw [Except.error.injEq] at h
            subst h
            obtain ⟨h1, h2⟩ := takeUnicode_error hUni
            exact ⟨Or.inl h1, by omega⟩
          · rename_i newStart chunk hUni
            exact (ih (newStart + 1) false (content ++ chunk)
              (by have := takeUnicode_ok_ge hUni; omega)).2 e h
        · split at h
          · rename_i ch hch
            exact (ih (start + 1) false (content ++ [ch]) (by omega)).2 e h
          · rw [Except.error.injEq] at h
            subst h
            exact ⟨Or.inl rfl, hls⟩
      · split at h
        · exact Except.noConfusion h
        · split at h
          · exact (ih (start + 1) true content (by omega)).2 e h
          · exact (ih (start + 1) false (content ++ s.str) (by omega)).2 e h

theorem takeString_spec (ucs : List Uc) (start : Nat) :
    (∀ r c, takeString ucs start = .ok (r, c) →
      start ≤ r ∧ ucs.get? r = some (Uc.ascii '"')) ∧
    (∀ e, takeString ucs start = .error e →
      start - 1 ≤ e.errorUcIdx ∧ e.nextUcIdx ≤ ucs.length ∧
        (e.nextUcIdx = ucs.length ∨ start + 1 ≤ e.nextUcIdx)) := by
  constructor
  · intro r c h
    unfold takeString at h
    split at h
    · exact Except.noConfusion h
    case _ rquote heq =>
      exact (takeStringLoop_spec ucs (rquote + 1) (start - 1)
        (ucs.length + 1) start false [] (by omega)).1 r c h
  · intro e h
    unfold takeString at h
    split at h
    · rw [Except.error.injEq] at h
      subst h
      exact ⟨le_rfl, le_rfl, Or.inl rfl⟩
    case _ rquote heq =>
      obtain ⟨h1, h2⟩ := (takeStringLoop_spec ucs (rquote + 1) (start - 1)
        (ucs.length + 1) start false [] (by omega)).2 e h
      have hge := findStringEnd_ge heq
      have hlt := findStringEnd_lt heq
      rcases h1 with h1 | h1 <;> rw [h1]
      · exact ⟨h2, by omega, Or.inr (by omega)⟩
      · exact ⟨h2, le_rfl, Or.inl rfl⟩

theorem get?_lt_length {α : Type} {l : List α} {i : Nat} {a : α}
    (h : l.get? i = some a) : i < l.length := by
  by_contra hc
  push_neg at hc
  rw [List.get?_eq_none.mpr hc] at h
  exact Option.noConfusion h

theorem lexSingleOk {ucs : List Uc} {n i E : Nat} {k : TokenKind}
    (hk : isInvalidKind k = false) (hge : i ≤ E) (hle : E + 1 ≤ ucs.length) :
    LexStepOk ucs n i ([{ kind := k, span := ⟨i, E⟩ }], E + 1) :=
  ⟨Nat.lt_succ_of_le hge, hle, Or.inl ⟨_, rfl, hk, rfl, hge, rfl⟩⟩

theorem lexPairOk {ucs : List Uc} {n i nxt sf ee si : Nat} {msg : String}
    (h1 : i < nxt) (h2 : nxt ≤ ucs.length) (h3 : si ≤ sf) :
    LexStepOk ucs n i
      ([{ kind := .fakeTokenForInvalid, span := ⟨sf, ee⟩ },
        { kind := .invalid msg n, span := ⟨si, ee⟩ }], nxt) :=
  ⟨h1, h2, Or.inr ⟨_, _, _, rfl, rfl, rfl, rfl, h3⟩⟩

theorem tryMultiByteChar_ok {ucs : List Uc} {n i : Nat} {u : Uc} {r : LexStepResult}
    (hlen : i < ucs.length) (h : tryMultiByteChar ucs n i u = some r) :
    LexStepOk ucs n i r := by
  unfold tryMultiByteChar at h
  split at h
  · exact Option.noConfusion h
  · rw [Option.some.injEq] at h
    subst h
    exact lexPairOk (Nat.lt_succ_of_le (takeWhileEnd_ge ucs i _))
      (Nat.succ_le_of_lt (Nat.lt_of_le_of_lt (takeWhileEnd_le _ hlen) (by omega))) le_rfl

theorem tryNewLine_ok {ucs : List Uc} {n i : Nat} {c : Char} {r : LexStepResult}
    (hlen : i < ucs.length) (h : tryNewLine i c = some r) : LexStepOk ucs n i r := by
  unfold tryNewLine at h
  split at h
  · rw [Option.some.injEq] at h
    subst h
    exact lexSingleOk rfl le_rfl (Nat.succ_le_of_lt hlen)
  · exact Option.noConfusion h

theorem mustBeSingleZero_ok {ucs : List Uc} {n i : Nat} (hlen : i < ucs.length) :
    LexStepOk ucs n i (mustBeSingleZero ucs n i) := by
  unfold mustBeSingleZero
  dsimp only
  split
  · exact lexSingleOk rfl (takeWhileEnd_ge ucs i _)
      (Nat.succ_le_of_lt (Nat.lt_of_le_of_lt (takeWhileEnd_le _ hlen) (by omega)))
  · exact lexPairOk (Nat.lt_succ_of_le (takeWhileEnd_ge ucs i _))
      (Nat.succ_le_of_lt (Nat.lt_of_le_of_lt (takeWhileEnd_le _ hlen) (by omega))) le_rfl

theorem mustBeInteger_ok {ucs : List Uc} {n i : Nat} (hlen : i < ucs.length) :
    LexStepOk ucs n i (mustBeInteger ucs i) := by
  unfold mustBeInteger
  dsimp only
  exact lexSingleOk rfl (takeWhileEnd_ge ucs i _)
    (Nat.succ_le_of_lt (Nat.lt_of_le_of_lt (takeWhileEnd_le _ hlen) (by omega)))

theorem mustBeSpaces_ok {ucs : List Uc} {n i : Nat} (hlen : i < ucs.length) :
    LexStepOk ucs n i (mustBeSpaces ucs i) := by
  unfold mustBeSpaces
  dsimp only
  exact lexSingleOk rfl (takeWhileEnd_ge ucs i _)
    (Nat.succ_le_of_lt (Nat.lt_of_le_of_lt (takeWhileEnd_le _ hlen) (by omega)))

theorem mustBeComment_ok {ucs : List Uc} {n i : Nat} (hlen : i < ucs.length) :
    LexStepOk ucs n i (mustBeComment ucs i) := by
  unfold mustBeComment
  dsimp only
  exact lexSingleOk rfl (takeWhileEnd_ge ucs i _)
    (Nat.succ_le_of_lt (Nat.lt_of_le_of_lt (takeWhileEnd_le _ hlen) (by omega)))

theorem getKeyword_not_invalid {s : List Char} {k : TokenKind}
    (h : getKeyword s = some k) : isInvalidKind k = false := by
  unfold getKeyword at h
  split at h
  · rw [Option.some.injEq] at h; subst h; rfl
  · split at h
    · rw [Option.some.injEq] at h; subst h; rfl
    · split at h
      · rw [Option.some.injEq] at h; subst h; rfl
      · split at h
        · rw [Option.some.injEq] at h; subst h; rfl
        · split at h
          · rw [Option.some.injEq] at h; subst h; rfl
          · exact Option.noConfusion h

theorem mustBeName_ok {ucs : List Uc} {n i : Nat} {c : Char} (hlen : i < ucs.length) :
    LexStepOk ucs n i (mustBeName ucs i c) := by
  unfold mustBeName
  dsimp only
  have hge : i ≤ (if c = '_' then takeWhileEnd ucs (i + 1) ucIsAsciiAlphanumeric
      else takeWhileEnd ucs (i + 1)
        fun v => ucIsAsciiAlphanumeric v || ucStartsWithUnderscore v) := by
    split
    · exact takeWhileEnd_ge ucs i _
    · exact takeWhileEnd_ge ucs i _
  have hle : (if c = '_' then takeWhileEnd ucs (i + 1) ucIsAsciiAlphanumeric
      else takeWhileEnd ucs (i + 1)
        fun v => ucIsAsciiAlphanumeric v || ucStartsWithUnderscore v) + 1 ≤ ucs.length := by
    split
    · exact Nat.succ_le_of_lt (Nat.lt_of_le_of_lt (takeWhileEnd_le _ hlen) (by omega))
    · exact Nat.succ_le_of_lt (Nat.lt_of_le_of_lt (takeWhileEnd_le _ hlen) (by omega))
  split
  · rename_i kind hkw
    exact lexSingleOk (getKeyword_not_invalid hkw) hge hle
  · exact lexSingleOk rfl hge hle

theorem mustBeTwoCharOr_ok {ucs : List Uc} {n i : Nat} {two one : TokenKind}
    (hlen : i < ucs.length) (h2 : isInvalidKind two = false)
    (h1 : isInvalidKind one = false) :
    LexStepOk ucs n i (mustBeTwoCharOr ucs i two one) := by
  unfold mustBeTwoCharOr
  split
  · rename_i hEq
    have := get?_lt_length hEq
    exact lexSingleOk h2 (by omega) (by omega)
  · exact lexSingleOk h1 le_rfl (by omega)

theorem tryMultiByteTokens_ok {ucs : List Uc} {n i : Nat} {c : Char} {r : LexStepResult}
    (hlen : i < ucs.length) (h : tryMultiByteTokens ucs n i c = some r) :
    LexStepOk ucs n i r := by
  unfold tryMultiByteTokens at h
  split at h
  · rw [Option.some.injEq] at h; subst h; exact mustBeSingleZero_ok hlen
  · split at h
    · rw [Option.some.injEq] at h; subst h; exact mustBeInteger_ok hlen
    · split at h
      · rw [Option.some.injEq] at h; subst h; exact mustBeSpaces_ok hlen
      · split at h
        · rw [Option.some.injEq] at h; subst h; exact mustBeComment_ok hlen
        · split at h
          · rw [Option.some.injEq] at h; subst h; exact mustBeName_ok hlen
          · split at h
            · rw [Option.some.injEq] at h; subst h; exact mustBeTwoCharOr_ok hlen rfl rfl
            · split at h
              · rw [Option.some.injEq] at h; subst h; exact mustBeTwoCharOr_ok hlen rfl rfl
              · split at h
                · rw [Option.some.injEq] at h; subst h; exact mustBeTwoCharOr_ok hlen rfl rfl
                · split at h
                  · rw [Option.some.injEq] at h; subst h
                    exact mustBeTwoCharOr_ok hlen rfl rfl
                  · exact Option.noConfusion h

theorem tryString_ok {ucs : List Uc} {n i : Nat} {c : Char} {r : LexStepResult}
    (hlen : i < ucs.length) (h : tryString ucs n i c = some r) :
    LexStepOk ucs n i r := by
  unfold tryString at h
  split at h
  · exact Option.noConfusion h
  · split at h
    case _ newEnd content hts =>
      rw [Option.some.injEq] at h
      subst h
      obtain ⟨hge, hq⟩ := (takeString_spec ucs (i + 1)).1 newEnd content hts
      have hqlt := get?_lt_length hq
      exact lexSingleOk rfl (by omega) (by omega)
    case _ e hts =>
      rw [Option.some.injEq] at h
      subst h
      obtain ⟨h1, h2, h3⟩ := (takeString_spec ucs (i + 1)).2 e hts
      rcases h3 with h3 | h3 <;> exact lexPairOk (by omega) h2 (by omega)

theorem trySingleByteToken_ok {ucs : List Uc} {n i : Nat} {c : Char} {r : LexStepResult}
    (hlen : i < ucs.length) (h : trySingleByteToken i c = some r) :
    LexStepOk ucs n i r := by
  unfold trySingleByteToken at h
  split at h
  case _ kind hk =>
    rw [Option.some.injEq] at h
    subst h
    have hki : isInvalidKind kind = false := by
      unfold getSingleCharTokenKind at hk
      split at hk <;>
        first
        | exact Option.noConfusion hk
        | (rw [Option.some.injEq] at hk; subst hk; rfl)
    exact lexSingleOk hki le_rfl (by omega)
  · exact Option.noConfusion h

theorem mustBeInvalidStuff_ok {ucs : List Uc} {n i : Nat} {c : Char}
    (hlen : i < ucs.length) : LexStepOk ucs n i (mustBeInvalidStuff n i c) := by
  unfold mustBeInvalidStuff
  exact lexPairOk (Nat.lt_succ_self i) (Nat.succ_le_of_lt hlen) le_rfl

theorem lexStep_ok (ucs : List Uc) (n i : Nat) (u : Uc) (hget : ucs.get? i = some u) :
    LexStepOk ucs n i (lexStep ucs n i u) := by
  have hlen : i < ucs.length := get?_lt_length hget
  unfold lexStep
  split
  · rename_i r hr
    exact tryMultiByteChar_ok hlen hr
  · dsimp only
    split
    · rename_i r hr
      exact tryNewLine_ok hlen hr
    · split
      · rename_i r hr
        exact tryMultiByteTokens_ok hlen hr
      · split
        · rename_i r hr
          exact tryString_ok hlen hr
        · split
          · rename_i r hr
            exact trySingleByteToken_ok hlen hr
          · exact mustBeInvalidStuff_ok hlen

theorem getTokensAux_total (ucs : List Uc) :
    ∀ fuel n i, ucs.length + 1 ≤ fuel + i → 1 ≤ fuel →
      (getTokensAux ucs fuel n i).isSome := by
  intro fuel
  induction fuel with
  | zero =>
    intro n i h h1
    omega
  | succ fuel ih =>
    intro n i h h1
    unfold getTokensAux
    cases hget : ucs.get? i with
    | none => simp
    | some u =>
      obtain ⟨hlt, hle, -⟩ := lexStep_ok ucs n i u hget
      have hfuel1 : 1 ≤ fuel := by
        rcases Nat.eq_zero_or_pos fuel with hf | hf
        · exfalso
          have := get?_lt_length hget
          omega
        · exact hf
      have hrec := ih (n + (lexStep ucs n i u).1.length) (lexStep ucs n i u).2
        (by omega) hfuel1
      rw [Option.isSome_iff_exists] at hrec
      obtain ⟨ts, hts⟩ := hrec
      dsimp only
      rw [hts]
      simp

theorem getTokensAux_eq_getTokens (ucs : List Uc) :
    getTokensAux ucs (ucs.length + 1) 0 0 = some (getTokens ucs) := by
  have htot := getTokensAux_total ucs (ucs.length + 1) 0 0 (by omega) (by omega)
  rw [Option.isSome_iff_exists] at htot
  obtain ⟨ts, hts⟩ := htot
  rw [hts]
  unfold getTokens
  rw [hts]
  rfl

theorem getTokensAux_pairs (ucs : List Uc) :
    ∀ fuel n i ts, getTokensAux ucs fuel n i = some ts →
      ∀ k t, ts.get? k = some t → isInvalidKind t.kind = true →
        ∃ msg fk, t.kind = .invalid msg (n + k - 1) ∧ 1 ≤ k ∧
          ts.get? (k - 1) = some fk ∧ fk.kind = .fakeTokenForInvalid ∧
          fk.span.endIncl = t.span.endIncl ∧ t.span.start ≤ fk.span.start := by
  intro fuel
  induction fuel with
  | zero =>
    intro n i ts h
    exact absurd h (by simp [getTokensAux])
  | succ fuel ih =>
    intro n i ts h k t hk hinv
    unfold getTokensAux at h
    split at h
    · rw [Option.some.injEq] at h
      subst h
      exact absurd hk (by simp)
    · rename_i u hget
      dsimp only at h
      split at h
      · exact Option.noConfusion h
      · rename_i rest hrest
        rw [Option.some.injEq] at h
        subst h
        obtain ⟨-, -, hshape⟩ := lexStep_ok ucs n i u hget
        have ihrest := ih _ _ rest hrest
        rcases hshape with ⟨t0, he, hni0, -, -, -⟩ |
            ⟨fk0, inv0, msg0, he, hfk, hinvk, hee, hss⟩
        · have hlen1 : (lexStep ucs n i u).1.length = 1 := by rw [he]; rfl
          rw [hlen1] at ihrest
          rw [he, List.singleton_append] at hk
          cases k with
          | zero =>
            rw [List.get?_cons_zero, Option.some.injEq] at hk
            subst hk
            rw [hni0] at hinv
            exact Bool.noConfusion hinv
          | succ k' =>
            rw [List.get?_cons_succ] at hk
            obtain ⟨msg, fk, h1, h2, h3, h4, h5, h6⟩ := ihrest k' t hk hinv
            refine ⟨msg, fk, ?_, by omega, ?_, h4, h5, h6⟩
            · rw [h1]
              congr 1
              omega
            · rw [he, List.singleton_append]
              show (t0 :: rest).get? k' = some fk
              cases k' with
              | zero => omega
              | succ k'' =>
                rw [List.get?_cons_succ]
                exact h3
        · have hlen2 : (lexStep ucs n i u).1.length = 2 := by rw [he]; rfl
          rw [hlen2] at ihrest
          rw [he] at hk
          simp only [List.cons_append, List.nil_append] at hk
          cases k with
          | zero =>
            rw [List.get?_cons_zero, Option.some.injEq] at hk
            subst hk
            rw [hfk] at hinv
            exact absurd hinv (by decide)
          | succ k' =>
            cases k' with
            | zero =>
              rw [List.get?_cons_succ, List.get?_cons_zero, Option.some.injEq] at hk
              subst hk
              refine ⟨msg0, fk0, hinvk, by omega, ?_, hfk, hee, hss⟩
              rw [he]
              rfl
            | succ k'' =>
              rw [List.get?_cons_succ, List.get?_cons_succ] at hk
              obtain ⟨msg, fk, h1, h2, h3, h4, h5, h6⟩ := ihrest k'' t hk hinv
              refine ⟨msg, fk, ?_, by omega, ?_, h4, h5, h6⟩
              · rw [h1]
                congr 1
                omega
              · rw [he]
                simp only [List.cons_append, List.nil_append]
                show (fk0 :: inv0 :: rest).get? (k'' + 1) = some fk
                rw [List.get?_cons_succ]
                cases k'' with
                | zero => omega
                | succ k3 =>
                  rw [List.get?_cons_succ]
                  exact h3

theorem getTokensAux_tiles (ucs : List Uc) :
    ∀ fuel n i ts, getTokensAux ucs fuel n i = some ts →
      hasInvalid ts = false → i ≤ ucs.length →
      tilesFrom i ucs.length ts = true := by
  intro fuel
  induction fuel with
  | zero =>
    intro n i ts h
    exact absurd h (by simp [getTokensAux])
  | succ fuel ih =>
    intro n i ts h hclean hile
    unfold getTokensAux at h
    split at h
    · rename_i hget
      rw [Option.some.injEq] at h
      subst h
      have hei := List.get?_eq_none.mp hget
      simp [tilesFrom]
      omega
    · rename_i u hget
      dsimp only at h
      split at h
      · exact Option.noConfusion h
      · rename_i rest hrest
        rw [Option.some.injEq] at h
        subst h
        obtain ⟨hlt, hle, hshape⟩ := lexStep_ok ucs n i u hget
        rcases hshape with ⟨t0, he, hni0, hstart, hige, hnext⟩ |
            ⟨fk0, inv0, msg0, he, hfk, hinvk, hee, hss⟩
        · rw [he] at hclean ⊢
          have hrestClean : hasInvalid rest = false := by
            unfold hasInvalid at hclean ⊢
            rw [List.any_eq_false] at hclean ⊢
            intro x hx
            exact hclean x (by simp [hx])
          have htile : tilesFrom (t0.span.endIncl + 1) ucs.length rest = true := by
            rw [hnext]
            exact ih _ _ rest hrest hrestClean hle
          rw [List.singleton_append]
          simp [tilesFrom, hstart, hige, htile]
        · exfalso
          rw [he] at hclean
          unfold hasInvalid at hclean
          rw [List.any_eq_false] at hclean
          exact hclean inv0 (by simp) (by rw [hinvk]; rfl)

/-- C1 counterexample: on the source `"\q"` the lexer's string fault makes the
fake token span only the bad escape grapheme while the Invalid token spans the
whole region (so the fake span is not the offending region), the pair
double-covers graphemes 0-2 and grapheme 3 is covered by no token: the spans
do not partition the source. -/
theorem C1_counterexample_invalid_pair_spans :
    getTokens (ucsOfString "\"\\q\"") =
      [ { kind := .fakeTokenForInvalid, span := ⟨2, 2⟩ },
        { kind := .invalid "invalid escape char `q`" 0, span := ⟨0, 2⟩ } ] ∧
    tilesFrom 0 (ucsOfString "\"\\q\"").length (getTokens (ucsOfString "\"\\q\"")) =
      false :=
  ⟨rfl, rfl⟩

/-- C1 (amended): for every grapheme sequence, lexing terminates (the fuelled
loop completes within `length + 1` iterations); when the stream contains no
Invalid token the spans, taken in order, tile the source exactly; and every
Invalid token is immediately preceded by a FakeTokenForInvalid token recorded
as its back index, whose span ends where the Invalid token's span ends and
starts no earlier (for string faults the fake token marks only the error
grapheme, and the spans need not partition the source). -/
theorem C1_lexing_terminates_pairs_faults_tiles_when_clean (ucs : List Uc) :
    getTokensAux ucs (ucs.length + 1) 0 0 = some (getTokens ucs) ∧
    (hasInvalid (getTokens ucs) = false →
      tilesFrom 0 ucs.length (getTokens ucs) = true) ∧
    (∀ k t, (getTokens ucs).get? k = some t → isInvalidKind t.kind = true →
      ∃ msg fk, t.kind = .invalid msg (k - 1) ∧ 1 ≤ k ∧
        (getTokens ucs).get? (k - 1) = some fk ∧
        fk.kind = .fakeTokenForInvalid ∧
        fk.span.endIncl = t.span.endIncl ∧ t.span.start ≤ fk.span.start) := by
  have htot := getTokensAux_eq_getTokens ucs
  refine ⟨htot, ?_, ?_⟩
  · intro hclean
    exact getTokensAux_tiles ucs (ucs.length + 1) 0 0 (getTokens ucs) htot hclean
      (by omega)
  · intro k t hk hinv
    have := getTokensAux_pairs ucs (ucs.length + 1) 0 0 (getTokens ucs) htot k t hk hinv
    simpa using this

/-- Witness for C1: on `1+2;` the stream is clean and tiles the four
graphemes; on `^` the Invalid token at index 1 carries back index 0 where the
fake token sits. -/
theorem C1_lexing_witness :
    (hasInvalid (getTokens (ucsOfString "1+2;")) = false ∧
      tilesFrom 0 (ucsOfString "1+2;").length (getTokens (ucsOfString "1+2;")) =
        true) ∧
    (∃ msg fk,
      ({ kind := TokenKind.invalid "unsupported `^`" 0, span := ⟨0, 0⟩ } : Token).kind
          = .invalid msg (1 - 1) ∧ 1 ≤ 1 ∧
        (getTokens (ucsOfString "^")).get? (1 - 1) = some fk ∧
        fk.kind = .fakeTokenForInvalid ∧
        fk.span.endIncl =
          ({ kind := TokenKind.invalid "unsupported `^`" 0, span := ⟨0, 0⟩ } : Token).span.endIncl ∧
        ({ kind := TokenKind.invalid "unsupported `^`" 0, span := ⟨0, 0⟩ } : Token).span.start ≤
          fk.span.start) :=
  ⟨⟨rfl,
    have h := (C1_lexing_terminates_pairs_faults_tiles_when_clean
      (ucsOfString "1+2;")).2.1 rfl
    h⟩,
   (C1_lexing_terminates_pairs_faults_tiles_when_clean (ucsOfString "^")).2.2 1
     { kind := TokenKind.invalid "unsupported `^`" 0, span := ⟨0, 0⟩ } rfl rfl⟩

/-- C8 counterexample: in `"a\\";` the quote at grapheme 4 is semantically
unescaped (the preceding `\\` is an escaped backslash), yet `find_string_end`
only checks the immediately preceding grapheme, treats it as escaped, finds no
string end and the lexer reports "unterminated string literal" with no
StringLiteral token. -/
theorem C8_counterexample_escaped_backslash_quote :
    specFirstUnescapedQuote (ucsOfString "\"a\\\\\";") 1 = some 4 ∧
    getTokens (ucsOfString "\"a\\\\\";") =
      [ { kind := .fakeTokenForInvalid, span := ⟨0, 0⟩ },
        { kind := .invalid "unterminated string literal" 0, span := ⟨0, 0⟩ } ] :=
  ⟨rfl, rfl⟩

/-- C8 (amended): the unterminated report is gated by the naive end-scan
`find_string_end` (previous grapheme not `\`), not by spec-level escaping:
when that scan finds nothing the lexer reports "unterminated string literal"
anchored at the opening quote with recovery at end of input; when the decode
loop succeeds the StringLiteral token ends at a closing-quote grapheme after
the opening quote; and every string fault is anchored at or after the opening
quote with recovery never past end of input. -/
theorem C8_string_end_behaviour (ucs : List Uc) (n i : Nat) :
    (findStringEnd ucs (i + 1) = none →
      tryString ucs n i '"' =
        some ([ { kind := .fakeTokenForInvalid, span := ⟨i, i⟩ },
                { kind := .invalid "unterminated string literal" n, span := ⟨i, i⟩ } ],
          ucs.length)) ∧
    (∀ r content, takeString ucs (i + 1) = .ok (r, content) →
      tryString ucs n i '"' =
        some ([ { kind := .stringLiteral content, span := ⟨i, r⟩ } ], r + 1) ∧
      i + 1 ≤ r ∧ ucs.get? r = some (Uc.ascii '"')) ∧
    (∀ e, takeString ucs (i + 1) = .error e →
      i ≤ e.errorUcIdx ∧ e.nextUcIdx ≤ ucs.length) := by
  refine ⟨?_, ?_, ?_⟩
  · intro hnone
    have hts : takeString ucs (i + 1) = .error (unterminatedErr ucs i) := by
      unfold takeString
      rw [hnone]
      rfl
    unfold tryString
    rw [if_neg (by simp), hts]
    rfl
  · intro r content hok
    refine ⟨?_, (takeString_spec ucs (i + 1)).1 r content hok⟩
    unfold tryString
    rw [if_neg (by simp), hok]
  · intro e he
    obtain ⟨h1, h2, -⟩ := (takeString_spec ucs (i + 1)).2 e he
    exact ⟨by omega, h2⟩

/-- Witness for C8: `"ab"` lexes to one StringLiteral spanning graphemes 0-3;
`"a` (no closing quote at all) gives the unterminated fault. -/
theorem C8_string_witness :
    tryString (ucsOfString "\"ab\"") 0 0 '"' =
        some ([ { kind := .stringLiteral ['a', 'b'], span := ⟨0, 3⟩ } ], 3 + 1) ∧
    tryString (ucsOfString "\"a") 0 0 '"' =
        some ([ { kind := .fakeTokenForInvalid, span := ⟨0, 0⟩ },
                { kind := .invalid "unterminated string literal" 0, span := ⟨0, 0⟩ } ],
          (ucsOfString "\"a").length) :=
  ⟨((C8_string_end_behaviour (ucsOfString "\"ab\"") 0 0).2.1 3 ['a', 'b'] rfl).1,
   (C8_string_end_behaviour (ucsOfString "\"a") 0 0).1 rfl⟩

theorem charsByteLen_append (a b : List Char) :
    charsByteLen (a ++ b) = charsByteLen a + charsByteLen b := by
  simp [charsByteLen]

theorem splitNl_props : ∀ cu : List Char,
    (splitInclusiveNl cu).flatten = cu ∧ ∀ l ∈ splitInclusiveNl cu, l ≠ [] := by
  intro cu
  induction cu with
  | nil => exact ⟨rfl, by simp [splitInclusiveNl]⟩
  | cons c rest ih =>
    obtain ⟨ih1, ih2⟩ := ih
    unfold splitInclusiveNl
    split
    · constructor
      · simp [ih1]
      · intro l hl
        rcases List.mem_cons.mp hl with h | h
        · subst h
          simp
        · exact ih2 l h
    · split
      case _ hnil =>
        constructor
        · rw [hnil] at ih1
          simp only [List.flatten_nil] at ih1
          simp [← ih1]
        · intro l hl
          simp at hl
          subst hl
          simp
      case _ l0 ls0 hcons =>
        constructor
        · rw [hcons] at ih1
          simp only [List.flatten_cons] at ih1 ⊢
          simp [ih1]
        · intro l hl
          rcases List.mem_cons.mp hl with h | h
          · subst h
            simp
          · exact ih2 l (by rw [hcons]; simp [h])

theorem flattenByteLen : ∀ (lns : List (List Char)),
    charsByteLen lns.flatten = (lns.map charsByteLen).sum := by
  intro lns
  induction lns with
  | nil => rfl
  | cons l lns' ih =>
    simp only [List.flatten_cons, List.map_cons, List.sum_cons]
    rw [charsByteLen_append, ih]

theorem boundary_split : ∀ (l : List Char) (n : Nat), isCharBoundary l n = true →
    ∃ pre suf, l = pre ++ suf ∧ charsByteLen pre = n := by
  intro l
  induction l with
  | nil =>
    intro n h
    cases n with
    | zero => exact ⟨[], [], rfl, rfl⟩
    | succ n' => exact absurd h (by simp [isCharBoundary])
  | cons c rest ih =>
    intro n h
    cases n with
    | zero => exact ⟨[], c :: rest, rfl, rfl⟩
    | succ n' =>
      unfold isCharBoundary at h
      split at h
      case _ hcond =>
        obtain ⟨pre, suf, hls, hlen⟩ := ih (n' + 1 - Char.utf8Size c) h
        refine ⟨c :: pre, suf, by simp [hls], ?_⟩
        simp only [charsByteLen, List.map_cons, List.sum_cons] at hlen ⊢
        omega
      · exact Bool.noConfusion h

theorem boundary_append : ∀ (pre suf : List Char),
    isCharBoundary (pre ++ suf) (charsByteLen pre) = true := by
  intro pre
  induction pre with
  | nil =>
    intro suf
    rw [show charsByteLen ([] : List Char) = 0 from by simp [charsByteLen]]
    cases suf <;> rfl
  | cons c pre' ih =>
    intro suf
    have h1 := Char.utf8Size_pos c
    obtain ⟨m, hm⟩ : ∃ m, charsByteLen (c :: pre') = m + 1 :=
      ⟨charsByteLen (c :: pre') - 1,
       by simp only [charsByteLen, List.map_cons, List.sum_cons]; omega⟩
    rw [hm]
    show isCharBoundary (c :: (pre' ++ suf)) (m + 1) = true
    simp only [charsByteLen, List.map_cons, List.sum_cons] at hm
    unfold isCharBoundary
    rw [if_pos (by omega)]
    have h2 : m + 1 - Char.utf8Size c = charsByteLen pre' := by
      simp only [charsByteLen]
      omega
    rw [h2]
    exact ih suf

theorem prefix_of_byteLen_le :
    ∀ (P Q Sp Sq : List Char), P ++ Sp = Q ++ Sq →
      charsByteLen P ≤ charsByteLen Q →
      ∃ D, Q = P ++ D ∧ D ++ Sq = Sp := by
  intro P
  induction P with
  | nil =>
    intro Q Sp Sq h hle
    exact ⟨Q, by simp, by simpa using h.symm⟩
  | cons c P' ih =>
    intro Q Sp Sq h hle
    cases Q with
    | nil =>
      exfalso
      have := Char.utf8Size_pos c
      simp only [charsByteLen, List.map_cons, List.sum_cons, List.map_nil,
        List.sum_nil] at hle
      omega
    | cons c' Q' =>
      simp only [List.cons_append, List.cons.injEq] at h
      obtain ⟨hc, ht⟩ := h
      subst hc
      have hle' : charsByteLen P' ≤ charsByteLen Q' := by
        simp only [charsByteLen, List.map_cons, List.sum_cons] at hle ⊢
        omega
      obtain ⟨D, hQ', hSp⟩ := ih Q' Sp Sq ht hle'
      exact ⟨D, by simp [hQ'], hSp⟩

theorem byteDrop_exact : ∀ (pre suf : List Char),
    byteDrop (pre ++ suf) (charsByteLen pre) = .ok suf := by
  intro pre
  induction pre with
  | nil =>
    intro suf
    rw [show charsByteLen ([] : List Char) = 0 from by simp [charsByteLen]]
    cases suf <;> rfl
  | cons c pre' ih =>
    intro suf
    have h1 := Char.utf8Size_pos c
    obtain ⟨m, hm⟩ : ∃ m, charsByteLen (c :: pre') = m + 1 :=
      ⟨charsByteLen (c :: pre') - 1,
       by simp only [charsByteLen, List.map_cons, List.sum_cons]; omega⟩
    rw [hm]
    show byteDrop (c :: (pre' ++ suf)) (m + 1) = .ok suf
    simp only [charsByteLen, List.map_cons, List.sum_cons] at hm
    unfold byteDrop
    rw [if_pos (by omega)]
    have h2 : m + 1 - Char.utf8Size c = charsByteLen pre' := by
      simp only [charsByteLen]
      omega
    rw [h2]
    exact ih suf

theorem byteTake_exact : ∀ (pre suf : List Char),
    byteTake (pre ++ suf) (charsByteLen pre) = .ok pre := by
  intro pre
  induction pre with
  | nil =>
    intro suf
    rw [show charsByteLen ([] : List Char) = 0 from by simp [charsByteLen]]
    cases suf <;> rfl
  | cons c pre' ih =>
    intro suf
    have h1 := Char.utf8Size_pos c
    obtain ⟨m, hm⟩ : ∃ m, charsByteLen (c :: pre') = m + 1 :=
      ⟨charsByteLen (c :: pre') - 1,
       by simp only [charsByteLen, List.map_cons, List.sum_cons]; omega⟩
    rw [hm]
    show byteTake (c :: (pre' ++ suf)) (m + 1) = .ok (c :: pre')
    simp only [charsByteLen, List.map_cons, List.sum_cons] at hm
    unfold byteTake
    rw [if_pos (by omega)]
    have h2 : m + 1 - Char.utf8Size c = charsByteLen pre' := by
      simp only [charsByteLen]
      omega
    rw [h2, ih suf]

theorem byteSlice_exact : ∀ (pre mid suf : List Char),
    byteSlice (pre ++ (mid ++ suf)) (charsByteLen pre)
      (charsByteLen pre + charsByteLen mid) = .ok mid := by
  intro pre mid suf
  unfold byteSlice
  rw [if_pos (by omega), byteDrop_exact pre (mid ++ suf)]
  have h : charsByteLen pre + charsByteLen mid - charsByteLen pre = charsByteLen mid := by
    omega
  rw [h]
  exact byteTake_exact mid suf

theorem getLineAux_found :
    ∀ (lines : List (List Char)) (b0 k b : Nat),
      b0 ≤ b → b < b0 + (lines.map charsByteLen).sum →
      ∃ nr ls line pre post,
        getLineAux (mkLineStartsAux b0 lines) k b = .ok (nr, ls, line) ∧
        lines = pre ++ line :: post ∧ b0 + (pre.map charsByteLen).sum = ls ∧
        ls ≤ b ∧ b < ls + charsByteLen line ∧
        ls + charsByteLen line ≤ b0 + (lines.map charsByteLen).sum := by
  intro lines
  induction lines with
  | nil =>
    intro b0 k b hb0 hlt
    exfalso
    simp at hlt
    omega
  | cons l rest ih =>
    intro b0 k b hb0 hlt
    rcases rest with - | ⟨l2, rest2⟩
    · have hstep : getLineAux (mkLineStartsAux b0 [l]) k b =
          (if b0 ≤ b && true then Except.ok (k + 1, b0, l)
           else getLineAux [] (k + 1) b) := rfl
      refine ⟨k + 1, b0, l, [], [], ?_, rfl, by simp, hb0, ?_, ?_⟩
      · rw [hstep, if_pos (by simp [hb0])]
      · simp only [List.map_cons, List.map_nil, List.sum_cons, List.sum_nil] at hlt
        omega
      · simp only [List.map_cons, List.map_nil, List.sum_cons, List.sum_nil]
        omega
    · have hstep : getLineAux (mkLineStartsAux b0 (l :: l2 :: rest2)) k b =
          (if b0 ≤ b && decide (b < b0 + charsByteLen l) then Except.ok (k + 1, b0, l)
           else getLineAux (mkLineStartsAux (b0 + charsByteLen l) (l2 :: rest2))
             (k + 1) b) := rfl
      by_cases hin : b < b0 + charsByteLen l
      · refine ⟨k + 1, b0, l, [], l2 :: rest2, ?_, rfl, by simp, hb0, hin, ?_⟩
        · rw [hstep, if_pos (by simp [hb0, hin])]
        · simp only [List.map_cons, List.sum_cons]
          omega
      · obtain ⟨nr, ls, line, pre', post', hfind, hdec, hoff, h1, h2, h3⟩ :=
          ih (b0 + charsByteLen l) (k + 1) b (by omega)
            (by simp only [List.map_cons, List.sum_cons] at hlt ⊢; omega)
        refine ⟨nr, ls, line, l :: pre', post', ?_, by simp [hdec], ?_, h1, h2, ?_⟩
        · rw [hstep, if_neg (by simp; omega)]
          exact hfind
        · simp only [List.map_cons, List.sum_cons] at hoff ⊢
          omega
        · simp only [List.map_cons, List.sum_cons] at h3 ⊢
          omega

theorem getLine_found {cu : List Char} {b : Nat} (hb : b < charsByteLen cu) :
    ∃ nr ls line pre post, getLineAux (mkDiagCtx cu) 0 b = .ok (nr, ls, line) ∧
      cu = pre ++ (line ++ post) ∧ charsByteLen pre = ls ∧
      ls ≤ b ∧ b < ls + charsByteLen line ∧
      ls + charsByteLen line ≤ charsByteLen cu := by
  obtain ⟨hflat, hne⟩ := splitNl_props cu
  have htot : ((splitInclusiveNl cu).map charsByteLen).sum = charsByteLen cu := by
    rw [← flattenByteLen, hflat]
  obtain ⟨nr, ls, line, preL, postL, hfind, hdec, hoff, h1, h2, h3⟩ :=
    getLineAux_found (splitInclusiveNl cu) 0 0 b (by omega) (by rw [htot]; omega)
  rw [htot] at h3
  refine ⟨nr, ls, line, preL.flatten, postL.flatten, hfind, ?_, ?_, h1, h2, by omega⟩
  · rw [← hflat, hdec]
    simp [List.flatten_append]
  · rw [flattenByteLen]
    omega

theorem getDiagsLoop_done (cu : List Char) (lst : List (Nat × List Char))
    (fuel : Nat) (d : List SingleLineDiagnostic) (hd : d ≠ []) (hf : 1 ≤ fuel) :
    getDiagsLoop cu lst fuel none none d = .ok d := by
  cases fuel with
  | zero => omega
  | succ fuel =>
    cases d with
    | nil => exact absurd rfl hd
    | cons a as => rfl

theorem getDiagsLoop_ctx_at_end (cu : List Char) (lst : List (Nat × List Char))
    (fuel v : Nat) (d : List SingleLineDiagnostic) (hv : v = charsByteLen cu)
    (hd : d ≠ []) (hf : 1 ≤ fuel) :
    getDiagsLoop cu lst fuel (some v) none d = .ok d := by
  cases fuel with
  | zero => omega
  | succ fuel =>
    unfold getDiagsLoop
    dsimp only
    rw [if_pos hv]
    cases d with
    | nil => exact absurd rfl hd
    | cons a as => rfl

theorem getDiagsLoop_err_only (cu : List Char) :
    ∀ fuel s e diags, s ≤ e → e < charsByteLen cu →
      isCharBoundary cu s = true → isCharBoundary cu (e + 1) = true →
      charsByteLen cu + 2 ≤ fuel + s →
      ∃ ds, getDiagsLoop cu (mkDiagCtx cu) fuel none (some ⟨s, e⟩) diags =
        .ok (diags ++ ds) ∧ ds ≠ [] := by
  intro fuel
  induction fuel with
  | zero =>
    intro s e diags hse hel hbs hbe hf
    exfalso
    omega
  | succ fuel ih =>
    intro s e diags hse hel hbs hbe hf
    obtain ⟨lineNr, ls, line, P, S, hGL, hcu, hPlen, h1, h2, h3⟩ :=
      getLine_found (show s < charsByteLen cu by omega)
    obtain ⟨A, B, hAB, hAlen⟩ := boundary_split cu s hbs
    obtain ⟨lead, hAeq, hB⟩ :=
      prefix_of_byteLen_le P A (line ++ S) B (hcu.symm.trans hAB) (by omega)
    have hleadLen : charsByteLen lead = s - ls := by
      have hA2 := congrArg charsByteLen hAeq
      rw [charsByteLen_append] at hA2
      omega
    obtain ⟨D, hlineEq, hS⟩ :=
      prefix_of_byteLen_le lead line B S hB (by omega)
    have hDlen : charsByteLen D = charsByteLen line - (s - ls) := by
      have hl2 := congrArg charsByteLen hlineEq
      rw [charsByteLen_append] at hl2
      omega
    have hcs1 : checkedSubB s ls = .ok (s - ls) := by
      unfold checkedSubB
      rw [if_pos h1]
    have hcs2 : checkedSubB e ls = .ok (e - ls) := by
      unfold checkedSubB
      rw [if_pos (by omega)]
    have hlead : byteSlice line 0 (s - ls) = .ok lead := by
      have h0 := byteSlice_exact [] lead D
      rw [hlineEq, ← hleadLen]
      simpa [charsByteLen] using h0
    by_cases hfit : charsByteLen line > e - ls
    · obtain ⟨A2, B2, hAB2, hA2len⟩ := boundary_split cu (e + 1) hbe
      obtain ⟨mid, hA2eq, hB2⟩ :=
        prefix_of_byteLen_le A A2 B B2 (hAB.symm.trans hAB2) (by omega)
      have hmidLen : charsByteLen mid = e + 1 - s := by
        have hx := congrArg charsByteLen hA2eq
        rw [charsByteLen_append] at hx
        omega
      obtain ⟨rest, hDeq, hrest⟩ :=
        prefix_of_byteLen_le mid D B2 S (hB2.trans hS.symm) (by omega)
      have herr : byteSlice line (s - ls) (e - ls + 1) = .ok mid := by
        have h0 := byteSlice_exact lead mid rest
        rw [hlineEq, hDeq,
          show s - ls = charsByteLen lead from hleadLen.symm,
          show e - ls + 1 = charsByteLen lead + charsByteLen mid from by omega]
        exact h0
      refine ⟨[mkFrame line lineNr lead ([] : List Char) mid], ?_, by simp⟩
      unfold getDiagsLoop
      dsimp only
      rw [if_neg (by omega), hGL]
      dsimp only
      rw [hcs1]
      dsimp only
      rw [hcs2]
      dsimp only
      rw [hlead]
      dsimp only
      rw [if_pos hfit, herr]
      dsimp only
      exact getDiagsLoop_done cu (mkDiagCtx cu) fuel _ (by simp) (by omega)
    · have herr2 : byteSlice line (s - ls) (charsByteLen line) = .ok D := by
        have h0 := byteSlice_exact lead D []
        rw [hlineEq,
          show s - ls = charsByteLen lead from hleadLen.symm,
          charsByteLen_append]
        simpa using h0
      have hs' : s + charsByteLen D = ls + charsByteLen line := by omega
      have hbs' : isCharBoundary cu (ls + charsByteLen line) = true := by
        have h0 := boundary_append (P ++ line) S
        rw [charsByteLen_append, hPlen] at h0
        rwa [List.append_assoc, ← hcu] at h0
      obtain ⟨ds', hds', hne'⟩ := ih (ls + charsByteLen line) e
        (diags ++ [mkFrame line lineNr lead ([] : List Char) D])
        (by omega) hel hbs' hbe (by omega)
      refine ⟨[mkFrame line lineNr lead ([] : List Char) D] ++ ds', ?_, by simp⟩
      unfold getDiagsLoop
      dsimp only
      rw [if_neg (by omega), hGL]
      dsimp only
      rw [hcs1]
      dsimp only
      rw [hcs2]
      dsimp only
      rw [hlead]
      dsimp only
      rw [if_neg hfit, herr2]
      dsimp only
      rw [hs', ← List.append_assoc]
      exact hds'

theorem getDiagsLoop_ctx_only (cu : List Char) :
    ∀ fuel s diags, s < charsByteLen cu → isCharBoundary cu s = true →
      charsByteLen cu + 2 ≤ fuel + s →
      ∃ ds, getDiagsLoop cu (mkDiagCtx cu) fuel (some s) none diags =
        .ok (diags ++ ds) ∧ ds ≠ [] := by
  intro fuel
  induction fuel with
  | zero =>
    intro s diags hs hbs hf
    exfalso
    omega
  | succ fuel ih =>
    intro s diags hs hbs hf
    obtain ⟨lineNr, ls, line, P, S, hGL, hcu, hPlen, h1, h2, h3⟩ := getLine_found hs
    obtain ⟨A, B, hAB, hAlen⟩ := boundary_split cu s hbs
    obtain ⟨lead, hAeq, hB⟩ :=
      prefix_of_byteLen_le P A (line ++ S) B (hcu.symm.trans hAB) (by omega)
    have hleadLen : charsByteLen lead = s - ls := by
      have hA2 := congrArg charsByteLen hAeq
      rw [charsByteLen_append] at hA2
      omega
    obtain ⟨D, hlineEq, hS⟩ :=
      prefix_of_byteLen_le lead line B S hB (by omega)
    have hDlen : charsByteLen D = charsByteLen line - (s - ls) := by
      have hl2 := congrArg charsByteLen hlineEq
      rw [charsByteLen_append] at hl2
      omega
    have hcs1 : checkedSubB s ls = .ok (s - ls) := by
      unfold checkedSubB
      rw [if_pos h1]
    have hlead : byteSlice line 0 (s - ls) = .ok lead := by
      have h0 := byteSlice_exact [] lead D
      rw [hlineEq, ← hleadLen]
      simpa [charsByteLen] using h0
    have hctx : byteSlice line (charsByteLen lead) (charsByteLen line) = .ok D := by
      have h0 := byteSlice_exact lead D []
      rw [hlineEq, charsByteLen_append]
      simpa using h0
    have hs' : s + charsByteLen D = ls + charsByteLen line := by omega
    have hbs' : isCharBoundary cu (ls + charsByteLen line) = true := by
      have h0 := boundary_append (P ++ line) S
      rw [charsByteLen_append, hPlen] at h0
      rwa [List.append_assoc, ← hcu] at h0
    by_cases hend : ls + charsByteLen line = charsByteLen cu
    · refine ⟨[mkFrame line lineNr lead D ([] : List Char)], ?_, by simp⟩
      unfold getDiagsLoop
      dsimp only
      rw [if_neg (by omega), hGL]
      dsimp only
      rw [hcs1]
      dsimp only
      rw [hlead]
      dsimp only
      rw [hctx]
      dsimp only
      rw [hs']
      exact getDiagsLoop_ctx_at_end cu (mkDiagCtx cu) fuel _ _ hend (by simp) (by omega)
    · obtain ⟨ds', hds', hne'⟩ := ih (ls + charsByteLen line)
        (diags ++ [mkFrame line lineNr lead D ([] : List Char)])
        (by omega) hbs' (by omega)
      refine ⟨[mkFrame line lineNr lead D ([] : List Char)] ++ ds', ?_, by simp⟩
      unfold getDiagsLoop
      dsimp only
      rw [if_neg (by omega), hGL]
      dsimp only
      rw [hcs1]
      dsimp only
      rw [hlead]
      dsimp only
      rw [hctx]
      dsimp only
      rw [hs', ← List.append_assoc]
      exact hds'

/-- C6 counterexample: with both inputs absent `get_diags` reaches the
empty-result check and panics `BUG: no diags` for EVERY compilation unit,
instead of producing no output; and numerically in-range inputs can still
panic: on the unit `abc` a context start of 2 with error span `[0,0]` (all
in range) panics in the reversed slice `line[leading.len()..error_start_idx]`,
and on the unit `é` the error span `[1,1]` (inside `bytes_len = 2`) panics
slicing at byte 1, which is not a character boundary. -/
theorem C6_counterexample_diags :
    (∀ cu : List Char, getDiags cu none none = .error "BUG: no diags") ∧
    getDiags "abc".data (some 2) (some ⟨0, 0⟩) =
      .error "slice index starts after it ends" ∧
    getDiags "é".data none (some ⟨1, 1⟩) =
      .error "byte index is not a char boundary" :=
  ⟨fun _ => rfl, rfl, rfl⟩

/-- C6 (amended): when both inputs are absent `get_diags` panics
(`BUG: no diags`) rather than producing no output.  A single input never
panics and renders at least one caret frame exactly when it is strictly
in range AND its byte indices are character boundaries of the unit (the
indices the renderer actually receives, coming from token spans, are such
boundaries): an error byte span alone with start at most the inclusive end,
inclusive end inside the unit, and start and end-plus-one on character
boundaries; or a context start alone inside the unit on a character
boundary.  Numerically in-range indices off a character boundary panic in
the slicing, and with both inputs present an in-range context start after
the error start also panics (see the counterexample). -/
theorem C6_diags_behaviour (cu : List Char) :
    getDiags cu none none = .error "BUG: no diags" ∧
    (∀ s e, s ≤ e → e < charsByteLen cu →
      isCharBoundary cu s = true → isCharBoundary cu (e + 1) = true →
      ∃ ds, getDiags cu none (some ⟨s, e⟩) = .ok ds ∧ ds ≠ []) ∧
    (∀ s, s < charsByteLen cu → isCharBoundary cu s = true →
      ∃ ds, getDiags cu (some s) none = .ok ds ∧ ds ≠ []) := by
  refine ⟨rfl, ?_, ?_⟩
  · intro s e hse hel hbs hbe
    obtain ⟨ds, hds, hne⟩ := getDiagsLoop_err_only cu (charsByteLen cu + 4) s e []
      hse hel hbs hbe (by omega)
    exact ⟨ds, by simpa using hds, hne⟩
  · intro s hs hbs
    obtain ⟨ds, hds, hne⟩ := getDiagsLoop_ctx_only cu (charsByteLen cu + 4) s []
      hs hbs (by omega)
    exact ⟨ds, by simpa using hds, hne⟩

/-- Witness for C6: on the two-line unit `ab\nc`, an error span alone and a
context start alone (both on character boundaries) each render a nonempty
frame list. -/
theorem C6_diags_witness :
    (∃ ds, getDiags "ab\nc".data none (some ⟨1, 1⟩) = .ok ds ∧ ds ≠ []) ∧
    (∃ ds, getDiags "ab\nc".data (some 3) none = .ok ds ∧ ds ≠ []) :=
  ⟨(C6_diags_behaviour "ab\nc".data).2.1 1 1 (by decide) (by decide) (by decide)
     (by decide),
   (C6_diags_behaviour "ab\nc".data).2.2 3 (by decide) (by decide)⟩

end LifeLang
